import Mathlib

/-!
# rasputin: rasters, boundary resampling, meshes and terrain analytics

A shallow embedding of `src/rasputin/triangulate_dem.h`.

Conventions of the embedding.

* `double` values are exact rationals.  A division whose divisor is zero has no
  finite result (`inf` or `NaN` in the source); it is `none` here, see `fdiv`.
  Where the divisor is known to be non-zero at that place of the code (a spacing
  that already passed through `fdiv`, the count `num_subedges >= 1`) the division
  is the division of the rationals.
* `int` is the 32 bit signed type.  `static_cast<int>` of a `double` truncates
  toward zero and is undefined outside the `int` range (`none`).  A `size_t`
  value converted to `int` is reduced modulo `2^32`.
* `size_t` values are natural numbers.  The only `size_t` subtraction in the
  code, `num_points - 1`, wraps modulo `2^64`; sums and products of `size_t`
  values are positions in the data array and are not reduced.
* `data` is the array behind the raw pointer `FT* data`; a read outside of it has
  no defined value (`none`).
* `sqrt`, where it appears as an argument, stands for the square root of the
  maths library (`pow(., 0.5)`, `arma::norm`); the properties a theorem needs of
  it are hypotheses of that theorem.  The same holds for `atan2` and `M_PI`.
* A vector whose components come out of divisions has components `Option ℚ`; a
  comparison with a component that has no value is false, as with `NaN`.
* What CGAL computes is an argument: the face normal and the ray query of
  `compute_shadow`, the simplified mesh of `make_tin`.
* `compute_slope` is written over any field; the statement about its range is
  made on the real numbers, with the real square root and the angle function
  `real_atan2`.
-/

namespace rasputin

/-! ## Machine arithmetic -/

/-- Smallest value of `int`. -/
def INT_MIN : Int := -2147483648

/-- Largest value of `int`. -/
def INT_MAX : Int := 2147483647

/-- Division of two `double`s: without a finite value when the divisor is zero. -/
def fdiv (a b : ℚ) : Option ℚ :=
  if b = 0 then none else some (a / b)

/-- Truncation toward zero. -/
def trunc (q : ℚ) : Int :=
  if 0 ≤ q then ⌊q⌋ else ⌈q⌉

/-- The conversion `static_cast<int>(q)` of a `double`: truncation toward zero,
undefined when the truncated value is no `int`. -/
def static_cast_int (q : ℚ) : Option Int :=
  if INT_MIN ≤ trunc q ∧ trunc q ≤ INT_MAX then some (trunc q) else none

/-- The `size_t` difference `a - b`, modulo `2^64`. -/
def size_t_sub (a b : Nat) : Nat :=
  (a + 2 ^ 64 - b % 2 ^ 64) % 2 ^ 64

/-- Conversion of a `size_t` value to `int`: reduction modulo `2^32` into the
range of `int`. -/
def size_t_to_int (n : Nat) : Int :=
  ((n : Int) + 2 ^ 31) % 2 ^ 32 - 2 ^ 31

/-- The `int` sum `a + b`, undefined on overflow. -/
def int_add (a b : Int) : Option Int :=
  if INT_MIN ≤ a + b ∧ a + b ≤ INT_MAX then some (a + b) else none

/-- The read `data[idx]` through the raw pointer, `idx` being the value of the
index expression; a negative value wraps to a position beyond every array. -/
def read_at (data : List ℚ) (idx : Int) : Option ℚ :=
  if 0 ≤ idx then data[idx.toNat]? else none

/-! ## RasterData -/

/-- The struct `RasterData<FT>`, fields in the order of the source. -/
structure RasterData where
  x_min : ℚ
  delta_x : ℚ
  num_points_x : Nat
  y_max : ℚ
  delta_y : ℚ
  num_points_y : Nat
  data : List ℚ

/-- A point of `CGAL::PointList` whose third coordinate is read from the raster:
`(x, y, z)` with `z = none` when the read has no defined value. -/
abbrev RasterPoint := ℚ × ℚ × Option ℚ

namespace RasterData

/-- The method `get_x_max`. -/
def get_x_max (r : RasterData) : ℚ :=
  r.x_min + (size_t_sub r.num_points_x 1 : Nat) * r.delta_x

/-- The method `get_y_min`. -/
def get_y_min (r : RasterData) : ℚ :=
  r.y_max - (size_t_sub r.num_points_y 1 : Nat) * r.delta_y

/-- The method `raster_points`: the outer loop over rows `i`, the inner loop over columns `j`. -/
def raster_points (r : RasterData) : List RasterPoint :=
  (List.range r.num_points_y).flatMap fun (i : Nat) =>
    (List.range r.num_points_x).map fun (j : Nat) =>
      (r.x_min + (j : ℚ) * r.delta_x, r.y_max - (i : ℚ) * r.delta_y,
        r.data[i * r.num_points_x + j]?)

/-- The method `get_indices`: the pair `(i, j)`. -/
def get_indices (r : RasterData) (x y : ℚ) : Option (Int × Int) := do
  let qx ← fdiv (x - r.x_min) r.delta_x
  let tx ← static_cast_int qx
  let j := min (max tx 0) (size_t_to_int (size_t_sub r.num_points_x 1))
  let qy ← fdiv (r.y_max - y) r.delta_y
  let ty ← static_cast_int qy
  let i := min (max ty 0) (size_t_to_int (size_t_sub r.num_points_y 1))
  pure (i, j)

/-- The method `get_interpolated_value_at_point`: bilinear interpolation on the
cell whose upper-left vertex is `get_indices`.  The spacings are non-zero once
`get_indices` has a value. -/
def get_interpolated_value_at_point (r : RasterData) (x y : ℚ) : Option ℚ := do
  let (i, j) ← r.get_indices x y
  let j1 ← int_add j 1
  let i1 ← int_add i 1
  let x_0 := r.x_min + (j : ℚ) * r.delta_x
  let y_0 := r.y_max - (i : ℚ) * r.delta_y
  let x_1 := r.x_min + (j1 : ℚ) * r.delta_x
  let y_1 := r.y_max - (i1 : ℚ) * r.delta_y
  let d00 ← read_at r.data ((i + 0) * r.num_points_x + j + 0)
  let d10 ← read_at r.data (i1 * r.num_points_x + j + 0)
  let d01 ← read_at r.data ((i + 0) * r.num_points_x + j + 1)
  let d11 ← read_at r.data (i1 * r.num_points_x + j + 1)
  pure (d00 * (x_1 - x) / r.delta_x * (y - y_1) / r.delta_y
      + d10 * (x_1 - x) / r.delta_x * (y_0 - y) / r.delta_y
      + d01 * (x - x_0) / r.delta_x * (y - y_1) / r.delta_y
      + d11 * (x - x_0) / r.delta_x * (y_0 - y) / r.delta_y)

/-- The local `bool eps` of `contains`: the product
`pow(pow(delta_x, 2) + pow(delta_y, 2), 0.5) * 1e-10` converted to `bool`. -/
def contains_eps (sqrt : ℚ → ℚ) (r : RasterData) : Bool :=
  decide (sqrt (r.delta_x ^ 2 + r.delta_y ^ 2) * (1 / 10000000000) ≠ 0)

/-- The method `contains`: in the comparisons the `bool eps` is promoted to `0` or `1`. -/
def contains (sqrt : ℚ → ℚ) (r : RasterData) (x y : ℚ) : Bool :=
  let eps : ℚ := if contains_eps sqrt r then 1 else 0
  decide (x > r.x_min + eps) && decide (x < r.get_x_max - eps)
    && decide (y > r.get_y_min + eps) && decide (y < r.y_max - eps)

end RasterData

/-! ## interpolate_boundary_points -/

/-- A planar point `CGAL::Point2`. -/
abbrev Point2 := ℚ × ℚ

/-- An edge of a polygon boundary: `vertex(0)` and `vertex(1)`. -/
abbrev Edge := Point2 × Point2

/-- Conversion of an `int` to `size_t`: reduction modulo `2^64`. -/
def int_to_size_t (z : Int) : Nat :=
  (z % 2 ^ 64).toNat

/-- The local `num_subedges` of `interpolate_boundary_points` after its two
assignments: the `int` cast of the larger cell count, stored in a `size_t`, then
`std::max<int>(1, num_subedges)` stored in the `size_t` again. -/
def num_subedges (r : RasterData) (edge_len_x edge_len_y : ℚ) : Option Nat := do
  let qx ← fdiv edge_len_x r.delta_x
  let qy ← fdiv edge_len_y r.delta_y
  let t ← static_cast_int (max |qx| |qy|)
  let num_subedges : Nat := int_to_size_t t
  pure (int_to_size_t (max 1 (size_t_to_int num_subedges)))

/-- The inner loop over the edge samples `k = 0, ..., num_subedges`. -/
def edge_samples (r : RasterData) (first_vertex : Point2) (edge_dx edge_dy : ℚ)
    (num_subedges : Nat) : List RasterPoint :=
  (List.range (num_subedges + 1)).map fun (k : Nat) =>
    let x := first_vertex.1 + (k : ℚ) * edge_dx
    let y := first_vertex.2 + (k : ℚ) * edge_dy
    let z := r.get_interpolated_value_at_point x y
    (x, y, z)

/-- One iteration of the loop over the edges `e` of an outer boundary:
`interpolated_points` is the result accumulated so far. -/
def boundary_edge (sqrt : ℚ → ℚ) (r : RasterData)
    (interpolated_points : List (List RasterPoint)) (e : Edge) :
    Option (List (List RasterPoint)) :=
  let first_vertex := e.1
  let second_vertex := e.2
  let edge_is_aligned := !(r.contains sqrt ((first_vertex.1 + second_vertex.1) / 2)
    ((first_vertex.2 + second_vertex.2) / 2))
  if edge_is_aligned then
    some interpolated_points
  else do
    let edge_len_x := second_vertex.1 - first_vertex.1
    let edge_len_y := second_vertex.2 - first_vertex.2
    let n ← num_subedges r edge_len_x edge_len_y
    let edge_dx := edge_len_x / (n : ℚ)
    let edge_dy := edge_len_y / (n : ℚ)
    let interpolated_points_on_edge := edge_samples r first_vertex edge_dx edge_dy n
    some (interpolated_points ++ [interpolated_points_on_edge])

/-- The function `interpolate_boundary_points`.  The argument `intersection_polygon` is the
value of `raster.compute_intersection(boundary_polygon)`, a CGAL computation:
for each part the edges of its outer boundary, in order. -/
def interpolate_boundary_points (sqrt : ℚ → ℚ) (r : RasterData)
    (intersection_polygon : List (List Edge)) : Option (List (List RasterPoint)) :=
  intersection_polygon.foldlM (fun acc part => part.foldlM (boundary_edge sqrt r) acc) []

/-! ## orient_tin -/

/-- A point `std::array<double, 3>`. -/
abbrev Point := ℚ × ℚ × ℚ

/-- A face `std::array<int, 3>`. -/
abbrev Face := Int × Int × Int

/-- A vector computed by divisions: each component is `none` when its division
has no finite value. -/
abbrev Vector := Option ℚ × Option ℚ × Option ℚ

/-- The read `pts[i]` of a point list. -/
def point_at (pts : List Point) (i : Int) : Option Point :=
  if 0 ≤ i then pts[i.toNat]? else none

/-- The cross product `arma::cross`. -/
def cross (a b : Point) : Point :=
  (a.2.1 * b.2.2 - a.2.2 * b.2.1, a.2.2 * b.1 - a.1 * b.2.2, a.1 * b.2.1 - a.2.1 * b.1)

/-- The Euclidean norm `arma::norm`. -/
def norm (sqrt : ℚ → ℚ) (n : Point) : ℚ :=
  sqrt (n.1 ^ 2 + n.2.1 ^ 2 + n.2.2 ^ 2)

/-- The cross product `n` of the two edge vectors of a face, as `orient_tin`
computes it from the three points. -/
def face_cross (p0 p1 p2 : Point) : Point :=
  let v0 : Point := (p1.1 - p0.1, p1.2.1 - p0.2.1, p1.2.2 - p0.2.2)
  let v1 : Point := (p2.1 - p0.1, p2.2.1 - p0.2.1, p2.2.2 - p0.2.2)
  cross v0 v1

/-- The body of the loop of `orient_tin`: the normal pushed on `result` and the
face as the loop leaves it. -/
def orient_face (sqrt : ℚ → ℚ) (pts : List Point) (face : Face) : Option (Vector × Face) := do
  let p0 ← point_at pts face.1
  let p1 ← point_at pts face.2.1
  let p2 ← point_at pts face.2.2
  let n := face_cross p0 p1 p2
  let c := norm sqrt n
  if n.2.2 < 0 then
    let c := c * (-1)
    pure ((fdiv n.1 c, fdiv n.2.1 c, fdiv n.2.2 c), (face.2.2, face.2.1, face.1))
  else
    pure ((fdiv n.1 c, fdiv n.2.1 c, fdiv n.2.2 c), face)

/-- The function `orient_tin`: the list `result` and the face list after the call. -/
def orient_tin (sqrt : ℚ → ℚ) (pts : List Point) : List Face → Option (List Vector × List Face)
  | [] => some ([], [])
  | face :: faces => do
      let (v, f) ← orient_face sqrt pts face
      let (result, oriented) ← orient_tin sqrt pts faces
      pure (v :: result, f :: oriented)

/-! ## Values that may be NaN -/

/-- The comparison `a >= 0.0`: false when `a` has no value. -/
def ge_zero (a : Option ℚ) : Bool :=
  match a with
  | some x => decide (0 ≤ x)
  | none => false

/-- The comparison `a < b` of two `double`s: false when one of them has no value. -/
def flt (a b : Option ℚ) : Bool :=
  match a, b with
  | some x, some y => decide (x < y)
  | _, _ => false

/-- The negation `-a`. -/
def fneg (a : Option ℚ) : Option ℚ :=
  a.map fun x => -x

/-- The statement `n /= arma::norm(n)`. -/
def normalize (sqrt : ℚ → ℚ) (n : Point) : Vector :=
  let c := norm sqrt n
  (fdiv n.1 c, fdiv n.2.1 c, fdiv n.2.2 c)

/-- The conditional expression `n[2] >= 0.0 ? Vector{n[0], n[1], n[2]} :
Vector{-n[0], -n[1], -n[2]}`. -/
def upward (n : Vector) : Vector :=
  if ge_zero n.2.2 then (n.1, n.2.1, n.2.2) else (fneg n.1, fneg n.2.1, fneg n.2.2)

/-- The function `normal`. -/
def normal (sqrt : ℚ → ℚ) (p0 p1 p2 : Point) : Vector :=
  let n := face_cross p0 p1 p2
  let n := normalize sqrt n
  upward n

/-- The function `surface_normals`. -/
def surface_normals (sqrt : ℚ → ℚ) (pts : List Point) : List Face → Option (List Vector)
  | [] => some []
  | face :: faces => do
      let p0 ← point_at pts face.1
      let p1 ← point_at pts face.2.1
      let p2 ← point_at pts face.2.2
      let result ← surface_normals sqrt pts faces
      pure (normal sqrt p0 p1 p2 :: result)

/-- The function `compute_slope`, over any field of numbers: `sqrt` stands for
`pow(., 0.5)` and `atan2` for `std::atan2`. -/
def compute_slope {K : Type} [Field K] (sqrt : K → K) (atan2 : K → K → K)
    (normal : K × K × K) : K :=
  atan2 (sqrt (normal.1 ^ 2 + normal.2.1 ^ 2)) normal.2.2

/-- The function `compute_aspect`. -/
def compute_aspect {K : Type} (atan2 : K → K → K) (normal : K × K × K) : K :=
  atan2 normal.1 normal.2.1

/-- The call `compute_slope(normal)` on a vector that may hold NaN: without a
value when a component that the function reads has none. -/
def slope_of (sqrt : ℚ → ℚ) (atan2 : ℚ → ℚ → ℚ) (normal : Vector) : Option ℚ := do
  let n0 ← normal.1
  let n1 ← normal.2.1
  let n2 ← normal.2.2
  pure (compute_slope sqrt atan2 (n0, n1, n2))

/-- The call `compute_aspect(normal)` on a vector that may hold NaN; the function
reads the first two components. -/
def aspect_of (atan2 : ℚ → ℚ → ℚ) (normal : Vector) : Option ℚ := do
  let n0 ← normal.1
  let n1 ← normal.2.1
  pure (compute_aspect atan2 (n0, n1, (0 : ℚ)))

/-! ## point_normals -/

/-- The function `partition`: `part1` and `part2`. -/
def partition (pts : List Point) (criterion : Point → Point → Point → Bool) :
    List Face → Option (List Face × List Face)
  | [] => some ([], [])
  | face :: faces => do
      let p0 ← point_at pts face.1
      let p1 ← point_at pts face.2.1
      let p2 ← point_at pts face.2.2
      let (part1, part2) ← partition pts criterion faces
      if criterion p0 p1 p2 then pure (face :: part1, part2)
      else pure (part1, face :: part2)

/-- The criterion of `extract_lakes`. -/
def lake_criterion (sqrt : ℚ → ℚ) (atan2 : ℚ → ℚ → ℚ) (p0 p1 p2 : Point) : Bool :=
  flt (slope_of sqrt atan2 (normal sqrt p0 p1 p2)) (some (1 / 100))

/-- The function `extract_lakes`. -/
def extract_lakes (sqrt : ℚ → ℚ) (atan2 : ℚ → ℚ → ℚ) (pts : List Point)
    (faces : List Face) : Option (List Face × List Face) :=
  partition pts (lake_criterion sqrt atan2) faces

/-- The criterion of `extract_avalanche_expositions`; `M_PI` is the constant of
`<cmath>`.  An interval is the pair of its two entries. -/
def avalanche_criterion (sqrt : ℚ → ℚ) (atan2 : ℚ → ℚ → ℚ) (M_PI : ℚ)
    (exposed_intervals height_intervals : List Point2) (p0 p1 p2 : Point) : Bool :=
  let max_height := max p0.2.2 (max p1.2.2 p2.2.2)
  let min_height := min p0.2.2 (min p1.2.2 p2.2.2)
  let inside := height_intervals.any fun height_interval =>
    (decide (max_height ≤ height_interval.2) && decide (max_height ≥ height_interval.1)) ||
      (decide (min_height ≤ height_interval.2) && decide (min_height ≥ height_interval.1))
  if !inside then false
  else
    let cell_normal := normal sqrt p0 p1 p2
    let cell_slope := slope_of sqrt atan2 cell_normal
    if flt cell_slope (some (30 / 180 * M_PI)) then false
    else
      let aspect := aspect_of atan2 cell_normal
      exposed_intervals.any fun exposition =>
        (flt (some exposition.1) aspect && flt aspect (some exposition.2)) ||
          (decide (exposition.1 > exposition.2) &&
            (flt (some exposition.1) aspect || flt aspect (some exposition.2)))

/-- The function `extract_avalanche_expositions`. -/
def extract_avalanche_expositions (sqrt : ℚ → ℚ) (atan2 : ℚ → ℚ → ℚ) (M_PI : ℚ)
    (pts : List Point) (faces : List Face) (exposed_intervals height_intervals : List Point2) :
    Option (List Face × List Face) :=
  partition pts (avalanche_criterion sqrt atan2 M_PI exposed_intervals height_intervals) faces

/-! ## compute_shadow -/

/-- The centroid `CGAL::centroid` of three points. -/
def centroid (a b c : Point) : Point :=
  ((a.1 + b.1 + c.1) / 3, (a.2.1 + b.2.1 + c.2.1) / 3, (a.2.2 + b.2.2 + c.2.2) / 3)

/-- The loop of `compute_shadow` over the faces of the mesh, `j` being the index
of the first face of the list.  `compute_face_normal` is the CGAL function of that
name, applied to the three points of the face, and `first_intersection origin
direction j` tells whether `tree.first_intersection` finds a hit of the ray
from `origin` along `direction` with a face other than face `j`. -/
def compute_shadow_loop (compute_face_normal : Point → Point → Point → Point)
    (first_intersection : Point → Point → Nat → Bool) (pts : List Point) (sun_vec : Point) :
    Nat → List Face → Option (List Int)
  | _, [] => some []
  | j, face :: faces => do
      let a ← point_at pts face.1
      let b ← point_at pts face.2.1
      let c ← point_at pts face.2.2
      let shade ← compute_shadow_loop compute_face_normal first_intersection pts sun_vec
        (j + 1) faces
      let p := centroid a b c
      let v := compute_face_normal a b c
      if v.1 * sun_vec.1 + v.2.1 * sun_vec.2.1 + v.2.2 * sun_vec.2.2 > 0 then
        pure (size_t_to_int j :: shade)
      else if first_intersection p (-sun_vec.1, -sun_vec.2.1, -sun_vec.2.2) j then
        pure (size_t_to_int j :: shade)
      else pure shade

/-- The function `compute_shadow`: the list `shade`. -/
def compute_shadow (compute_face_normal : Point → Point → Point → Point)
    (first_intersection : Point → Point → Nat → Bool) (pts : List Point) (faces : List Face)
    (sun_direction : Point) : Option (List Int) :=
  compute_shadow_loop compute_face_normal first_intersection pts sun_direction 0 faces

/-- The inner loop of `compute_shadows` over the faces of the mesh for one sun
ray, `j` being the index of the first face of the list; the arguments are those
of `compute_shadow_loop`. -/
def compute_shadows_loop (compute_face_normal : Point → Point → Point → Point)
    (first_intersection : Point → Point → Nat → Bool) (pts : List Point) (sun_ray : Point) :
    Nat → List Face → Option (List Int)
  | _, [] => some []
  | j, face :: faces => do
      let a ← point_at pts face.1
      let b ← point_at pts face.2.1
      let c ← point_at pts face.2.2
      let shade ← compute_shadows_loop compute_face_normal first_intersection pts sun_ray
        (j + 1) faces
      let p := centroid a b c
      let v := compute_face_normal a b c
      if v.1 * sun_ray.1 + v.2.1 * sun_ray.2.1 + v.2.2 * sun_ray.2.2 ≥ 0 then
        pure (size_t_to_int j :: shade)
      else if first_intersection p (-sun_ray.1, -sun_ray.2.1, -sun_ray.2.2) j then
        pure (size_t_to_int j :: shade)
      else pure shade

/-- The function `compute_shadows`: the outer loop over the items of `sun_rays`,
each a time stamp and a vector; `result` holds one list `shade` per item. -/
def compute_shadows (compute_face_normal : Point → Point → Point → Point)
    (first_intersection : Point → Point → Nat → Bool) (pts : List Point) (faces : List Face) :
    List (Int × Point) → Option (List (List Int))
  | [] => some []
  | item :: sun_rays => do
      let shade ← compute_shadows_loop compute_face_normal first_intersection pts item.2 0 faces
      let result ← compute_shadows compute_face_normal first_intersection pts faces sun_rays
      pure (shade :: result)

/-! ## make_tin: the re-indexing pass -/

/-- A vertex descriptor `CGAL::VertexIndex`. -/
abbrev VertexIndex := Nat

/-- The mesh `mesh` as `edge_collapse` leaves it: the vertices in the order of
`mesh.vertices()`, the point of each vertex, and for each face of `mesh.faces()`
the three vertices of `mesh.vertices_around_face`. -/
structure SurfaceMesh where
  vertices : List VertexIndex
  point : VertexIndex → Point
  faces : List (VertexIndex × VertexIndex × VertexIndex)

/-- The call `reindex.emplace(v, n)` on a `std::map`: without effect when the
key is present. -/
def map_emplace (reindex : List (VertexIndex × Int)) (v : VertexIndex) (n : Int) :
    List (VertexIndex × Int) :=
  if (reindex.lookup v).isSome then reindex else reindex ++ [(v, n)]

/-- The read `reindex[v]` of a `std::map`: `0` when the key is absent. -/
def map_at (reindex : List (VertexIndex × Int)) (v : VertexIndex) : Int :=
  (reindex.lookup v).getD 0

/-- The body of the loop over `mesh.vertices()`: the state is `reindex`,
`o_points` and the `int` counter `n`. -/
def reindex_vertex (point : VertexIndex → Point)
    (state : List (VertexIndex × Int) × List Point × Int) (v : VertexIndex) :
    Option (List (VertexIndex × Int) × List Point × Int) := do
  let pt := point v
  let o_points := state.2.1 ++ [pt]
  let reindex := map_emplace state.1 v state.2.2
  let n ← int_add state.2.2 1
  pure (reindex, o_points, n)

/-- The re-indexing pass that ends both variants of `make_tin`: `o_points` and
`faces`. -/
def reindex_pass (mesh : SurfaceMesh) : Option (List Point × List Face) := do
  let (reindex, o_points, _) ← mesh.vertices.foldlM (reindex_vertex mesh.point) ([], [], 0)
  let faces := mesh.faces.map fun f => (map_at reindex f.1, map_at reindex f.2.1,
    map_at reindex f.2.2)
  pure (o_points, faces)

/-- The function `make_tin` on a point list, from the mesh that the CGAL
triangulation and `edge_collapse` produce. -/
def make_tin (simplified : SurfaceMesh) : Option (List Point × List Face) :=
  reindex_pass simplified

/-- The function `make_tin` with an inclusion polygon and constraints, from the
mesh that the CGAL triangulation, the centroid filter and `edge_collapse`
produce. -/
def make_tin_constrained (simplified : SurfaceMesh) : Option (List Point × List Face) :=
  reindex_pass simplified

/-! ## RasterData: the constructor -/

/-- The constructor of `RasterData`: its member initialisers. -/
def RasterData.RasterData (x_min y_max delta_x delta_y : ℚ) (num_points_x num_points_y : Nat)
    (data : List ℚ) : RasterData :=
  { x_min := x_min, delta_x := delta_x, num_points_x := num_points_x
    y_max := y_max, delta_y := delta_y, num_points_y := num_points_y
    data := data }

/-! ## The angle function on the reals -/

/-- Modelled from the spec: the library function `std::atan2`, the angle of the
point `(x, y)` of the plane seen from the origin, in the range `(-pi, pi]`. -/
noncomputable def real_atan2 (y x : ℝ) : ℝ :=
  Complex.arg ⟨x, y⟩

/-! ## Concrete inputs -/

/-- A computable square root on the rationals: the floor of the square root of
`num * den`, over `den`.  It is exact on squares of rationals. -/
def sqrt_floor (t : ℚ) : ℚ :=
  (Nat.sqrt (t.num.toNat * t.den) : ℚ) / (t.den : ℚ)

/-- The data of `raster_wide`: zero at each of its `2^31 + 1` points. -/
def wide_data : List ℚ :=
  List.replicate 2147483649 0

/-- A raster of one row with `2^31 + 1` columns. -/
def raster_wide : RasterData :=
  { x_min := 0, delta_x := 1, num_points_x := 2147483649
    y_max := 0, delta_y := 1, num_points_y := 1
    data := wide_data }

/-- A 2 x 2 raster with unit spacing on the square `[0, 1] x [0, 1]`. -/
def raster2x2 : RasterData :=
  { x_min := 0, delta_x := 1, num_points_x := 2
    y_max := 1, delta_y := 1, num_points_y := 2
    data := [10, 20, 30, 40] }

/-- A 3 x 3 raster on the rectangle `[0, 6] x [0, 8]`, with spacing
`delta_x = 3` and `delta_y = 4`; the diagonal of a cell has length `5`. -/
def raster3x3 : RasterData :=
  { x_min := 0, delta_x := 3, num_points_x := 3
    y_max := 8, delta_y := 4, num_points_y := 3
    data := [1, 2, 3, 4, 5, 6, 7, 8, 9] }

/-- The outer boundary of the triangle cut from the upper-left corner of
`raster3x3` by the line through `(0, 6)` and `(1, 8)`: the cut, then two edges on
the rectangle of the raster. -/
def corner_triangle : List Edge :=
  [((0, 6), (1, 8)), ((1, 8), (0, 8)), ((0, 8), (0, 6))]

/-- The data of `raster_long`: zero at each of its `(2^31 + 3) * 4` points. -/
def long_data : List ℚ :=
  List.replicate (2147483651 * 4) 0

/-- A raster of four rows with `2^31 + 3` columns on the rectangle
`[0, 3 * (2^31 + 2)] x [0, 12]`, with spacing `delta_x = 3` and `delta_y = 4`. -/
def raster_long : RasterData :=
  { x_min := 0, delta_x := 3, num_points_x := 2147483651
    y_max := 12, delta_y := 4, num_points_y := 4
    data := long_data }

/-- A horizontal edge inside `raster_long` that spans `2^31` cells. -/
def long_edge : Edge :=
  ((3, 6), (6442450947, 6))

/-- The data of `raster_huge`: zero at each of its `(2^32 + 2^31) * 2` points. -/
def huge_data : List ℚ :=
  List.replicate (6442450944 * 2) 0

/-- A raster of two rows with `2^32 + 2^31` columns and unit spacing. -/
def raster_huge : RasterData :=
  { x_min := 0, delta_x := 1, num_points_x := 6442450944
    y_max := 1, delta_y := 1, num_points_y := 2
    data := huge_data }

/-- Three points on a line. -/
def collinear_points : List Point :=
  [(0, 0, 0), (1, 0, 0), (2, 0, 0)]

/-- The corners of the unit square in the plane `z = 0`. -/
def square_points : List Point :=
  [(0, 0, 0), (1, 0, 0), (1, 1, 0), (0, 1, 0)]

/-- Two faces on `square_points`: the first clockwise as seen from above, the
second counter-clockwise. -/
def square_faces : List Face :=
  [(0, 2, 1), (0, 2, 3)]

/-- A rational stand-in for `M_PI`. -/
def pi_approx : ℚ := 355 / 113

/-- A rational approximation of the arc tangent on `[-1, 1]`. -/
def atan_approx (t : ℚ) : ℚ :=
  t / (1 + 7 / 25 * t ^ 2)

/-- A computable approximation of `atan2` on the rationals, exact on the
positive x-axis; it is used to evaluate the definitions on concrete inputs. -/
def atan2_approx (y x : ℚ) : ℚ :=
  if x = 0 ∧ y = 0 then 0
  else if |y| ≤ |x| then
    if 0 < x then atan_approx (y / x)
    else if 0 ≤ y then atan_approx (y / x) + pi_approx
    else atan_approx (y / x) - pi_approx
  else if 0 < y then pi_approx / 2 - atan_approx (x / y)
  else -(pi_approx / 2) - atan_approx (x / y)

/-- Three points of a slope that rises by 3 over a run of 4 along the x-axis. -/
def slope_points : List Point :=
  [(0, 0, 0), (4, 0, 3), (0, 1, 0)]

/-- Two faces on `square_points`, both counter-clockwise as seen from above. -/
def flat_faces : List Face :=
  [(0, 1, 2), (0, 2, 3)]

/-- The unit normal of a face by the right-hand rule, with the square root
`sqrt_floor`: a stand-in for `compute_face_normal` of CGAL on concrete inputs. -/
def unit_normal (p0 p1 p2 : Point) : Point :=
  let n := face_cross p0 p1 p2
  let c := norm sqrt_floor n
  (n.1 / c, n.2.1 / c, n.2.2 / c)

/-- The scalar product of two vectors. -/
def dot (a b : Point) : ℚ :=
  a.1 * b.1 + a.2.1 * b.2.1 + a.2.2 * b.2.2

/-- The ray from `o` along `d` meets the triangle `a b c` that it is not parallel
to: the barycentric coordinates `u`, `v` of the point where the ray meets the
plane of the triangle, and the parameter `t` of that point on the ray. -/
def ray_hits_triangle (o d a b c : Point) : Bool :=
  let e1 : Point := (b.1 - a.1, b.2.1 - a.2.1, b.2.2 - a.2.2)
  let e2 : Point := (c.1 - a.1, c.2.1 - a.2.1, c.2.2 - a.2.2)
  let h := cross d e2
  let det := dot e1 h
  if det = 0 then false
  else
    let s : Point := (o.1 - a.1, o.2.1 - a.2.1, o.2.2 - a.2.2)
    let q := cross s e1
    let u := dot s h / det
    let v := dot d q / det
    let t := dot e2 q / det
    decide (0 ≤ u) && decide (0 ≤ v) && decide (u + v ≤ 1) && decide (0 ≤ t)

/-- The ray from `o` along `d` meets a face of the mesh other than face `skip`: a
stand-in for `first_intersection` of the CGAL tree on concrete inputs. -/
def ray_hits_mesh (pts : List Point) (faces : List Face) (o d : Point) (skip : Nat) : Bool :=
  faces.enum.any fun kf =>
    decide (kf.1 ≠ skip) &&
      match point_at pts kf.2.1, point_at pts kf.2.2.1, point_at pts kf.2.2.2 with
      | some a, some b, some c => ray_hits_triangle o d a b c
      | _, _, _ => false

/-- A simplified mesh of four surviving vertices, whose descriptors are no longer
consecutive, and two faces. -/
def small_mesh : SurfaceMesh where
  vertices := [5, 7, 9, 11]
  point := fun v => ((v : ℚ), (v : ℚ) * (v : ℚ), 1)
  faces := [(5, 7, 9), (5, 9, 11)]

/-- The vertex descriptors of a mesh with `2^31` vertices. -/
def big_vertices : List VertexIndex :=
  List.range 2147483648

/-- A mesh with `2^31` vertices and one face. -/
def big_mesh : SurfaceMesh where
  vertices := big_vertices
  point := fun v => ((v : ℚ), 0, 0)
  faces := [(0, 1, 2)]

/-- The invariants the data model places on a raster: positive spacing, at least
two points in each direction, one datum per grid point. -/
def data_model_invariants (r : RasterData) : Prop :=
  0 < r.delta_x ∧ 0 < r.delta_y ∧ 2 ≤ r.num_points_x ∧ 2 ≤ r.num_points_y ∧
    r.data.length = r.num_points_x * r.num_points_y

/-- The three indices of a face are positions of the point list. -/
def face_in_range (pts : List Point) (f : Face) : Prop :=
  (0 ≤ f.1 ∧ f.1 < pts.length) ∧ (0 ≤ f.2.1 ∧ f.2.1 < pts.length) ∧
    (0 ≤ f.2.2 ∧ f.2.2 < pts.length)

/-- The three points of a face are not collinear: the cross product of its edge
vectors is not the zero vector. -/
def face_non_degenerate (pts : List Point) (f : Face) : Prop :=
  ∀ p0 p1 p2, point_at pts f.1 = some p0 → point_at pts f.2.1 = some p1 →
    point_at pts f.2.2 = some p2 → face_cross p0 p1 p2 ≠ (0, 0, 0)

/-- The criterion of `partition` holds on the three points of a face. -/
def face_satisfies (pts : List Point) (criterion : Point → Point → Point → Bool)
    (f : Face) : Bool :=
  match point_at pts f.1, point_at pts f.2.1, point_at pts f.2.2 with
  | some p0, some p1, some p2 => criterion p0 p1 p2
  | _, _, _ => false

/-- The matching condition of an avalanche exposure as the specification words
it: (a) the largest or the smallest z of the three points lies in a height
interval, bounds included, (b) the slope of the normal is at least `M_PI / 6`,
(c) for an exposure interval `(lo, hi)` the aspect of the normal lies strictly
between `lo` and `hi`, or `lo > hi` and the aspect is below `hi` or above `lo`. -/
def avalanche_exposed (sqrt : ℚ → ℚ) (atan2 : ℚ → ℚ → ℚ) (M_PI : ℚ)
    (exposed_intervals height_intervals : List Point2) (p0 p1 p2 : Point) : Prop :=
  (∃ h ∈ height_intervals,
    (h.1 ≤ max p0.2.2 (max p1.2.2 p2.2.2) ∧ max p0.2.2 (max p1.2.2 p2.2.2) ≤ h.2) ∨
      (h.1 ≤ min p0.2.2 (min p1.2.2 p2.2.2) ∧ min p0.2.2 (min p1.2.2 p2.2.2) ≤ h.2)) ∧
  (∃ slope, slope_of sqrt atan2 (normal sqrt p0 p1 p2) = some slope ∧ M_PI / 6 ≤ slope) ∧
  (∃ aspect, aspect_of atan2 (normal sqrt p0 p1 p2) = some aspect ∧
    ∃ e ∈ exposed_intervals,
      (e.1 < aspect ∧ aspect < e.2) ∨ (e.1 > e.2 ∧ (aspect < e.2 ∨ aspect > e.1)))

/-- The decision rule of the specification for face `j` and one sun vector, with
the strict back-face test: the face is shadowed when `normal . sun > 0`, or else
when the ray from its centroid against the sun vector hits another face. -/
def shadowed_single (compute_face_normal : Point → Point → Point → Point)
    (first_intersection : Point → Point → Nat → Bool) (pts : List Point) (sun : Point)
    (jf : Nat × Face) : Bool :=
  match point_at pts jf.2.1, point_at pts jf.2.2.1, point_at pts jf.2.2.2 with
  | some a, some b, some c =>
    decide (dot (compute_face_normal a b c) sun > 0) ||
      first_intersection (centroid a b c) (-sun.1, -sun.2.1, -sun.2.2) jf.1
  | _, _, _ => false

/-- The decision rule of the specification with the back-face test
`normal . sun >= 0` of the batched routine. -/
def shadowed_batched (compute_face_normal : Point → Point → Point → Point)
    (first_intersection : Point → Point → Nat → Bool) (pts : List Point) (sun : Point)
    (jf : Nat × Face) : Bool :=
  match point_at pts jf.2.1, point_at pts jf.2.2.1, point_at pts jf.2.2.2 with
  | some a, some b, some c =>
    decide (dot (compute_face_normal a b c) sun ≥ 0) ||
      first_intersection (centroid a b c) (-sun.1, -sun.2.1, -sun.2.2) jf.1
  | _, _, _ => false

/-! ## Lists built by nested loops -/

theorem length_flatMap_range {α : Type} (f : Nat → List α) (n : Nat)
    (hf : ∀ i, (f i).length = n) (m : Nat) :
    ((List.range m).flatMap f).length = m * n := by
  induction m with
  | zero => simp
  | succ m ih =>
    rw [List.range_succ, List.flatMap_append, List.length_append, ih]
    simp [hf, Nat.succ_mul]

theorem getElem?_flatMap_range {α : Type} (f : Nat → List α) (n : Nat)
    (hf : ∀ i, (f i).length = n) (m i j : Nat) (hi : i < m) (hj : j < n) :
    ((List.range m).flatMap f)[i * n + j]? = (f i)[j]? := by
  induction m with
  | zero => omega
  | succ m ih =>
    rw [List.range_succ, List.flatMap_append]
    have hlen := length_flatMap_range f n hf m
    by_cases him : i < m
    · have hlt : i * n + j < ((List.range m).flatMap f).length := by
        rw [hlen]
        calc i * n + j < i * n + n := by omega
          _ = (i + 1) * n := by ring
          _ ≤ m * n := Nat.mul_le_mul_right n him
      rw [List.getElem?_append_left hlt]
      exact ih him
    · have hm : i = m := by omega
      subst hm
      have hle : ((List.range i).flatMap f).length ≤ i * n + j := by
        rw [hlen]; omega
      rw [List.getElem?_append_right hle, hlen]
      simp

/-! ## Machine arithmetic inside its range -/

theorem trunc_of_nonneg (q : ℚ) (hq : 0 ≤ q) : trunc q = ⌊q⌋ := by
  simp [trunc, hq]

theorem trunc_nonpos_of_neg (q : ℚ) (hq : q < 0) : trunc q ≤ 0 := by
  have h : ¬ (0 ≤ q) := not_le.mpr hq
  simp only [trunc, h, if_false]
  exact Int.ceil_le.mpr (by exact_mod_cast hq.le)

theorem max_trunc_zero (q : ℚ) : max (trunc q) 0 = max ⌊q⌋ 0 := by
  rcases le_or_lt 0 q with hq | hq
  · rw [trunc_of_nonneg q hq]
  · have h1 := trunc_nonpos_of_neg q hq
    have h2 : ⌊q⌋ ≤ 0 := by
      have : ⌊q⌋ < 0 := Int.floor_lt.mpr (by exact_mod_cast hq)
      omega
    rw [max_eq_right h1, max_eq_right h2]

theorem static_cast_int_of_range (q : ℚ) (hlo : -2147483649 < q) (hhi : q < 2147483648) :
    static_cast_int q = some (trunc q) := by
  have h : INT_MIN ≤ trunc q ∧ trunc q ≤ INT_MAX := by
    unfold INT_MIN INT_MAX
    rcases le_or_lt 0 q with hq | hq
    · rw [trunc_of_nonneg q hq]
      have h0 : (0 : Int) ≤ ⌊q⌋ := Int.floor_nonneg.mpr hq
      have h1 : ⌊q⌋ < 2147483648 := Int.floor_lt.mpr (by exact_mod_cast hhi)
      omega
    · have h0 := trunc_nonpos_of_neg q hq
      have hn : ¬ (0 ≤ q) := not_le.mpr hq
      have h1 : (-2147483649 : Int) < trunc q := by
        simp only [trunc, hn, if_false]
        exact Int.lt_ceil.mpr (by exact_mod_cast hlo)
      omega
  simp [static_cast_int, h]

theorem size_t_to_int_pred (n : Nat) (h1 : 1 ≤ n) (h2 : n ≤ 2147483648) :
    size_t_to_int (size_t_sub n 1) = (n : Int) - 1 := by
  unfold size_t_to_int size_t_sub
  have h : (n + 2 ^ 64 - 1 % 2 ^ 64) % 2 ^ 64 = n - 1 := by omega
  rw [h]
  omega

/-! ## RasterData: raster_points -/

/-- C3. `raster_points` returns `num_points_x * num_points_y` points in row-major
order from the top row downward: the point at position `i * num_points_x + j` is
`(x_min + j * delta_x, y_max - i * delta_y, data[i * num_points_x + j])`, and each
of these reads is a read inside `data` when `data` holds one value per grid
point. -/
theorem raster_points_row_major (r : RasterData) :
    r.raster_points.length = r.num_points_x * r.num_points_y ∧
    (∀ i j : Nat, i < r.num_points_y → j < r.num_points_x →
      r.raster_points[i * r.num_points_x + j]? =
        some (r.x_min + (j : ℚ) * r.delta_x, r.y_max - (i : ℚ) * r.delta_y,
          r.data[i * r.num_points_x + j]?)) ∧
    (r.data.length = r.num_points_x * r.num_points_y →
      ∀ i j : Nat, i < r.num_points_y → j < r.num_points_x →
        ∃ z, r.data[i * r.num_points_x + j]? = some z) := by
  refine ⟨?_, ?_, ?_⟩
  · unfold RasterData.raster_points
    rw [length_flatMap_range _ r.num_points_x (fun i => by simp)]
    exact Nat.mul_comm _ _
  · intro i j hi hj
    unfold RasterData.raster_points
    rw [getElem?_flatMap_range _ r.num_points_x (fun i => by simp) _ i j hi hj]
    simp [hj]
  · intro hlen i j hi hj
    have hlt : i * r.num_points_x + j < r.data.length := by
      rw [hlen]
      calc i * r.num_points_x + j < i * r.num_points_x + r.num_points_x := by omega
        _ = r.num_points_x * (i + 1) := by ring
        _ ≤ r.num_points_x * r.num_points_y := Nat.mul_le_mul_left _ hi
    exact ⟨r.data[i * r.num_points_x + j], List.getElem?_eq_getElem hlt⟩

/-- Witness for C3: the third point of the 2 x 2 raster is the first point of
its second row. -/
theorem raster_points_row_major_witness :
    1 < raster2x2.num_points_y ∧ 0 < raster2x2.num_points_x ∧
    raster2x2.raster_points[1 * raster2x2.num_points_x + 0]? = some (0, 0, some 30) := by
  refine ⟨by decide, by decide, ?_⟩
  have h := (raster_points_row_major raster2x2).2.1 1 0 (by decide) (by decide)
  rw [h]
  simp [raster2x2]

/-! ## RasterData: get_interpolated_value_at_point -/

/-- C1. At the node `(i, j) = (1, 0)` of the last row of the 2 x 2 raster, a
raster that satisfies the data-model invariants, `get_indices` returns the node
itself and `get_interpolated_value_at_point` reads `data[(1 + 1) * 2 + 0]`,
beyond the four stored values: it has no defined value, while the stored value
of the node is `data[1 * 2 + 0] = 30`. -/
theorem interpolation_last_row_node_undefined :
    data_model_invariants raster2x2 ∧
    raster2x2.get_indices (raster2x2.x_min + 0 * raster2x2.delta_x)
      (raster2x2.y_max - 1 * raster2x2.delta_y) = some (1, 0) ∧
    raster2x2.get_interpolated_value_at_point (raster2x2.x_min + 0 * raster2x2.delta_x)
      (raster2x2.y_max - 1 * raster2x2.delta_y) = none ∧
    raster2x2.data[1 * raster2x2.num_points_x + 0]? = some 30 := by
  refine ⟨?_, ?_, ?_, ?_⟩
  · simp [data_model_invariants, raster2x2]
  · simp [RasterData.get_indices, raster2x2, fdiv, static_cast_int, trunc, INT_MIN, INT_MAX,
      size_t_sub, size_t_to_int]
  · simp [RasterData.get_interpolated_value_at_point, RasterData.get_indices, raster2x2, fdiv,
      static_cast_int, trunc, INT_MIN, INT_MAX, size_t_sub, size_t_to_int, int_add, read_at]
  · simp [raster2x2]

/-- C2. At the point `(5, -5)`, outside the 2 x 2 raster, `get_indices` clamps
to `(i, j) = (1, 1)`; the index `(i + 1) * num_points_x + j` of the second read
is `5`, not smaller than `num_points_x * num_points_y = 4`, and
`get_interpolated_value_at_point` has no defined value. -/
theorem interpolation_outside_reads_beyond_data :
    data_model_invariants raster2x2 ∧
    raster2x2.get_indices 5 (-5) = some (1, 1) ∧
    ¬ ((1 + 1) * raster2x2.num_points_x + 1 < raster2x2.num_points_x * raster2x2.num_points_y) ∧
    raster2x2.get_interpolated_value_at_point 5 (-5) = none := by
  refine ⟨?_, ?_, ?_, ?_⟩
  · simp [data_model_invariants, raster2x2]
  · simp [RasterData.get_indices, raster2x2, fdiv, static_cast_int, trunc, INT_MIN, INT_MAX,
      size_t_sub, size_t_to_int]
  · simp [raster2x2]
  · simp [RasterData.get_interpolated_value_at_point, RasterData.get_indices, raster2x2, fdiv,
      static_cast_int, trunc, INT_MIN, INT_MAX, size_t_sub, size_t_to_int, int_add, read_at]

theorem read_at_natCast (data : List ℚ) (k : Nat) : read_at data (k : Int) = data[k]? := by
  simp [read_at]

theorem get_indices_at_node (r : RasterData) (i j : Nat)
    (hdx : r.delta_x ≠ 0) (hdy : r.delta_y ≠ 0)
    (hnx : r.num_points_x ≤ 2147483648) (hny : r.num_points_y ≤ 2147483648)
    (hi : i < r.num_points_y) (hj : j < r.num_points_x) :
    r.get_indices (r.x_min + (j : ℚ) * r.delta_x) (r.y_max - (i : ℚ) * r.delta_y) =
      some ((i : Int), (j : Int)) := by
  have hqx : (r.x_min + (j : ℚ) * r.delta_x - r.x_min) / r.delta_x = ((j : Int) : ℚ) := by
    field_simp
  have hqy : (r.y_max - (r.y_max - (i : ℚ) * r.delta_y)) / r.delta_y = ((i : Int) : ℚ) := by
    field_simp
  have hcj : static_cast_int ((j : Int) : ℚ) = some (j : Int) := by
    have h : trunc ((j : Int) : ℚ) = (j : Int) := by
      rw [trunc_of_nonneg _ (by exact_mod_cast Int.natCast_nonneg j), Int.floor_intCast]
    simp only [static_cast_int, h, INT_MIN, INT_MAX]
    rw [if_pos (by omega)]
  have hci : static_cast_int ((i : Int) : ℚ) = some (i : Int) := by
    have h : trunc ((i : Int) : ℚ) = (i : Int) := by
      rw [trunc_of_nonneg _ (by exact_mod_cast Int.natCast_nonneg i), Int.floor_intCast]
    simp only [static_cast_int, h, INT_MIN, INT_MAX]
    rw [if_pos (by omega)]
  unfold RasterData.get_indices
  simp only [fdiv, hdx, hdy, if_false, Option.bind_eq_bind, Option.some_bind, hqx, hqy, hcj, hci,
    size_t_to_int_pred _ (by omega : 1 ≤ r.num_points_x) hnx,
    size_t_to_int_pred _ (by omega : 1 ≤ r.num_points_y) hny]
  have e1 : min (max (i : Int) 0) ((r.num_points_y : Int) - 1) = (i : Int) := by omega
  have e2 : min (max (j : Int) 0) ((r.num_points_x : Int) - 1) = (j : Int) := by omega
  rw [e1, e2]
  rfl

/-- The value of `get_interpolated_value_at_point` once `get_indices`, the two
`int` sums and the four reads have values. -/
theorem get_interpolated_value_of_reads (r : RasterData) (x y : ℚ) (i j : Int)
    (d00 d10 d01 d11 : ℚ)
    (hidx : r.get_indices x y = some (i, j))
    (hj1 : int_add j 1 = some (j + 1)) (hi1 : int_add i 1 = some (i + 1))
    (h00 : read_at r.data ((i + 0) * r.num_points_x + j + 0) = some d00)
    (h10 : read_at r.data ((i + 1) * r.num_points_x + j + 0) = some d10)
    (h01 : read_at r.data ((i + 0) * r.num_points_x + j + 1) = some d01)
    (h11 : read_at r.data ((i + 1) * r.num_points_x + j + 1) = some d11) :
    r.get_interpolated_value_at_point x y =
      some (d00 * (r.x_min + ((j + 1 : Int) : ℚ) * r.delta_x - x) / r.delta_x
            * (y - (r.y_max - ((i + 1 : Int) : ℚ) * r.delta_y)) / r.delta_y
        + d10 * (r.x_min + ((j + 1 : Int) : ℚ) * r.delta_x - x) / r.delta_x
            * (r.y_max - (i : ℚ) * r.delta_y - y) / r.delta_y
        + d01 * (x - (r.x_min + (j : ℚ) * r.delta_x)) / r.delta_x
            * (y - (r.y_max - ((i + 1 : Int) : ℚ) * r.delta_y)) / r.delta_y
        + d11 * (x - (r.x_min + (j : ℚ) * r.delta_x)) / r.delta_x
            * (r.y_max - (i : ℚ) * r.delta_y - y) / r.delta_y) := by
  unfold RasterData.get_interpolated_value_at_point
  simp only [hidx, hj1, hi1, h00, h10, h01, h11, Option.bind_eq_bind, Option.some_bind]
  rfl

/-- At a grid node `(i, j)` whose four reads fall inside `data`, that is with
`(i + 1) * num_points_x + j + 1` a position of `data`,
`get_interpolated_value_at_point` returns the stored value
`data[i * num_points_x + j]`. -/
theorem interpolation_exact_at_node (r : RasterData) (i j : Nat)
    (hdx : r.delta_x ≠ 0) (hdy : r.delta_y ≠ 0)
    (hnx : r.num_points_x < 2147483648) (hny : r.num_points_y < 2147483648)
    (hi : i < r.num_points_y) (hj : j < r.num_points_x)
    (hread : (i + 1) * r.num_points_x + j + 1 < r.data.length) :
    ∃ z, r.data[i * r.num_points_x + j]? = some z ∧
      r.get_interpolated_value_at_point (r.x_min + (j : ℚ) * r.delta_x)
        (r.y_max - (i : ℚ) * r.delta_y) = some z := by
  have hlt : i * r.num_points_x + j < (i + 1) * r.num_points_x + j + 1 := by
    rw [Nat.succ_mul]; omega
  have h00 : i * r.num_points_x + j < r.data.length := by omega
  have h10 : (i + 1) * r.num_points_x + j < r.data.length := by omega
  have h01 : i * r.num_points_x + j + 1 < r.data.length := by
    rw [Nat.succ_mul] at hread; omega
  have r00 : read_at r.data (((i : Int) + 0) * (r.num_points_x : Int) + (j : Int) + 0) =
      some r.data[i * r.num_points_x + j] := by
    have e : ((i : Int) + 0) * (r.num_points_x : Int) + (j : Int) + 0 =
        ((i * r.num_points_x + j : Nat) : Int) := by push_cast; ring
    rw [e, read_at_natCast, List.getElem?_eq_getElem h00]
  have r10 : read_at r.data (((i : Int) + 1) * (r.num_points_x : Int) + (j : Int) + 0) =
      some r.data[(i + 1) * r.num_points_x + j] := by
    have e : ((i : Int) + 1) * (r.num_points_x : Int) + (j : Int) + 0 =
        (((i + 1) * r.num_points_x + j : Nat) : Int) := by push_cast; ring
    rw [e, read_at_natCast, List.getElem?_eq_getElem h10]
  have r01 : read_at r.data (((i : Int) + 0) * (r.num_points_x : Int) + (j : Int) + 1) =
      some r.data[i * r.num_points_x + j + 1] := by
    have e : ((i : Int) + 0) * (r.num_points_x : Int) + (j : Int) + 1 =
        ((i * r.num_points_x + j + 1 : Nat) : Int) := by push_cast; ring
    rw [e, read_at_natCast, List.getElem?_eq_getElem h01]
  have r11 : read_at r.data (((i : Int) + 1) * (r.num_points_x : Int) + (j : Int) + 1) =
      some r.data[(i + 1) * r.num_points_x + j + 1] := by
    have e : ((i : Int) + 1) * (r.num_points_x : Int) + (j : Int) + 1 =
        (((i + 1) * r.num_points_x + j + 1 : Nat) : Int) := by push_cast; ring
    rw [e, read_at_natCast, List.getElem?_eq_getElem hread]
  have hj1 : int_add (j : Int) 1 = some ((j : Int) + 1) := by
    simp only [int_add, INT_MIN, INT_MAX]
    rw [if_pos (by omega)]
  have hi1 : int_add (i : Int) 1 = some ((i : Int) + 1) := by
    simp only [int_add, INT_MIN, INT_MAX]
    rw [if_pos (by omega)]
  refine ⟨r.data[i * r.num_points_x + j], List.getElem?_eq_getElem h00, ?_⟩
  rw [get_interpolated_value_of_reads r _ _ (i : Int) (j : Int) _ _ _ _
    (get_indices_at_node r i j hdx hdy (by omega) (by omega) hi hj) hj1 hi1 r00 r10 r01 r11,
    Option.some.injEq]
  push_cast
  field_simp
  ring

/-! ## RasterData: get_indices -/

/-- C4, as stated, fails.  At `x = 2^31` on the 2 x 2 raster the offset
`(x - x_min) / delta_x = 2^31` is no `int`: the cast is undefined and
`get_indices` returns no pair, where the clamped floor is `(1, 1)`.  On a raster
of `2^31 + 1` columns, one datum per point, the bound `num_points_x - 1 = 2^31`
is converted to the `int` `-2^31`, and `get_indices` returns column `-2^31` for
`x = x_min`. -/
theorem get_indices_outside_int_range :
    (0 < raster2x2.delta_x ∧ 0 < raster2x2.delta_y ∧
      1 ≤ raster2x2.num_points_x ∧ 1 ≤ raster2x2.num_points_y ∧
      raster2x2.get_indices 2147483648 0 = none) ∧
    (0 < raster_wide.delta_x ∧ 0 < raster_wide.delta_y ∧
      1 ≤ raster_wide.num_points_x ∧ 1 ≤ raster_wide.num_points_y ∧
      raster_wide.data.length = raster_wide.num_points_x * raster_wide.num_points_y ∧
      raster_wide.get_indices 0 0 = some (0, -2147483648)) := by
  have hlen : raster_wide.data.length = raster_wide.num_points_x * raster_wide.num_points_y := by
    show wide_data.length = 2147483649 * 1
    rw [wide_data, List.length_replicate]
  refine ⟨⟨?_, ?_, ?_, ?_, ?_⟩, ⟨?_, ?_, ?_, ?_, hlen, ?_⟩⟩
  · simp [raster2x2]
  · simp [raster2x2]
  · simp [raster2x2]
  · simp [raster2x2]
  · simp [RasterData.get_indices, raster2x2, fdiv, static_cast_int, trunc, INT_MIN, INT_MAX]
  · simp [raster_wide]
  · simp [raster_wide]
  · simp [raster_wide]
  · simp [raster_wide]
  · simp [RasterData.get_indices, raster_wide, fdiv, static_cast_int, trunc, INT_MIN, INT_MAX,
      size_t_sub, size_t_to_int]

/-- C4, amended.  For a raster with `delta_x, delta_y > 0` and
`1 <= num_points_x, num_points_y <= 2^31`, and a point `(x, y)` whose offsets
`(x - x_min) / delta_x` and `(y_max - y) / delta_y` truncate to an `int` (they lie
strictly between `-2^31 - 1` and `2^31`), `get_indices` returns `(i, j)` with
`i = floor((y_max - y) / delta_y)` clamped to `[0, num_points_y - 1]` and
`j = floor((x - x_min) / delta_x)` clamped to `[0, num_points_x - 1]`.  When the
point lies in the raster rectangle and not on its right or its bottom side
(`x_min <= x < x_max` and `y_min < y <= y_max`), `(i, j)` is the upper-left vertex
of the cell of the raster that contains it: `0 <= i <= num_points_y - 2`,
`0 <= j <= num_points_x - 2`, `x_min + j * delta_x <= x < x_min + (j + 1) * delta_x`
and `y_max - (i + 1) * delta_y < y <= y_max - i * delta_y`, and no other pair of
integers satisfies these four inequalities. -/
theorem get_indices_clamped_floor (r : RasterData) (x y : ℚ)
    (hdx : 0 < r.delta_x) (hdy : 0 < r.delta_y)
    (hnx : 1 ≤ r.num_points_x) (hnx2 : r.num_points_x ≤ 2147483648)
    (hny : 1 ≤ r.num_points_y) (hny2 : r.num_points_y ≤ 2147483648)
    (hxlo : -2147483649 < (x - r.x_min) / r.delta_x)
    (hxhi : (x - r.x_min) / r.delta_x < 2147483648)
    (hylo : -2147483649 < (r.y_max - y) / r.delta_y)
    (hyhi : (r.y_max - y) / r.delta_y < 2147483648) :
    r.get_indices x y =
      some (min (max ⌊(r.y_max - y) / r.delta_y⌋ 0) ((r.num_points_y : Int) - 1),
            min (max ⌊(x - r.x_min) / r.delta_x⌋ 0) ((r.num_points_x : Int) - 1)) ∧
    (r.x_min ≤ x → x < r.get_x_max → r.get_y_min < y → y ≤ r.y_max →
      ∃ i j : Int, r.get_indices x y = some (i, j) ∧
        0 ≤ i ∧ i ≤ (r.num_points_y : Int) - 2 ∧ 0 ≤ j ∧ j ≤ (r.num_points_x : Int) - 2 ∧
        r.x_min + (j : ℚ) * r.delta_x ≤ x ∧ x < r.x_min + ((j : ℚ) + 1) * r.delta_x ∧
        r.y_max - ((i : ℚ) + 1) * r.delta_y < y ∧ y ≤ r.y_max - (i : ℚ) * r.delta_y ∧
        ∀ i2 j2 : Int,
          r.x_min + (j2 : ℚ) * r.delta_x ≤ x → x < r.x_min + ((j2 : ℚ) + 1) * r.delta_x →
          r.y_max - ((i2 : ℚ) + 1) * r.delta_y < y → y ≤ r.y_max - (i2 : ℚ) * r.delta_y →
          i2 = i ∧ j2 = j) := by
  have hval : r.get_indices x y =
      some (min (max ⌊(r.y_max - y) / r.delta_y⌋ 0) ((r.num_points_y : Int) - 1),
            min (max ⌊(x - r.x_min) / r.delta_x⌋ 0) ((r.num_points_x : Int) - 1)) := by
    unfold RasterData.get_indices
    simp only [fdiv, hdx.ne', hdy.ne', if_false, Option.bind_eq_bind, Option.some_bind,
      static_cast_int_of_range _ hxlo hxhi, static_cast_int_of_range _ hylo hyhi,
      size_t_to_int_pred _ hnx hnx2, size_t_to_int_pred _ hny hny2, max_trunc_zero]
    rfl
  refine ⟨hval, ?_⟩
  intro hx1 hx2 hy1 hy2
  have hsx : (size_t_sub r.num_points_x 1 : Nat) = r.num_points_x - 1 := by
    unfold size_t_sub; omega
  have hsy : (size_t_sub r.num_points_y 1 : Nat) = r.num_points_y - 1 := by
    unfold size_t_sub; omega
  have hqx0 : 0 ≤ (x - r.x_min) / r.delta_x := div_nonneg (by linarith) hdx.le
  have hqy0 : 0 ≤ (r.y_max - y) / r.delta_y := div_nonneg (by linarith) hdy.le
  have hqx1 : (x - r.x_min) / r.delta_x < ((r.num_points_x - 1 : Nat) : ℚ) := by
    rw [div_lt_iff₀ hdx]
    unfold RasterData.get_x_max at hx2
    rw [hsx] at hx2
    linarith
  have hqy1 : (r.y_max - y) / r.delta_y < ((r.num_points_y - 1 : Nat) : ℚ) := by
    rw [div_lt_iff₀ hdy]
    unfold RasterData.get_y_min at hy1
    rw [hsy] at hy1
    linarith
  have hfx0 : 0 ≤ ⌊(x - r.x_min) / r.delta_x⌋ := Int.floor_nonneg.mpr hqx0
  have hfy0 : 0 ≤ ⌊(r.y_max - y) / r.delta_y⌋ := Int.floor_nonneg.mpr hqy0
  have hfx1 : ⌊(x - r.x_min) / r.delta_x⌋ ≤ (r.num_points_x : Int) - 2 := by
    have h : ⌊(x - r.x_min) / r.delta_x⌋ < ((r.num_points_x - 1 : Nat) : Int) :=
      Int.floor_lt.mpr (by push_cast; exact hqx1)
    omega
  have hfy1 : ⌊(r.y_max - y) / r.delta_y⌋ ≤ (r.num_points_y : Int) - 2 := by
    have h : ⌊(r.y_max - y) / r.delta_y⌋ < ((r.num_points_y - 1 : Nat) : Int) :=
      Int.floor_lt.mpr (by push_cast; exact hqy1)
    omega
  refine ⟨⌊(r.y_max - y) / r.delta_y⌋, ⌊(x - r.x_min) / r.delta_x⌋, ?_, hfy0, hfy1, hfx0, hfx1,
    ?_, ?_, ?_, ?_, ?_⟩
  · rw [hval, max_eq_left hfx0, max_eq_left hfy0, min_eq_left (by omega), min_eq_left (by omega)]
  · have h := Int.floor_le ((x - r.x_min) / r.delta_x)
    rw [le_div_iff₀ hdx] at h
    linarith
  · have h := Int.lt_floor_add_one ((x - r.x_min) / r.delta_x)
    rw [div_lt_iff₀ hdx] at h
    linarith
  · have h := Int.lt_floor_add_one ((r.y_max - y) / r.delta_y)
    rw [div_lt_iff₀ hdy] at h
    linarith
  · have h := Int.floor_le ((r.y_max - y) / r.delta_y)
    rw [le_div_iff₀ hdy] at h
    linarith
  · intro i2 j2 a1 a2 b1 b2
    constructor
    · symm
      rw [Int.floor_eq_iff]
      constructor
      · rw [le_div_iff₀ hdy]
        linarith
      · rw [div_lt_iff₀ hdy]
        linarith
    · symm
      rw [Int.floor_eq_iff]
      constructor
      · rw [le_div_iff₀ hdx]
        linarith
      · rw [div_lt_iff₀ hdx]
        linarith

/-- Witness for C4, amended: the point `(1/2, 1/4)` of the 2 x 2 raster lies in
the cell of the node `(0, 0)`. -/
theorem get_indices_clamped_floor_witness :
    (0 < raster2x2.delta_x ∧ 0 < raster2x2.delta_y ∧
      1 ≤ raster2x2.num_points_x ∧ raster2x2.num_points_x ≤ 2147483648 ∧
      1 ≤ raster2x2.num_points_y ∧ raster2x2.num_points_y ≤ 2147483648 ∧
      -2147483649 < (1 / 2 - raster2x2.x_min) / raster2x2.delta_x ∧
      (1 / 2 - raster2x2.x_min) / raster2x2.delta_x < 2147483648 ∧
      -2147483649 < (raster2x2.y_max - 1 / 4) / raster2x2.delta_y ∧
      (raster2x2.y_max - 1 / 4) / raster2x2.delta_y < 2147483648) ∧
    (raster2x2.x_min ≤ 1 / 2 ∧ 1 / 2 < raster2x2.get_x_max ∧
      raster2x2.get_y_min < 1 / 4 ∧ 1 / 4 ≤ raster2x2.y_max) ∧
    raster2x2.get_indices (1 / 2) (1 / 4) = some (0, 0) := by
  have h1 : 0 < raster2x2.delta_x := by simp [raster2x2]
  have h2 : 0 < raster2x2.delta_y := by simp [raster2x2]
  have h3 : 1 ≤ raster2x2.num_points_x := by simp [raster2x2]
  have h4 : raster2x2.num_points_x ≤ 2147483648 := by simp [raster2x2]
  have h5 : 1 ≤ raster2x2.num_points_y := by simp [raster2x2]
  have h6 : raster2x2.num_points_y ≤ 2147483648 := by simp [raster2x2]
  have h7 : -2147483649 < (1 / 2 - raster2x2.x_min) / raster2x2.delta_x := by
    norm_num [raster2x2]
  have h8 : (1 / 2 - raster2x2.x_min) / raster2x2.delta_x < 2147483648 := by
    norm_num [raster2x2]
  have h9 : -2147483649 < (raster2x2.y_max - 1 / 4) / raster2x2.delta_y := by
    norm_num [raster2x2]
  have h10 : (raster2x2.y_max - 1 / 4) / raster2x2.delta_y < 2147483648 := by
    norm_num [raster2x2]
  have k1 : raster2x2.x_min ≤ 1 / 2 := by norm_num [raster2x2]
  have k2 : 1 / 2 < raster2x2.get_x_max := by
    norm_num [RasterData.get_x_max, raster2x2, size_t_sub]
  have k3 : raster2x2.get_y_min < 1 / 4 := by
    norm_num [RasterData.get_y_min, raster2x2, size_t_sub]
  have k4 : 1 / 4 ≤ raster2x2.y_max := by norm_num [raster2x2]
  obtain ⟨i, j, hidx, hi0, hi1, hj0, hj1, -⟩ :=
    (get_indices_clamped_floor raster2x2 (1 / 2) (1 / 4) h1 h2 h3 h4 h5 h6 h7 h8 h9 h10).2
      k1 k2 k3 k4
  have hnx : (raster2x2.num_points_x : Int) = 2 := rfl
  have hny : (raster2x2.num_points_y : Int) = 2 := rfl
  rw [hny] at hi1
  rw [hnx] at hj1
  have ei : i = 0 := by omega
  have ej : j = 0 := by omega
  rw [ei, ej] at hidx
  exact ⟨⟨h1, h2, h3, h4, h5, h6, h7, h8, h9, h10⟩, ⟨k1, k2, k3, k4⟩, hidx⟩

/-! ## RasterData: contains -/

theorem sqrt_floor_25 : sqrt_floor 25 = 5 := by
  have h : (25 : ℕ) = 5 * 5 := by norm_num
  simp [sqrt_floor]
  rw [h, Nat.sqrt_eq]
  norm_num

theorem contains_eps_raster3x3 : RasterData.contains_eps sqrt_floor raster3x3 = true := by
  have h : raster3x3.delta_x ^ 2 + raster3x3.delta_y ^ 2 = 25 := by norm_num [raster3x3]
  simp [RasterData.contains_eps, h, sqrt_floor_25]

theorem get_x_max_raster3x3 : raster3x3.get_x_max = 6 := by
  norm_num [RasterData.get_x_max, raster3x3, size_t_sub]

theorem get_y_min_raster3x3 : raster3x3.get_y_min = 0 := by
  norm_num [RasterData.get_y_min, raster3x3, size_t_sub]

/-- C5. On the 3 x 3 raster with `delta_x = 3`, `delta_y = 4` the margin of the
claim is `e = 1e-10 * sqrt(3^2 + 4^2) = 5e-10`, and the point `(1/2, 1/2)`
satisfies `x_min + e < x < x_max - e` and `y_min + e < y < y_max - e`; `contains`
is false there, its `bool eps` being promoted to the margin `1`. -/
theorem contains_margin_is_one :
    sqrt_floor (raster3x3.delta_x ^ 2 + raster3x3.delta_y ^ 2) = 5 ∧
    (raster3x3.x_min + 1 / 10000000000 * 5 < 1 / 2 ∧
      1 / 2 < raster3x3.get_x_max - 1 / 10000000000 * 5 ∧
      raster3x3.get_y_min + 1 / 10000000000 * 5 < 1 / 2 ∧
      1 / 2 < raster3x3.y_max - 1 / 10000000000 * 5) ∧
    raster3x3.contains sqrt_floor (1 / 2) (1 / 2) = false := by
  refine ⟨?_, ⟨?_, ?_, ?_, ?_⟩, ?_⟩
  · have h : raster3x3.delta_x ^ 2 + raster3x3.delta_y ^ 2 = 25 := by norm_num [raster3x3]
    rw [h, sqrt_floor_25]
  · norm_num [raster3x3]
  · rw [get_x_max_raster3x3]; norm_num
  · rw [get_y_min_raster3x3]; norm_num
  · norm_num [raster3x3]
  · simp only [RasterData.contains, contains_eps_raster3x3, get_x_max_raster3x3,
      get_y_min_raster3x3]
    norm_num [raster3x3]

/-! ## interpolate_boundary_points -/

/-- C6. The first edge of `corner_triangle`, from `(0, 6)` to `(1, 8)`, crosses
the interior of `raster3x3`: its midpoint `(1/2, 7)` lies strictly inside the
rectangle `[0, 6] x [0, 8]`.  `interpolate_boundary_points` skips it, as it skips
the two other edges, and returns no constraint sequence. -/
theorem interior_edge_near_boundary_skipped :
    data_model_invariants raster3x3 ∧
    (raster3x3.x_min < (0 + 1) / 2 ∧ ((0 : ℚ) + 1) / 2 < raster3x3.get_x_max ∧
      raster3x3.get_y_min < (6 + 8) / 2 ∧ ((6 : ℚ) + 8) / 2 < raster3x3.y_max) ∧
    interpolate_boundary_points sqrt_floor raster3x3 [corner_triangle] = some [] := by
  refine ⟨?_, ⟨?_, ?_, ?_, ?_⟩, ?_⟩
  · simp [data_model_invariants, raster3x3]
  · norm_num [raster3x3]
  · rw [get_x_max_raster3x3]; norm_num
  · rw [get_y_min_raster3x3]; norm_num
  · norm_num [raster3x3]
  · simp only [interpolate_boundary_points, corner_triangle, List.foldlM_cons, List.foldlM_nil,
      boundary_edge, RasterData.contains, contains_eps_raster3x3, get_x_max_raster3x3,
      get_y_min_raster3x3]
    norm_num [raster3x3]

theorem foldlM_skip {α β : Type} (g : β → α → Option β) (e : α) (he : ∀ acc, g acc e = some acc)
    (l1 l2 : List α) (acc : β) :
    (l1 ++ e :: l2).foldlM g acc = (l1 ++ l2).foldlM g acc := by
  rw [List.foldlM_append, List.foldlM_append]
  congr 1
  funext b
  rw [List.foldlM_cons, he]
  rfl

theorem foldlM_congr_at {α β : Type} (g : β → α → Option β) (p q : α)
    (hpq : ∀ acc, g acc p = g acc q) (l1 l2 : List α) (acc : β) :
    (l1 ++ p :: l2).foldlM g acc = (l1 ++ q :: l2).foldlM g acc := by
  rw [List.foldlM_append, List.foldlM_append]
  congr 1
  funext b
  rw [List.foldlM_cons, List.foldlM_cons, hpq]

theorem contains_false_on_side (sqrt : ℚ → ℚ) (r : RasterData) (x y : ℚ)
    (h : x = r.x_min ∨ x = r.get_x_max ∨ y = r.get_y_min ∨ y = r.y_max) :
    r.contains sqrt x y = false := by
  unfold RasterData.contains
  by_cases he : RasterData.contains_eps sqrt r = true
  · rcases h with h | h | h | h <;> subst h <;> simp [he]
  · rcases h with h | h | h | h <;> subst h <;> simp [he]

/-- C7. An edge of an outer boundary whose two end points lie on the same side
of the rectangle of the raster is skipped: the loop iteration leaves the
accumulated result as it is, so the result of `interpolate_boundary_points` is
the result for the intersection polygon without that edge. -/
theorem edge_on_rectangle_skipped (sqrt : ℚ → ℚ) (r : RasterData) (a b : Point2)
    (h : (a.1 = r.x_min ∧ b.1 = r.x_min) ∨ (a.1 = r.get_x_max ∧ b.1 = r.get_x_max) ∨
      (a.2 = r.get_y_min ∧ b.2 = r.get_y_min) ∨ (a.2 = r.y_max ∧ b.2 = r.y_max)) :
    (∀ acc, boundary_edge sqrt r acc (a, b) = some acc) ∧
    (∀ (before after : List (List Edge)) (es1 es2 : List Edge),
      interpolate_boundary_points sqrt r (before ++ (es1 ++ (a, b) :: es2) :: after) =
        interpolate_boundary_points sqrt r (before ++ (es1 ++ es2) :: after)) := by
  have hc : r.contains sqrt ((a.1 + b.1) / 2) ((a.2 + b.2) / 2) = false := by
    apply contains_false_on_side
    rcases h with ⟨h1, h2⟩ | ⟨h1, h2⟩ | ⟨h1, h2⟩ | ⟨h1, h2⟩
    · left; rw [h1, h2]; ring
    · right; left; rw [h1, h2]; ring
    · right; right; left; rw [h1, h2]; ring
    · right; right; right; rw [h1, h2]; ring
  have hskip : ∀ acc, boundary_edge sqrt r acc (a, b) = some acc := by
    intro acc
    simp [boundary_edge, hc]
  refine ⟨hskip, ?_⟩
  intro before after es1 es2
  unfold interpolate_boundary_points
  apply foldlM_congr_at
  intro acc
  exact foldlM_skip _ _ hskip es1 es2 acc

/-- Witness for C7: the edge from `(1, 8)` to `(0, 8)` on the upper side of
`raster3x3`. -/
theorem edge_on_rectangle_skipped_witness :
    ((8 : ℚ) = raster3x3.y_max ∧ (8 : ℚ) = raster3x3.y_max) ∧
    (∀ acc, boundary_edge sqrt_floor raster3x3 acc ((1, 8), (0, 8)) = some acc) :=
  ⟨⟨by simp [raster3x3], by simp [raster3x3]⟩,
    (edge_on_rectangle_skipped sqrt_floor raster3x3 (1, 8) (0, 8)
      (Or.inr (Or.inr (Or.inr ⟨by simp [raster3x3], by simp [raster3x3]⟩)))).1⟩

theorem contains_eps_raster_long : RasterData.contains_eps sqrt_floor raster_long = true := by
  have h : raster_long.delta_x ^ 2 + raster_long.delta_y ^ 2 = 25 := by norm_num [raster_long]
  simp [RasterData.contains_eps, h, sqrt_floor_25]

theorem get_x_max_raster_long : raster_long.get_x_max = 6442450950 := by
  norm_num [RasterData.get_x_max, raster_long, size_t_sub]

theorem get_y_min_raster_long : raster_long.get_y_min = 0 := by
  norm_num [RasterData.get_y_min, raster_long, size_t_sub]

/-- C8, as stated, fails.  The raster `raster_long` satisfies the data-model
invariants; the edge `long_edge` lies in its rectangle and is retained, its
midpoint being contained in the raster; it spans `(x_b - x_a) / delta_x = 2^31`
cells, so the claim gives `n = 2^31`.  That number is no `int`: the cast that
computes `num_subedges` is undefined and the code emits no sequence. -/
theorem long_edge_not_resampled :
    data_model_invariants raster_long ∧
    (raster_long.x_min ≤ long_edge.1.1 ∧ long_edge.2.1 ≤ raster_long.get_x_max ∧
      raster_long.get_y_min ≤ long_edge.1.2 ∧ long_edge.2.2 ≤ raster_long.y_max) ∧
    raster_long.contains sqrt_floor ((long_edge.1.1 + long_edge.2.1) / 2)
      ((long_edge.1.2 + long_edge.2.2) / 2) = true ∧
    max 1 ⌊max |(long_edge.2.1 - long_edge.1.1) / raster_long.delta_x|
      |(long_edge.2.2 - long_edge.1.2) / raster_long.delta_y|⌋ = 2147483648 ∧
    boundary_edge sqrt_floor raster_long [] long_edge = none ∧
    interpolate_boundary_points sqrt_floor raster_long [[long_edge]] = none := by
  have hc : raster_long.contains sqrt_floor ((long_edge.1.1 + long_edge.2.1) / 2)
      ((long_edge.1.2 + long_edge.2.2) / 2) = true := by
    simp only [RasterData.contains, contains_eps_raster_long, get_x_max_raster_long,
      get_y_min_raster_long]
    norm_num [raster_long, long_edge]
  have hn : num_subedges raster_long (long_edge.2.1 - long_edge.1.1)
      (long_edge.2.2 - long_edge.1.2) = none := by
    norm_num [num_subedges, raster_long, long_edge, fdiv, static_cast_int, trunc, INT_MIN,
      INT_MAX]
  have hb : boundary_edge sqrt_floor raster_long [] long_edge = none := by
    simp only [boundary_edge, hc, hn]
    rfl
  have hlen : raster_long.data.length = raster_long.num_points_x * raster_long.num_points_y := by
    show long_data.length = 2147483651 * 4
    rw [long_data, List.length_replicate]
  have hinv : data_model_invariants raster_long :=
    ⟨by norm_num [raster_long], by norm_num [raster_long], by norm_num [raster_long],
      by norm_num [raster_long], hlen⟩
  refine ⟨hinv, ⟨?_, ?_, ?_, ?_⟩, hc, ?_, hb, ?_⟩
  · norm_num [raster_long, long_edge]
  · rw [get_x_max_raster_long]; norm_num [long_edge]
  · rw [get_y_min_raster_long]; norm_num [long_edge]
  · norm_num [raster_long, long_edge]
  · norm_num [raster_long, long_edge]
  · simp only [interpolate_boundary_points, List.foldlM_cons, List.foldlM_nil, hb]
    rfl

theorem contains_delta_ne_zero (sqrt : ℚ → ℚ) (r : RasterData) (x y : ℚ)
    (h : r.contains sqrt x y = true) : r.delta_x ≠ 0 ∧ r.delta_y ≠ 0 := by
  unfold RasterData.contains at h
  simp only [Bool.and_eq_true, decide_eq_true_eq] at h
  obtain ⟨⟨⟨h1, h2⟩, h3⟩, h4⟩ := h
  have he : (0 : ℚ) ≤ (if RasterData.contains_eps sqrt r = true then 1 else 0) := by
    split <;> norm_num
  constructor
  · intro h0
    unfold RasterData.get_x_max at h2
    rw [h0] at h2
    simp only [mul_zero, add_zero] at h2
    linarith
  · intro h0
    unfold RasterData.get_y_min at h3
    rw [h0] at h3
    simp only [mul_zero, sub_zero] at h3
    linarith

theorem num_subedges_of_range (r : RasterData) (ex ey : ℚ)
    (hdx : r.delta_x ≠ 0) (hdy : r.delta_y ≠ 0)
    (hm : max |ex / r.delta_x| |ey / r.delta_y| < 2147483648) :
    num_subedges r ex ey = some (max 1 ⌊max |ex / r.delta_x| |ey / r.delta_y|⌋).toNat := by
  have h0 : 0 ≤ max |ex / r.delta_x| |ey / r.delta_y| :=
    le_trans (abs_nonneg _) (le_max_left _ _)
  have ht0 : 0 ≤ ⌊max |ex / r.delta_x| |ey / r.delta_y|⌋ := Int.floor_nonneg.mpr h0
  have ht1 : ⌊max |ex / r.delta_x| |ey / r.delta_y|⌋ < 2147483648 :=
    Int.floor_lt.mpr (by exact_mod_cast hm)
  unfold num_subedges
  simp only [fdiv, hdx, hdy, if_false, Option.bind_eq_bind, Option.some_bind,
    static_cast_int_of_range _ (lt_of_lt_of_le (by norm_num) h0) hm, trunc_of_nonneg _ h0]
  unfold int_to_size_t size_t_to_int
  generalize ⌊max |ex / r.delta_x| |ey / r.delta_y|⌋ = t at ht0 ht1
  simp only [pure, Option.some.injEq]
  omega

theorem getElem?_edge_samples (r : RasterData) (a : Point2) (dx dy : ℚ) (n k : Nat)
    (hk : k ≤ n) :
    (edge_samples r a dx dy n)[k]? =
      some (a.1 + (k : ℚ) * dx, a.2 + (k : ℚ) * dy,
        r.get_interpolated_value_at_point (a.1 + (k : ℚ) * dx) (a.2 + (k : ℚ) * dy)) := by
  have hlt : k < n + 1 := by omega
  simp [edge_samples, hlt]

/-- C8, amended.  For a retained edge from `a = (x_a, y_a)` to `b = (x_b, y_b)`
whose larger cell count `max(|(x_b - x_a) / delta_x|, |(y_b - y_a) / delta_y|)` is
below `2^31`, with `n = max(1, floor(that count))`, the loop iteration appends
one sequence of exactly `n + 1` points to the result; its `k`-th point
(`0 <= k <= n`) is `(x_a + k * (x_b - x_a) / n, y_a + k * (y_b - y_a) / n)` with
the value of `get_interpolated_value_at_point` there as third coordinate; the
first point sits on `a` and the last on `b`; and for an intersection polygon
made of this one edge `interpolate_boundary_points` returns this one sequence. -/
theorem retained_edge_samples (sqrt : ℚ → ℚ) (r : RasterData) (a b : Point2)
    (hret : r.contains sqrt ((a.1 + b.1) / 2) ((a.2 + b.2) / 2) = true)
    (hm : max |(b.1 - a.1) / r.delta_x| |(b.2 - a.2) / r.delta_y| < 2147483648) :
    ∃ (n : Nat) (seq : List RasterPoint),
      (n : Int) = max 1 ⌊max |(b.1 - a.1) / r.delta_x| |(b.2 - a.2) / r.delta_y|⌋ ∧
      (∀ acc, boundary_edge sqrt r acc (a, b) = some (acc ++ [seq])) ∧
      seq.length = n + 1 ∧
      (∀ k : Nat, k ≤ n →
        seq[k]? = some (a.1 + (k : ℚ) * (b.1 - a.1) / (n : ℚ),
          a.2 + (k : ℚ) * (b.2 - a.2) / (n : ℚ),
          r.get_interpolated_value_at_point (a.1 + (k : ℚ) * (b.1 - a.1) / (n : ℚ))
            (a.2 + (k : ℚ) * (b.2 - a.2) / (n : ℚ)))) ∧
      seq[0]? = some (a.1, a.2, r.get_interpolated_value_at_point a.1 a.2) ∧
      seq[n]? = some (b.1, b.2, r.get_interpolated_value_at_point b.1 b.2) ∧
      interpolate_boundary_points sqrt r [[(a, b)]] = some [seq] := by
  obtain ⟨hdx, hdy⟩ := contains_delta_ne_zero sqrt r _ _ hret
  have hnum := num_subedges_of_range r (b.1 - a.1) (b.2 - a.2) hdx hdy hm
  generalize hn : (max 1 ⌊max |(b.1 - a.1) / r.delta_x| |(b.2 - a.2) / r.delta_y|⌋).toNat = n
    at hnum
  have hn1 : (n : Int) = max 1 ⌊max |(b.1 - a.1) / r.delta_x| |(b.2 - a.2) / r.delta_y|⌋ := by
    omega
  have hpos : 1 ≤ n := by omega
  have hq : (n : ℚ) ≠ 0 := by
    have : (0 : ℚ) < (n : ℚ) := by exact_mod_cast hpos
    exact this.ne'
  have hedge : ∀ acc, boundary_edge sqrt r acc (a, b) =
      some (acc ++ [edge_samples r a ((b.1 - a.1) / (n : ℚ)) ((b.2 - a.2) / (n : ℚ)) n]) := by
    intro acc
    simp only [boundary_edge, hret, hnum]
    rfl
  have hsample : ∀ k : Nat, k ≤ n →
      (edge_samples r a ((b.1 - a.1) / (n : ℚ)) ((b.2 - a.2) / (n : ℚ)) n)[k]? =
        some (a.1 + (k : ℚ) * (b.1 - a.1) / (n : ℚ), a.2 + (k : ℚ) * (b.2 - a.2) / (n : ℚ),
          r.get_interpolated_value_at_point (a.1 + (k : ℚ) * (b.1 - a.1) / (n : ℚ))
            (a.2 + (k : ℚ) * (b.2 - a.2) / (n : ℚ))) := by
    intro k hk
    rw [getElem?_edge_samples r a _ _ n k hk, mul_div_assoc, mul_div_assoc]
  refine ⟨n, edge_samples r a ((b.1 - a.1) / (n : ℚ)) ((b.2 - a.2) / (n : ℚ)) n, hn1, hedge,
    ?_, hsample, ?_, ?_, ?_⟩
  · simp [edge_samples]
  · have h := hsample 0 (Nat.zero_le n)
    simpa using h
  · have h := hsample n (le_refl n)
    have hx : a.1 + (n : ℚ) * (b.1 - a.1) / (n : ℚ) = b.1 := by field_simp
    have hy : a.2 + (n : ℚ) * (b.2 - a.2) / (n : ℚ) = b.2 := by field_simp
    rw [hx, hy] at h
    exact h
  · simp only [interpolate_boundary_points, List.foldlM_cons, List.foldlM_nil, hedge]
    rfl

/-- Witness for C8, amended: the edge from `(2, 2)` to `(4, 6)` of `raster3x3`,
whose midpoint `(3, 4)` is contained in the raster; it spans one cell. -/
theorem retained_edge_samples_witness :
    (raster3x3.contains sqrt_floor (((2 : ℚ) + 4) / 2) (((2 : ℚ) + 6) / 2) = true ∧
      max |((4 : ℚ) - 2) / raster3x3.delta_x| |((6 : ℚ) - 2) / raster3x3.delta_y| < 2147483648) ∧
    ∃ seq : List RasterPoint,
      boundary_edge sqrt_floor raster3x3 [] ((2, 2), (4, 6)) = some [seq] ∧
      seq[0]? = some (2, 2, raster3x3.get_interpolated_value_at_point 2 2) := by
  have h1 : raster3x3.contains sqrt_floor (((2 : ℚ) + 4) / 2) (((2 : ℚ) + 6) / 2) = true := by
    simp only [RasterData.contains, contains_eps_raster3x3, get_x_max_raster3x3,
      get_y_min_raster3x3]
    norm_num [raster3x3]
  have h2 : max |((4 : ℚ) - 2) / raster3x3.delta_x| |((6 : ℚ) - 2) / raster3x3.delta_y|
      < 2147483648 := by
    norm_num [raster3x3, abs_of_pos]
  obtain ⟨n, seq, -, hb, -, -, h0, -, -⟩ :=
    retained_edge_samples sqrt_floor raster3x3 (2, 2) (4, 6) h1 h2
  exact ⟨⟨h1, h2⟩, seq, by simpa using hb [], h0⟩

/-! ## orient_tin -/

theorem point_at_of_range (pts : List Point) (i : Int) (h0 : 0 ≤ i) (h1 : i < pts.length) :
    ∃ p, point_at pts i = some p := by
  have hlt : i.toNat < pts.length := by omega
  exact ⟨pts[i.toNat], by simp [point_at, h0, List.getElem?_eq_getElem hlt]⟩

theorem orient_face_of_range (sqrt : ℚ → ℚ) (pts : List Point) (f : Face)
    (h : face_in_range pts f) :
    ∃ p0 p1 p2, point_at pts f.1 = some p0 ∧ point_at pts f.2.1 = some p1 ∧
      point_at pts f.2.2 = some p2 ∧
      orient_face sqrt pts f =
        if (face_cross p0 p1 p2).2.2 < 0 then
          some ((fdiv (face_cross p0 p1 p2).1 (norm sqrt (face_cross p0 p1 p2) * (-1)),
              fdiv (face_cross p0 p1 p2).2.1 (norm sqrt (face_cross p0 p1 p2) * (-1)),
              fdiv (face_cross p0 p1 p2).2.2 (norm sqrt (face_cross p0 p1 p2) * (-1))),
            (f.2.2, f.2.1, f.1))
        else
          some ((fdiv (face_cross p0 p1 p2).1 (norm sqrt (face_cross p0 p1 p2)),
              fdiv (face_cross p0 p1 p2).2.1 (norm sqrt (face_cross p0 p1 p2)),
              fdiv (face_cross p0 p1 p2).2.2 (norm sqrt (face_cross p0 p1 p2))), f) := by
  obtain ⟨⟨a0, a1⟩, ⟨b0, b1⟩, ⟨c0, c1⟩⟩ := h
  obtain ⟨p0, hp0⟩ := point_at_of_range pts f.1 a0 a1
  obtain ⟨p1, hp1⟩ := point_at_of_range pts f.2.1 b0 b1
  obtain ⟨p2, hp2⟩ := point_at_of_range pts f.2.2 c0 c1
  refine ⟨p0, p1, p2, hp0, hp1, hp2, ?_⟩
  simp only [orient_face, hp0, hp1, hp2, Option.bind_eq_bind, Option.some_bind]
  split <;> rfl

theorem orient_tin_of_range (sqrt : ℚ → ℚ) (pts : List Point) (faces : List Face)
    (h : ∀ f ∈ faces, face_in_range pts f) :
    ∃ result oriented, orient_tin sqrt pts faces = some (result, oriented) ∧
      result.length = faces.length ∧ oriented.length = faces.length ∧
      ∀ (k : Nat) (f : Face), faces[k]? = some f →
        ∃ v g, result[k]? = some v ∧ oriented[k]? = some g ∧
          orient_face sqrt pts f = some (v, g) := by
  induction faces with
  | nil => exact ⟨[], [], rfl, rfl, rfl, by simp⟩
  | cons face faces ih =>
    obtain ⟨result, oriented, hrec, hl1, hl2, hk⟩ :=
      ih (fun f hf => h f (List.mem_cons_of_mem _ hf))
    obtain ⟨p0, p1, p2, -, -, -, hface⟩ :=
      orient_face_of_range sqrt pts face (h face (List.mem_cons_self _ _))
    have hsome : ∃ v g, orient_face sqrt pts face = some (v, g) := by
      rw [hface]
      split
      · exact ⟨_, _, rfl⟩
      · exact ⟨_, _, rfl⟩
    obtain ⟨v, g, hvg⟩ := hsome
    refine ⟨v :: result, g :: oriented, ?_, by simp [hl1], by simp [hl2], ?_⟩
    · simp only [orient_tin, hvg, hrec, Option.bind_eq_bind, Option.some_bind]
      rfl
    · intro k f hkf
      cases k with
      | zero =>
        simp only [List.getElem?_cons_zero, Option.some.injEq] at hkf
        subst hkf
        exact ⟨v, g, by simp, by simp, hvg⟩
      | succ k =>
        simp only [List.getElem?_cons_succ] at hkf
        obtain ⟨v2, g2, h1, h2, h3⟩ := hk k f hkf
        exact ⟨v2, g2, by simpa using h1, by simpa using h2, h3⟩

theorem sum_sq_pos_of_ne_zero (n : Point) (h : n ≠ (0, 0, 0)) :
    0 < n.1 ^ 2 + n.2.1 ^ 2 + n.2.2 ^ 2 := by
  by_contra hle
  push_neg at hle
  have h1 := sq_nonneg n.1
  have h2 := sq_nonneg n.2.1
  have h3 := sq_nonneg n.2.2
  have e1 : n.1 = 0 := pow_eq_zero_iff (two_ne_zero) |>.mp (by linarith)
  have e2 : n.2.1 = 0 := pow_eq_zero_iff (two_ne_zero) |>.mp (by linarith)
  have e3 : n.2.2 = 0 := pow_eq_zero_iff (two_ne_zero) |>.mp (by linarith)
  exact h (Prod.ext e1 (Prod.ext e2 e3))

theorem sqrt_floor_pos (t : ℚ) (ht : 0 < t) : 0 < sqrt_floor t := by
  unfold sqrt_floor
  have hnum : 0 < t.num := Rat.num_pos.mpr ht
  have hden : 0 < t.den := t.den_pos
  have hprod : 0 < t.num.toNat * t.den := Nat.mul_pos (by omega) hden
  have hs : 0 < Nat.sqrt (t.num.toNat * t.den) := Nat.sqrt_pos.mpr hprod
  exact div_pos (by exact_mod_cast hs) (by exact_mod_cast hden)

/-- C9, as stated, fails.  The face `(0, 1, 2)` on three collinear points has
in-range indices; its cross product is the zero vector, its norm `sqrt 0 = 0`,
and the three components `0 / 0` of the normal that `orient_tin` returns have no
value: the z-component is not a non-negative number. -/
theorem orient_tin_degenerate_face :
    face_in_range collinear_points (0, 1, 2) ∧ sqrt_floor 0 = 0 ∧
    orient_tin sqrt_floor collinear_points [(0, 1, 2)] =
      some ([(none, none, none)], [(0, 1, 2)]) := by
  have h0 : sqrt_floor 0 = 0 := by simp [sqrt_floor]
  refine ⟨?_, h0, ?_⟩
  · simp [face_in_range, collinear_points]
  · simp [orient_tin, orient_face, point_at, collinear_points, face_cross, cross, norm, fdiv, h0]

/-- C9, amended.  For a point list and a face list with in-range indices whose
faces are all non-degenerate, and a square root that is positive on positive
numbers, `orient_tin` returns one normal per face in face order (the `k`-th normal
is the one the loop computes for the `k`-th face) and every returned normal has a
non-negative z-component. -/
theorem orient_tin_normals_upward (sqrt : ℚ → ℚ) (pts : List Point) (faces : List Face)
    (hsqrt : ∀ t, 0 < t → 0 < sqrt t)
    (hrange : ∀ f ∈ faces, face_in_range pts f)
    (hnd : ∀ f ∈ faces, face_non_degenerate pts f) :
    ∃ result oriented, orient_tin sqrt pts faces = some (result, oriented) ∧
      result.length = faces.length ∧
      (∀ (k : Nat) (f : Face), faces[k]? = some f →
        ∃ v g, result[k]? = some v ∧ orient_face sqrt pts f = some (v, g)) ∧
      ∀ v ∈ result, ∃ z, v.2.2 = some z ∧ 0 ≤ z := by
  obtain ⟨result, oriented, hres, hl1, hl2, hk⟩ := orient_tin_of_range sqrt pts faces hrange
  refine ⟨result, oriented, hres, hl1, ?_, ?_⟩
  · intro k f hkf
    obtain ⟨v, g, h1, -, h3⟩ := hk k f hkf
    exact ⟨v, g, h1, h3⟩
  · intro v hv
    obtain ⟨k, hlt, hkv⟩ := List.getElem_of_mem hv
    have hltf : k < faces.length := by omega
    have hfk : faces[k]? = some faces[k] := List.getElem?_eq_getElem hltf
    have hmem : faces[k] ∈ faces := List.getElem_mem hltf
    obtain ⟨v2, g, h1, -, h3⟩ := hk k _ hfk
    have hv2 : v2 = v := by
      rw [List.getElem?_eq_getElem hlt, hkv] at h1
      exact (Option.some.inj h1).symm
    subst hv2
    obtain ⟨p0, p1, p2, hp0, hp1, hp2, hface⟩ :=
      orient_face_of_range sqrt pts faces[k] (hrange _ hmem)
    have hne := hnd _ hmem p0 p1 p2 hp0 hp1 hp2
    have hc : 0 < norm sqrt (face_cross p0 p1 p2) := hsqrt _ (sum_sq_pos_of_ne_zero _ hne)
    rw [hface] at h3
    by_cases hz : (face_cross p0 p1 p2).2.2 < 0
    · rw [if_pos hz] at h3
      have hv : v2 = (fdiv (face_cross p0 p1 p2).1 (norm sqrt (face_cross p0 p1 p2) * (-1)),
          fdiv (face_cross p0 p1 p2).2.1 (norm sqrt (face_cross p0 p1 p2) * (-1)),
          fdiv (face_cross p0 p1 p2).2.2 (norm sqrt (face_cross p0 p1 p2) * (-1))) :=
        (congrArg Prod.fst (Option.some.inj h3)).symm
      have hcn : norm sqrt (face_cross p0 p1 p2) * (-1) ≠ 0 := by linarith
      refine ⟨(face_cross p0 p1 p2).2.2 / (norm sqrt (face_cross p0 p1 p2) * (-1)), ?_, ?_⟩
      · rw [hv]
        simp only [fdiv, hcn, if_false]
      · exact div_nonneg_of_nonpos hz.le (by linarith)
    · rw [if_neg hz] at h3
      have hv : v2 = (fdiv (face_cross p0 p1 p2).1 (norm sqrt (face_cross p0 p1 p2)),
          fdiv (face_cross p0 p1 p2).2.1 (norm sqrt (face_cross p0 p1 p2)),
          fdiv (face_cross p0 p1 p2).2.2 (norm sqrt (face_cross p0 p1 p2))) :=
        (congrArg Prod.fst (Option.some.inj h3)).symm
      refine ⟨(face_cross p0 p1 p2).2.2 / norm sqrt (face_cross p0 p1 p2), ?_, ?_⟩
      · rw [hv]
        simp only [fdiv, hc.ne', if_false]
      · exact div_nonneg (not_lt.mp hz) hc.le

theorem square_faces_in_range : ∀ f ∈ square_faces, face_in_range square_points f := by
  intro f hf
  simp only [square_faces, List.mem_cons, List.mem_singleton, List.not_mem_nil, or_false] at hf
  rcases hf with rfl | rfl <;> simp [face_in_range, square_points]

theorem square_faces_non_degenerate :
    ∀ f ∈ square_faces, face_non_degenerate square_points f := by
  intro f hf p0 p1 p2 h0 h1 h2
  simp only [square_faces, List.mem_cons, List.mem_singleton, List.not_mem_nil, or_false] at hf
  rcases hf with rfl | rfl
  · simp [point_at, square_points] at h0 h1 h2
    subst h0 h1 h2
    simp [face_cross, cross]
  · simp [point_at, square_points] at h0 h1 h2
    subst h0 h1 h2
    simp [face_cross, cross]

/-- Witness for C9, amended: the two faces on the unit square. -/
theorem orient_tin_normals_upward_witness :
    ((∀ t, 0 < t → 0 < sqrt_floor t) ∧
      (∀ f ∈ square_faces, face_in_range square_points f) ∧
      (∀ f ∈ square_faces, face_non_degenerate square_points f)) ∧
    ∃ result oriented, orient_tin sqrt_floor square_points square_faces = some (result, oriented) ∧
      result.length = square_faces.length ∧ ∀ v ∈ result, ∃ z, v.2.2 = some z ∧ 0 ≤ z := by
  obtain ⟨result, oriented, h1, h2, -, h4⟩ :=
    orient_tin_normals_upward sqrt_floor square_points square_faces sqrt_floor_pos
      square_faces_in_range square_faces_non_degenerate
  exact ⟨⟨sqrt_floor_pos, square_faces_in_range, square_faces_non_degenerate⟩,
    result, oriented, h1, h2, h4⟩

theorem face_cross_reversed (p0 p1 p2 : Point) :
    (face_cross p2 p1 p0).2.2 = -(face_cross p0 p1 p2).2.2 := by
  simp only [face_cross, cross]
  ring

/-- C10. On a face list with in-range indices `orient_tin` returns, and for the
`k`-th face `f` with points `p0, p1, p2` the `k`-th face after the call is `f` in
reverse order when the z-component of `(p1 - p0) x (p2 - p0)` is negative and is
`f` itself otherwise.  After the call the z-component of the same cross product,
taken on the points of the face as it now stands, is non-negative, and the face
holds the same three vertex indices as before. -/
theorem orient_tin_faces_counterclockwise (sqrt : ℚ → ℚ) (pts : List Point)
    (faces : List Face) (hrange : ∀ f ∈ faces, face_in_range pts f) :
    ∃ result oriented, orient_tin sqrt pts faces = some (result, oriented) ∧
      oriented.length = faces.length ∧
      ∀ (k : Nat) (f : Face), faces[k]? = some f →
        ∃ p0 p1 p2 g, point_at pts f.1 = some p0 ∧ point_at pts f.2.1 = some p1 ∧
          point_at pts f.2.2 = some p2 ∧ oriented[k]? = some g ∧
          ((face_cross p0 p1 p2).2.2 < 0 → g = (f.2.2, f.2.1, f.1)) ∧
          (¬ (face_cross p0 p1 p2).2.2 < 0 → g = f) ∧
          (∃ q0 q1 q2, point_at pts g.1 = some q0 ∧ point_at pts g.2.1 = some q1 ∧
            point_at pts g.2.2 = some q2 ∧ 0 ≤ (face_cross q0 q1 q2).2.2) ∧
          [g.1, g.2.1, g.2.2].Perm [f.1, f.2.1, f.2.2] := by
  obtain ⟨result, oriented, hres, -, hl2, hk⟩ := orient_tin_of_range sqrt pts faces hrange
  refine ⟨result, oriented, hres, hl2, ?_⟩
  intro k f hkf
  obtain ⟨v, g, -, hg, hvg⟩ := hk k f hkf
  have hmem : f ∈ faces := List.getElem?_mem hkf
  obtain ⟨p0, p1, p2, hp0, hp1, hp2, hface⟩ := orient_face_of_range sqrt pts f (hrange f hmem)
  rw [hface] at hvg
  by_cases hz : (face_cross p0 p1 p2).2.2 < 0
  · rw [if_pos hz] at hvg
    have hgf : g = (f.2.2, f.2.1, f.1) := (congrArg Prod.snd (Option.some.inj hvg)).symm
    refine ⟨p0, p1, p2, g, hp0, hp1, hp2, hg, fun _ => hgf, fun h => absurd hz h, ?_, ?_⟩
    · refine ⟨p2, p1, p0, ?_, ?_, ?_, ?_⟩
      · rw [hgf]; exact hp2
      · rw [hgf]; exact hp1
      · rw [hgf]; exact hp0
      · rw [face_cross_reversed]; linarith
    · rw [hgf]
      exact List.reverse_perm [f.1, f.2.1, f.2.2]
  · rw [if_neg hz] at hvg
    have hgf : g = f := (congrArg Prod.snd (Option.some.inj hvg)).symm
    refine ⟨p0, p1, p2, g, hp0, hp1, hp2, hg, fun h => absurd h hz, fun _ => hgf, ?_, ?_⟩
    · refine ⟨p0, p1, p2, ?_, ?_, ?_, not_lt.mp hz⟩
      · rw [hgf]; exact hp0
      · rw [hgf]; exact hp1
      · rw [hgf]; exact hp2
    · rw [hgf]

/-- Witness for C10: on the unit square the clockwise face `(0, 2, 1)` is
reversed to `(1, 2, 0)`. -/
theorem orient_tin_faces_counterclockwise_witness :
    (∀ f ∈ square_faces, face_in_range square_points f) ∧
    ∃ result oriented, orient_tin sqrt_floor square_points square_faces = some (result, oriented) ∧
      oriented.length = square_faces.length ∧ oriented[0]? = some (1, 2, 0) := by
  obtain ⟨result, oriented, h1, h2, h3⟩ :=
    orient_tin_faces_counterclockwise sqrt_floor square_points square_faces
      square_faces_in_range
  refine ⟨square_faces_in_range, result, oriented, h1, h2, ?_⟩
  obtain ⟨p0, p1, p2, g, hp0, hp1, hp2, hg, hrev, -, -, -⟩ := h3 0 (0, 2, 1) (by simp [square_faces])
  simp [point_at, square_points] at hp0 hp1 hp2
  subst hp0 hp1 hp2
  rw [hg, hrev (by norm_num [face_cross, cross])]

/-! ## normal -/

theorem normalize_of_ne_zero (sqrt : ℚ → ℚ) (n : Point) (hc : norm sqrt n ≠ 0) :
    normalize sqrt n = (some (n.1 / norm sqrt n), some (n.2.1 / norm sqrt n),
      some (n.2.2 / norm sqrt n)) := by
  simp [normalize, fdiv, hc]

theorem norm_neg (sqrt : ℚ → ℚ) (n : Point) :
    norm sqrt (-n.1, -n.2.1, -n.2.2) = norm sqrt n := by
  simp [norm]

theorem upward_normalize (sqrt : ℚ → ℚ) (n : Point) (hc : 0 < norm sqrt n) :
    upward (normalize sqrt n) =
      if 0 ≤ n.2.2 then (some (n.1 / norm sqrt n), some (n.2.1 / norm sqrt n),
          some (n.2.2 / norm sqrt n))
      else (some (-(n.1 / norm sqrt n)), some (-(n.2.1 / norm sqrt n)),
          some (-(n.2.2 / norm sqrt n))) := by
  rw [normalize_of_ne_zero sqrt n hc.ne']
  by_cases hz : 0 ≤ n.2.2
  · have h : 0 ≤ n.2.2 / norm sqrt n := div_nonneg hz hc.le
    simp [upward, ge_zero, hz, h]
  · have h : ¬ 0 ≤ n.2.2 / norm sqrt n := by
      rw [not_le] at hz ⊢
      exact div_neg_of_neg_of_pos hz hc
    simp [upward, ge_zero, hz, h, fneg]

theorem upward_normalize_neg (sqrt : ℚ → ℚ) (n : Point) (hc : 0 < norm sqrt n)
    (hz : n.2.2 ≠ 0) :
    upward (normalize sqrt (-n.1, -n.2.1, -n.2.2)) = upward (normalize sqrt n) := by
  have hc2 : 0 < norm sqrt (-n.1, -n.2.1, -n.2.2) := by rw [norm_neg]; exact hc
  rw [upward_normalize sqrt _ hc2, upward_normalize sqrt n hc, norm_neg]
  rcases lt_or_gt_of_ne hz with h | h
  · have h1 : (0 : ℚ) ≤ -n.2.2 := by linarith
    have h2 : ¬ (0 : ℚ) ≤ n.2.2 := by linarith
    simp only [h1, h2, if_true, if_false, neg_div]
  · have h1 : ¬ (0 : ℚ) ≤ -n.2.2 := by linarith
    have h2 : (0 : ℚ) ≤ n.2.2 := by linarith
    simp only [h1, h2, if_true, if_false, neg_div, neg_neg]

theorem face_cross_swap_12 (p0 p1 p2 : Point) :
    face_cross p0 p2 p1 =
      (-(face_cross p0 p1 p2).1, -(face_cross p0 p1 p2).2.1, -(face_cross p0 p1 p2).2.2) := by
  simp only [face_cross, cross, Prod.mk.injEq]
  refine ⟨by ring, by ring, by ring⟩

theorem face_cross_swap_01 (p0 p1 p2 : Point) :
    face_cross p1 p0 p2 =
      (-(face_cross p0 p1 p2).1, -(face_cross p0 p1 p2).2.1, -(face_cross p0 p1 p2).2.2) := by
  simp only [face_cross, cross, Prod.mk.injEq]
  refine ⟨by ring, by ring, by ring⟩

theorem face_cross_swap_02 (p0 p1 p2 : Point) :
    face_cross p2 p1 p0 =
      (-(face_cross p0 p1 p2).1, -(face_cross p0 p1 p2).2.1, -(face_cross p0 p1 p2).2.2) := by
  simp only [face_cross, cross, Prod.mk.injEq]
  refine ⟨by ring, by ring, by ring⟩

theorem face_cross_rotate (p0 p1 p2 : Point) : face_cross p1 p2 p0 = face_cross p0 p1 p2 := by
  simp only [face_cross, cross, Prod.mk.injEq]
  refine ⟨by ring, by ring, by ring⟩

theorem sqrt_floor_one : sqrt_floor 1 = 1 := by
  simp [sqrt_floor]

/-- C11, as stated, fails.  The points `(0, 0, 0)`, `(1, 0, 0)`, `(0, 0, 1)` are not
collinear, and the face they span is vertical: the z-component of the cross
product is `0` in both windings, no sign is flipped, and `normal` returns
`(0, -1, 0)` for one winding and `(0, 1, 0)` for the other. -/
theorem normal_of_vertical_face :
    face_cross (0, 0, 0) (1, 0, 0) (0, 0, 1) ≠ (0, 0, 0) ∧
    normal sqrt_floor (0, 0, 0) (1, 0, 0) (0, 0, 1) = (some 0, some (-1), some 0) ∧
    normal sqrt_floor (0, 0, 0) (0, 0, 1) (1, 0, 0) = (some 0, some 1, some 0) := by
  refine ⟨?_, ?_, ?_⟩
  · simp [face_cross, cross]
  · simp [normal, normalize, upward, ge_zero, face_cross, cross, norm, fdiv, sqrt_floor_one]
  · simp [normal, normalize, upward, ge_zero, face_cross, cross, norm, fdiv, sqrt_floor_one]

/-- C11, amended.  For three non-collinear points, with `n = (p1 - p0) x (p2 - p0)`
and `c` its norm, and a square root that is positive on positive numbers,
`normal(p0, p1, p2)` is `n / c` when `n_z >= 0` and `-n / c` when `n_z < 0`: a
vector along the cross product with z-component at least `0`, of length `1` when
the square root of the squared length of `n` is exact.  The two cyclic
re-orderings give the same vector, and the three orderings of the opposite winding
agree among themselves.  When `n_z` is not `0` (the face is not vertical) the
opposite winding gives the same vector too, so all six orderings do, and its
z-component is positive: it is the upward unit normal.  When `n_z = 0` (a vertical
face) the opposite winding gives the opposite vector, which is a different
one. -/
theorem normal_winding_independent (sqrt : ℚ → ℚ) (p0 p1 p2 : Point)
    (hsqrt : ∀ t, 0 < t → 0 < sqrt t) (hnd : face_cross p0 p1 p2 ≠ (0, 0, 0)) :
    ∃ x y z : ℚ,
      (x, y, z) =
        (if 0 ≤ (face_cross p0 p1 p2).2.2 then
          ((face_cross p0 p1 p2).1 / norm sqrt (face_cross p0 p1 p2),
            (face_cross p0 p1 p2).2.1 / norm sqrt (face_cross p0 p1 p2),
            (face_cross p0 p1 p2).2.2 / norm sqrt (face_cross p0 p1 p2))
        else
          (-((face_cross p0 p1 p2).1 / norm sqrt (face_cross p0 p1 p2)),
            -((face_cross p0 p1 p2).2.1 / norm sqrt (face_cross p0 p1 p2)),
            -((face_cross p0 p1 p2).2.2 / norm sqrt (face_cross p0 p1 p2)))) ∧
      normal sqrt p0 p1 p2 = (some x, some y, some z) ∧ 0 ≤ z ∧
      (norm sqrt (face_cross p0 p1 p2) * norm sqrt (face_cross p0 p1 p2) =
          (face_cross p0 p1 p2).1 ^ 2 + (face_cross p0 p1 p2).2.1 ^ 2 +
            (face_cross p0 p1 p2).2.2 ^ 2 →
        x ^ 2 + y ^ 2 + z ^ 2 = 1) ∧
      normal sqrt p1 p2 p0 = normal sqrt p0 p1 p2 ∧
      normal sqrt p2 p0 p1 = normal sqrt p0 p1 p2 ∧
      normal sqrt p1 p0 p2 = normal sqrt p0 p2 p1 ∧
      normal sqrt p2 p1 p0 = normal sqrt p0 p2 p1 ∧
      ((face_cross p0 p1 p2).2.2 ≠ 0 →
        normal sqrt p0 p2 p1 = normal sqrt p0 p1 p2 ∧ 0 < z) ∧
      ((face_cross p0 p1 p2).2.2 = 0 →
        normal sqrt p0 p2 p1 = (some (-x), some (-y), some (-z)) ∧
        normal sqrt p0 p2 p1 ≠ normal sqrt p0 p1 p2) := by
  have hc : 0 < norm sqrt (face_cross p0 p1 p2) := hsqrt _ (sum_sq_pos_of_ne_zero _ hnd)
  have hrot : normal sqrt p1 p2 p0 = normal sqrt p0 p1 p2 := by
    simp only [normal, face_cross_rotate p0 p1 p2]
  have hrot2 : normal sqrt p2 p0 p1 = normal sqrt p0 p1 p2 := by
    simp only [normal, face_cross_rotate p2 p0 p1, face_cross_rotate p0 p1 p2]
  have h01 : normal sqrt p1 p0 p2 = normal sqrt p0 p2 p1 := by
    simp only [normal, face_cross_swap_01 p0 p1 p2, face_cross_swap_12 p0 p1 p2]
  have h02 : normal sqrt p2 p1 p0 = normal sqrt p0 p2 p1 := by
    simp only [normal, face_cross_swap_02 p0 p1 p2, face_cross_swap_12 p0 p1 p2]
  have hup : normal sqrt p0 p1 p2 = _ := upward_normalize sqrt (face_cross p0 p1 p2) hc
  have hswap : normal sqrt p0 p2 p1 = upward (normalize sqrt
      (-(face_cross p0 p1 p2).1, -(face_cross p0 p1 p2).2.1, -(face_cross p0 p1 p2).2.2)) := by
    simp only [normal, face_cross_swap_12 p0 p1 p2]
  have hc2 : 0 < norm sqrt
      (-(face_cross p0 p1 p2).1, -(face_cross p0 p1 p2).2.1, -(face_cross p0 p1 p2).2.2) := by
    rw [norm_neg]
    exact hc
  set n := face_cross p0 p1 p2 with hn
  set c := norm sqrt n with hcdef
  have hc0 : c ≠ 0 := hc.ne'
  by_cases hpos : 0 ≤ n.2.2
  · rw [if_pos hpos] at hup
    refine ⟨n.1 / c, n.2.1 / c, n.2.2 / c, by rw [if_pos hpos], hup, div_nonneg hpos hc.le, ?_,
      hrot, hrot2, h01, h02, ?_, ?_⟩
    · intro hex
      field_simp
      nlinarith [hex]
    · intro hz
      refine ⟨?_, div_pos (lt_of_le_of_ne hpos (Ne.symm hz)) hc⟩
      rw [hswap]
      exact upward_normalize_neg sqrt n hc hz
    · intro hz
      have hval : normal sqrt p0 p2 p1
          = (some (-(n.1 / c)), some (-(n.2.1 / c)), some (-(n.2.2 / c))) := by
        rw [hswap, upward_normalize sqrt _ hc2, norm_neg]
        have h0 : (0 : ℚ) ≤ -n.2.2 := by rw [hz]; norm_num
        rw [if_pos h0]
        simp only [neg_div]
      refine ⟨hval, ?_⟩
      rw [hval, hup]
      intro heq
      have e1 : -(n.1 / c) = n.1 / c := Option.some.inj (congrArg Prod.fst heq)
      have e2 : -(n.2.1 / c) = n.2.1 / c := Option.some.inj (congrArg (fun v => v.2.1) heq)
      have x0 : n.1 / c = 0 := by linarith
      have y0 : n.2.1 / c = 0 := by linarith
      have a0 : n.1 = 0 := by
        rcases div_eq_zero_iff.mp x0 with h | h
        · exact h
        · exact absurd h hc0
      have b0 : n.2.1 = 0 := by
        rcases div_eq_zero_iff.mp y0 with h | h
        · exact h
        · exact absurd h hc0
      exact hnd (Prod.ext a0 (Prod.ext b0 hz))
  · rw [if_neg hpos] at hup
    have hneg : n.2.2 < 0 := not_le.mp hpos
    refine ⟨-(n.1 / c), -(n.2.1 / c), -(n.2.2 / c), by rw [if_neg hpos], hup, ?_, ?_,
      hrot, hrot2, h01, h02, ?_, ?_⟩
    · have : n.2.2 / c < 0 := div_neg_of_neg_of_pos hneg hc
      linarith
    · intro hex
      field_simp
      nlinarith [hex]
    · intro hz
      refine ⟨?_, ?_⟩
      · rw [hswap]
        exact upward_normalize_neg sqrt n hc hz
      · have : n.2.2 / c < 0 := div_neg_of_neg_of_pos hneg hc
        linarith
    · intro hz
      exact absurd hz hneg.ne

/-- Witness for C11, amended: three corners of the unit square, whose face is not
vertical. -/
theorem normal_winding_independent_witness :
    ((∀ t, 0 < t → 0 < sqrt_floor t) ∧
      face_cross (0, 0, 0) (1, 0, 0) (1, 1, 0) ≠ (0, 0, 0) ∧
      (face_cross (0, 0, 0) (1, 0, 0) (1, 1, 0)).2.2 ≠ 0) ∧
    normal sqrt_floor (0, 0, 0) (1, 1, 0) (1, 0, 0) =
      normal sqrt_floor (0, 0, 0) (1, 0, 0) (1, 1, 0) := by
  have hnd : face_cross (0, 0, 0) (1, 0, 0) (1, 1, 0) ≠ (0, 0, 0) := by
    simp [face_cross, cross]
  have hz : (face_cross (0, 0, 0) (1, 0, 0) (1, 1, 0)).2.2 ≠ 0 := by
    simp [face_cross, cross]
  obtain ⟨x, y, z, -, -, -, -, -, -, -, -, h, -⟩ :=
    normal_winding_independent sqrt_floor (0, 0, 0) (1, 0, 0) (1, 1, 0) sqrt_floor_pos hnd
  exact ⟨⟨sqrt_floor_pos, hnd, hz⟩, (h hz).1⟩

/-! ## partition -/

theorem partition_eq_filter (pts : List Point) (criterion : Point → Point → Point → Bool)
    (faces : List Face) (hrange : ∀ f ∈ faces, face_in_range pts f) :
    partition pts criterion faces =
      some (faces.filter (face_satisfies pts criterion),
        faces.filter (fun f => !face_satisfies pts criterion f)) := by
  induction faces with
  | nil => rfl
  | cons face faces ih =>
    have hface := hrange face (List.mem_cons_self _ _)
    obtain ⟨⟨a0, a1⟩, ⟨b0, b1⟩, ⟨c0, c1⟩⟩ := hface
    obtain ⟨p0, hp0⟩ := point_at_of_range pts face.1 a0 a1
    obtain ⟨p1, hp1⟩ := point_at_of_range pts face.2.1 b0 b1
    obtain ⟨p2, hp2⟩ := point_at_of_range pts face.2.2 c0 c1
    have hsat : face_satisfies pts criterion face = criterion p0 p1 p2 := by
      simp only [face_satisfies, hp0, hp1, hp2]
    simp only [partition, hp0, hp1, hp2, ih (fun f hf => hrange f (List.mem_cons_of_mem _ hf)),
      Option.bind_eq_bind, Option.some_bind, List.filter_cons, hsat]
    by_cases hc : criterion p0 p1 p2 = true
    · simp [hc]
    · simp [hc]

/-- C12. On a face list with in-range indices `partition` returns
`(part1, part2)`, where `part1` is the list of the faces whose three points
satisfy the criterion and `part2` the list of those that do not, each in the
order of the face list; every face of the list is in exactly one of the two
lists, and `|part1| + |part2| = |faces|`. -/
theorem partition_splits_faces (pts : List Point) (criterion : Point → Point → Point → Bool)
    (faces : List Face) (hrange : ∀ f ∈ faces, face_in_range pts f) :
    ∃ part1 part2, partition pts criterion faces = some (part1, part2) ∧
      part1 = faces.filter (face_satisfies pts criterion) ∧
      part2 = faces.filter (fun f => !face_satisfies pts criterion f) ∧
      part1.Sublist faces ∧ part2.Sublist faces ∧
      (∀ f ∈ faces, (f ∈ part1 ∧ f ∉ part2) ∨ (f ∈ part2 ∧ f ∉ part1)) ∧
      part1.length + part2.length = faces.length := by
  refine ⟨_, _, partition_eq_filter pts criterion faces hrange, rfl, rfl,
    List.filter_sublist _, List.filter_sublist _, ?_, ?_⟩
  · intro f hf
    by_cases hs : face_satisfies pts criterion f = true
    · left
      simp [List.mem_filter, hf, hs]
    · right
      simp [List.mem_filter, hf, hs]
  · induction faces with
    | nil => rfl
    | cons face faces ih =>
      have ih2 := ih (fun f hf => hrange f (List.mem_cons_of_mem _ hf))
      simp only [List.filter_cons, List.length_cons]
      by_cases hs : face_satisfies pts criterion face = true
      · have hs2 : (!face_satisfies pts criterion face) = false := by simp [hs]
        rw [if_pos hs, if_neg (by rw [hs2]; exact Bool.false_ne_true)]
        simp only [List.length_cons]
        omega
      · have hs2 : (!face_satisfies pts criterion face) = true := by simpa using hs
        rw [if_neg hs, if_pos hs2]
        simp only [List.length_cons]
        omega

/-- Witness for C12: the two faces on the unit square, split by the sign of the
z-component of the cross product. -/
theorem partition_splits_faces_witness :
    (∀ f ∈ square_faces, face_in_range square_points f) ∧
    ∃ part1 part2,
      partition square_points (fun p0 p1 p2 => decide ((face_cross p0 p1 p2).2.2 < 0))
        square_faces = some (part1, part2) ∧
      part1.length + part2.length = square_faces.length := by
  obtain ⟨part1, part2, h, -, -, -, -, -, hlen⟩ :=
    partition_splits_faces square_points
      (fun p0 p1 p2 => decide ((face_cross p0 p1 p2).2.2 < 0)) square_faces square_faces_in_range
  exact ⟨square_faces_in_range, part1, part2, h, hlen⟩

/-! ## extract_avalanche_expositions -/

theorem normal_none_or_some (sqrt : ℚ → ℚ) (p0 p1 p2 : Point) :
    normal sqrt p0 p1 p2 = (none, none, none) ∨
      ∃ x y z, normal sqrt p0 p1 p2 = (some x, some y, some z) := by
  by_cases hc : norm sqrt (face_cross p0 p1 p2) = 0
  · left
    simp [normal, normalize, fdiv, hc, upward, ge_zero, fneg]
  · right
    simp only [normal, normalize_of_ne_zero sqrt _ hc, upward]
    split
    · exact ⟨_, _, _, rfl⟩
    · exact ⟨_, _, _, rfl⟩

theorem face_satisfies_of_points (pts : List Point) (criterion : Point → Point → Point → Bool)
    (f : Face) (p0 p1 p2 : Point) (h0 : point_at pts f.1 = some p0)
    (h1 : point_at pts f.2.1 = some p1) (h2 : point_at pts f.2.2 = some p2) :
    face_satisfies pts criterion f = criterion p0 p1 p2 := by
  simp only [face_satisfies, h0, h1, h2]

theorem if_chain_eq_true (inside below exposed : Bool) :
    (if !inside then false else if below then false else exposed) = true ↔
      inside = true ∧ below = false ∧ exposed = true := by
  cases inside <;> cases below <;> cases exposed <;> simp

theorem avalanche_criterion_iff (sqrt : ℚ → ℚ) (atan2 : ℚ → ℚ → ℚ) (M_PI : ℚ)
    (exposed_intervals height_intervals : List Point2) (p0 p1 p2 : Point) :
    avalanche_criterion sqrt atan2 M_PI exposed_intervals height_intervals p0 p1 p2 = true ↔
      avalanche_exposed sqrt atan2 M_PI exposed_intervals height_intervals p0 p1 p2 := by
  have hthr : (30 : ℚ) / 180 * M_PI = M_PI / 6 := by ring
  unfold avalanche_criterion avalanche_exposed
  rw [if_chain_eq_true]
  have hinside : (height_intervals.any fun height_interval =>
      (decide (max p0.2.2 (max p1.2.2 p2.2.2) ≤ height_interval.2) &&
          decide (max p0.2.2 (max p1.2.2 p2.2.2) ≥ height_interval.1)) ||
        (decide (min p0.2.2 (min p1.2.2 p2.2.2) ≤ height_interval.2) &&
          decide (min p0.2.2 (min p1.2.2 p2.2.2) ≥ height_interval.1))) = true ↔
      ∃ h ∈ height_intervals,
        (h.1 ≤ max p0.2.2 (max p1.2.2 p2.2.2) ∧ max p0.2.2 (max p1.2.2 p2.2.2) ≤ h.2) ∨
          (h.1 ≤ min p0.2.2 (min p1.2.2 p2.2.2) ∧ min p0.2.2 (min p1.2.2 p2.2.2) ≤ h.2) := by
    rw [List.any_eq_true]
    constructor
    · rintro ⟨h, hh, hc⟩
      refine ⟨h, hh, ?_⟩
      rw [Bool.or_eq_true, Bool.and_eq_true, Bool.and_eq_true] at hc
      simp only [decide_eq_true_eq, ge_iff_le] at hc
      rcases hc with ⟨a, b⟩ | ⟨a, b⟩
      · exact Or.inl ⟨b, a⟩
      · exact Or.inr ⟨b, a⟩
    · rintro ⟨h, hh, hc⟩
      refine ⟨h, hh, ?_⟩
      rw [Bool.or_eq_true, Bool.and_eq_true, Bool.and_eq_true]
      simp only [decide_eq_true_eq, ge_iff_le]
      rcases hc with ⟨a, b⟩ | ⟨a, b⟩
      · exact Or.inl ⟨b, a⟩
      · exact Or.inr ⟨b, a⟩
  rw [hinside]
  rcases normal_none_or_some sqrt p0 p1 p2 with hn | ⟨x, y, z, hn⟩
  · have hs : slope_of sqrt atan2 (normal sqrt p0 p1 p2) = none := by
      rw [hn]; rfl
    have ha : aspect_of atan2 (normal sqrt p0 p1 p2) = none := by
      rw [hn]; rfl
    rw [hs, ha]
    constructor
    · rintro ⟨-, -, he⟩
      rw [List.any_eq_true] at he
      obtain ⟨e, -, hc⟩ := he
      simp [flt] at hc
    · rintro ⟨-, ⟨s, hs2, -⟩, -⟩
      exact absurd hs2 (by simp)
  · have hs : slope_of sqrt atan2 (normal sqrt p0 p1 p2) =
        some (compute_slope sqrt atan2 (x, y, z)) := by
      rw [hn]; rfl
    have ha : aspect_of atan2 (normal sqrt p0 p1 p2) =
        some (compute_aspect atan2 (x, y, (0 : ℚ))) := by
      rw [hn]; rfl
    rw [hs, ha]
    generalize compute_slope sqrt atan2 (x, y, z) = s
    generalize compute_aspect atan2 (x, y, (0 : ℚ)) = a
    have hbelow : flt (some s) (some (30 / 180 * M_PI)) = false ↔ M_PI / 6 ≤ s := by
      simp only [flt, hthr, decide_eq_false_iff_not, not_lt]
    have hexp : (exposed_intervals.any fun exposition =>
        (flt (some exposition.1) (some a) && flt (some a) (some exposition.2)) ||
          (decide (exposition.1 > exposition.2) &&
            (flt (some exposition.1) (some a) || flt (some a) (some exposition.2)))) = true ↔
        ∃ e ∈ exposed_intervals,
          (e.1 < a ∧ a < e.2) ∨ (e.1 > e.2 ∧ (a < e.2 ∨ a > e.1)) := by
      rw [List.any_eq_true]
      constructor
      · rintro ⟨e, he, hc⟩
        refine ⟨e, he, ?_⟩
        simp only [flt, Bool.or_eq_true, Bool.and_eq_true, decide_eq_true_eq] at hc
        rcases hc with ⟨h1, h2⟩ | ⟨h1, h2 | h2⟩
        · exact Or.inl ⟨h1, h2⟩
        · exact Or.inr ⟨h1, Or.inr h2⟩
        · exact Or.inr ⟨h1, Or.inl h2⟩
      · rintro ⟨e, he, hc⟩
        refine ⟨e, he, ?_⟩
        simp only [flt, Bool.or_eq_true, Bool.and_eq_true, decide_eq_true_eq]
        rcases hc with ⟨h1, h2⟩ | ⟨h1, h2 | h2⟩
        · exact Or.inl ⟨h1, h2⟩
        · exact Or.inr ⟨h1, Or.inr h2⟩
        · exact Or.inr ⟨h1, Or.inl h2⟩
    rw [hbelow, hexp]
    constructor
    · rintro ⟨h1, h2, h3⟩
      exact ⟨h1, ⟨s, rfl, h2⟩, ⟨a, rfl, h3⟩⟩
    · rintro ⟨h1, ⟨s2, hs2, h2⟩, ⟨a2, ha2, h3⟩⟩
      rw [Option.some.injEq] at hs2 ha2
      subst hs2 ha2
      exact ⟨h1, h2, h3⟩

theorem points_of_range (pts : List Point) (f : Face) (h : face_in_range pts f) :
    ∃ p0 p1 p2, point_at pts f.1 = some p0 ∧ point_at pts f.2.1 = some p1 ∧
      point_at pts f.2.2 = some p2 := by
  obtain ⟨⟨a0, a1⟩, ⟨b0, b1⟩, ⟨c0, c1⟩⟩ := h
  obtain ⟨p0, hp0⟩ := point_at_of_range pts f.1 a0 a1
  obtain ⟨p1, hp1⟩ := point_at_of_range pts f.2.1 b0 b1
  obtain ⟨p2, hp2⟩ := point_at_of_range pts f.2.2 c0 c1
  exact ⟨p0, p1, p2, hp0, hp1, hp2⟩

/-- C13. On a face list with in-range indices `extract_avalanche_expositions`
returns, and a face is in its first list if and only if it is a face of the list
whose three points meet the condition `avalanche_exposed`, which is (a), (b)
and (c) of the claim; the other faces make the second list, and no face of the
first list has a slope below `M_PI / 6`. -/
theorem avalanche_faces_exposed (sqrt : ℚ → ℚ) (atan2 : ℚ → ℚ → ℚ) (M_PI : ℚ)
    (pts : List Point) (faces : List Face) (exposed_intervals height_intervals : List Point2)
    (hrange : ∀ f ∈ faces, face_in_range pts f) :
    ∃ part1 part2,
      extract_avalanche_expositions sqrt atan2 M_PI pts faces exposed_intervals
        height_intervals = some (part1, part2) ∧
      (∀ f, f ∈ part1 ↔ f ∈ faces ∧ ∃ p0 p1 p2, point_at pts f.1 = some p0 ∧
        point_at pts f.2.1 = some p1 ∧ point_at pts f.2.2 = some p2 ∧
        avalanche_exposed sqrt atan2 M_PI exposed_intervals height_intervals p0 p1 p2) ∧
      (∀ f, f ∈ part2 ↔ f ∈ faces ∧ ∃ p0 p1 p2, point_at pts f.1 = some p0 ∧
        point_at pts f.2.1 = some p1 ∧ point_at pts f.2.2 = some p2 ∧
        ¬ avalanche_exposed sqrt atan2 M_PI exposed_intervals height_intervals p0 p1 p2) ∧
      (∀ f ∈ part1, ∀ p0 p1 p2 slope, point_at pts f.1 = some p0 →
        point_at pts f.2.1 = some p1 → point_at pts f.2.2 = some p2 →
        slope_of sqrt atan2 (normal sqrt p0 p1 p2) = some slope → ¬ slope < M_PI / 6) := by
  have hpart := partition_eq_filter pts
    (avalanche_criterion sqrt atan2 M_PI exposed_intervals height_intervals) faces hrange
  have hpoints := fun f hf => points_of_range pts f (hrange f hf)
  have hmem1 : ∀ f, f ∈ faces.filter (face_satisfies pts
      (avalanche_criterion sqrt atan2 M_PI exposed_intervals height_intervals)) ↔
      f ∈ faces ∧ ∃ p0 p1 p2, point_at pts f.1 = some p0 ∧
        point_at pts f.2.1 = some p1 ∧ point_at pts f.2.2 = some p2 ∧
        avalanche_exposed sqrt atan2 M_PI exposed_intervals height_intervals p0 p1 p2 := by
    intro f
    rw [List.mem_filter]
    constructor
    · rintro ⟨hf, hs⟩
      obtain ⟨p0, p1, p2, h0, h1, h2⟩ := hpoints f hf
      rw [face_satisfies_of_points pts _ f p0 p1 p2 h0 h1 h2, avalanche_criterion_iff] at hs
      exact ⟨hf, p0, p1, p2, h0, h1, h2, hs⟩
    · rintro ⟨hf, p0, p1, p2, h0, h1, h2, hs⟩
      rw [face_satisfies_of_points pts _ f p0 p1 p2 h0 h1 h2, avalanche_criterion_iff]
      exact ⟨hf, hs⟩
  refine ⟨_, _, hpart, hmem1, ?_, ?_⟩
  · intro f
    rw [List.mem_filter]
    constructor
    · rintro ⟨hf, hs⟩
      obtain ⟨p0, p1, p2, h0, h1, h2⟩ := hpoints f hf
      rw [face_satisfies_of_points pts _ f p0 p1 p2 h0 h1 h2, Bool.not_eq_true',
        ← Bool.not_eq_true, avalanche_criterion_iff] at hs
      exact ⟨hf, p0, p1, p2, h0, h1, h2, hs⟩
    · rintro ⟨hf, p0, p1, p2, h0, h1, h2, hs⟩
      rw [face_satisfies_of_points pts _ f p0 p1 p2 h0 h1 h2, Bool.not_eq_true',
        ← Bool.not_eq_true, avalanche_criterion_iff]
      exact ⟨hf, hs⟩
  · intro f hf p0 p1 p2 slope h0 h1 h2 hslope hlt
    obtain ⟨-, q0, q1, q2, g0, g1, g2, -, ⟨s, hs, hge⟩, -⟩ := (hmem1 f).mp hf
    rw [h0] at g0
    rw [h1] at g1
    rw [h2] at g2
    rw [Option.some.injEq] at g0 g1 g2
    subst g0 g1 g2
    rw [hslope, Option.some.injEq] at hs
    subst hs
    linarith

theorem sqrt_floor_zero : sqrt_floor 0 = 0 := by
  simp [sqrt_floor]

theorem slope_points_in_range : ∀ f ∈ [((0 : Int), (1 : Int), (2 : Int))],
    face_in_range slope_points f := by
  intro f hf
  simp only [List.mem_singleton] at hf
  subst hf
  simp [face_in_range, slope_points]

theorem normal_slope_points :
    normal sqrt_floor (0, 0, 0) (4, 0, 3) (0, 1, 0) = (some (-3 / 5), some 0, some (4 / 5)) := by
  have h : (face_cross (0, 0, 0) (4, 0, 3) (0, 1, 0)) = (-3, 0, 4) := by
    simp [face_cross, cross]
  have hc : norm sqrt_floor (-3, 0, 4) = 5 := by
    have e : ((-3 : ℚ)) ^ 2 + 0 ^ 2 + 4 ^ 2 = 25 := by norm_num
    simp only [norm, e, sqrt_floor_25]
  simp only [normal, h, normalize, hc, fdiv]
  norm_num [upward, ge_zero]

/-- Witness for C13: the face on `slope_points` has its largest z in the height
interval `[0, 10]`, a slope of about 0.65 and the aspect `-pi / 2`, inside the
exposure interval `(-2, -1)`; it is in the first list. -/
theorem avalanche_faces_exposed_witness :
    (∀ f ∈ [((0 : Int), (1 : Int), (2 : Int))], face_in_range slope_points f) ∧
    ∃ part1 part2,
      extract_avalanche_expositions sqrt_floor atan2_approx pi_approx slope_points
        [(0, 1, 2)] [(-2, -1)] [(0, 10)] = some (part1, part2) ∧
      ((0 : Int), (1 : Int), (2 : Int)) ∈ part1 := by
  obtain ⟨part1, part2, h, hmem, -, -⟩ :=
    avalanche_faces_exposed sqrt_floor atan2_approx pi_approx slope_points [(0, 1, 2)]
      [(-2, -1)] [(0, 10)] slope_points_in_range
  refine ⟨slope_points_in_range, part1, part2, h, (hmem _).mpr ⟨by simp, ?_⟩⟩
  refine ⟨(0, 0, 0), (4, 0, 3), (0, 1, 0), by simp [point_at, slope_points],
    by simp [point_at, slope_points], by simp [point_at, slope_points], ?_⟩
  have hs : sqrt_floor ((-3 / 5 : ℚ) ^ 2 + 0 ^ 2) = 3 / 5 := by
    have e : ((-3 / 5 : ℚ)) ^ 2 + 0 ^ 2 = 9 / 25 := by norm_num
    have hnum : ((9 : ℚ) / 25).num = 9 := by norm_num
    have hden : ((9 : ℚ) / 25).den = 25 := by norm_num
    have hsq : Int.toNat 9 * 25 = 15 * 15 := by decide
    rw [e, sqrt_floor, hnum, hden, hsq, Nat.sqrt_eq]
    norm_num
  refine ⟨⟨(0, 10), by simp, Or.inl (by norm_num)⟩, ?_, ?_⟩
  · refine ⟨atan2_approx (3 / 5) (4 / 5), ?_, ?_⟩
    · simp only [normal_slope_points, slope_of, compute_slope, Option.bind_eq_bind,
        Option.some_bind, hs]
      rfl
    · norm_num [atan2_approx, atan_approx, pi_approx, abs_of_pos]
  · refine ⟨atan2_approx (-3 / 5) 0, ?_, (-2, -1), by simp, Or.inl ?_⟩
    · simp only [normal_slope_points, aspect_of, compute_aspect, Option.bind_eq_bind,
        Option.some_bind]
      rfl
    · norm_num [atan2_approx, atan_approx, pi_approx, abs_of_neg]

/-! ## extract_lakes -/

theorem lake_criterion_iff (sqrt : ℚ → ℚ) (atan2 : ℚ → ℚ → ℚ) (p0 p1 p2 : Point) :
    lake_criterion sqrt atan2 p0 p1 p2 = true ↔
      ∃ slope, slope_of sqrt atan2 (normal sqrt p0 p1 p2) = some slope ∧ slope < 1 / 100 := by
  unfold lake_criterion
  cases hs : slope_of sqrt atan2 (normal sqrt p0 p1 p2) with
  | none => simp [flt]
  | some s => simp [flt]

theorem face_cross_flat (p0 p1 p2 : Point) (h01 : p0.2.2 = p1.2.2) (h12 : p1.2.2 = p2.2.2) :
    (face_cross p0 p1 p2).1 = 0 ∧ (face_cross p0 p1 p2).2.1 = 0 := by
  simp only [face_cross, cross, ← h12, ← h01]
  constructor <;> ring

theorem slope_of_flat_face (sqrt : ℚ → ℚ) (atan2 : ℚ → ℚ → ℚ) (p0 p1 p2 : Point)
    (hsqrt : ∀ t, 0 < t → 0 < sqrt t) (hsqrt0 : sqrt 0 = 0)
    (hatan : ∀ x, 0 < x → atan2 0 x = 0)
    (h01 : p0.2.2 = p1.2.2) (h12 : p1.2.2 = p2.2.2) (hne : face_cross p0 p1 p2 ≠ (0, 0, 0)) :
    slope_of sqrt atan2 (normal sqrt p0 p1 p2) = some 0 := by
  obtain ⟨hx, hy⟩ := face_cross_flat p0 p1 p2 h01 h12
  have hc : 0 < norm sqrt (face_cross p0 p1 p2) := hsqrt _ (sum_sq_pos_of_ne_zero _ hne)
  have hz : (face_cross p0 p1 p2).2.2 ≠ 0 := by
    intro h
    exact hne (Prod.ext hx (Prod.ext hy h))
  have hup := upward_normalize sqrt (face_cross p0 p1 p2) hc
  simp only [normal]
  rw [hup, hx, hy]
  by_cases hpos : 0 ≤ (face_cross p0 p1 p2).2.2
  · have hzpos : 0 < (face_cross p0 p1 p2).2.2 / norm sqrt (face_cross p0 p1 p2) :=
      div_pos (lt_of_le_of_ne hpos (Ne.symm hz)) hc
    simp only [if_pos hpos, slope_of, compute_slope, Option.bind_eq_bind, Option.some_bind,
      zero_div, pure]
    norm_num [hsqrt0, hatan _ hzpos]
  · have hzpos : 0 < -((face_cross p0 p1 p2).2.2 / norm sqrt (face_cross p0 p1 p2)) := by
      rw [not_le] at hpos
      have := div_neg_of_neg_of_pos hpos hc
      linarith
    simp only [if_neg hpos, slope_of, compute_slope, Option.bind_eq_bind, Option.some_bind,
      zero_div, pure, neg_zero]
    norm_num [hsqrt0, hatan _ hzpos]

/-- C14, as stated, fails.  The three points of `collinear_points` have the same
z; the face on them is degenerate, its normal and its slope have no value, the
comparison `slope < 0.01` is false, and `extract_lakes` puts the face in the second
list. -/
theorem extract_lakes_degenerate_flat_face :
    face_in_range collinear_points (0, 1, 2) ∧
    (∀ p ∈ collinear_points, p.2.2 = 0) ∧
    extract_lakes sqrt_floor atan2_approx collinear_points [(0, 1, 2)] =
      some ([], [(0, 1, 2)]) := by
  refine ⟨?_, ?_, ?_⟩
  · simp [face_in_range, collinear_points]
  · simp [collinear_points]
  · simp [extract_lakes, partition, point_at, collinear_points, lake_criterion, normal,
      normalize, face_cross, cross, norm, fdiv, sqrt_floor_zero, upward, ge_zero, fneg,
      slope_of, flt]

/-- C14, amended.  On a face list with in-range indices `extract_lakes` puts a
face in the lake list exactly when `slope(normal(p0, p1, p2)) < 0.01`.  Hence a
flat face (its three points have the same z) that is not degenerate is in the
lake list, for a square root that is positive on positive numbers and `0` at
`0` and an `atan2` that is `0` on the positive x-axis; and a face with slope
above `0.01` is not in the lake list. -/
theorem lake_faces_flat (sqrt : ℚ → ℚ) (atan2 : ℚ → ℚ → ℚ) (pts : List Point)
    (faces : List Face)
    (hsqrt : ∀ t, 0 < t → 0 < sqrt t) (hsqrt0 : sqrt 0 = 0)
    (hatan : ∀ x, 0 < x → atan2 0 x = 0)
    (hrange : ∀ f ∈ faces, face_in_range pts f) :
    ∃ part1 part2, extract_lakes sqrt atan2 pts faces = some (part1, part2) ∧
      (∀ f, f ∈ part1 ↔ f ∈ faces ∧ ∃ p0 p1 p2 slope, point_at pts f.1 = some p0 ∧
        point_at pts f.2.1 = some p1 ∧ point_at pts f.2.2 = some p2 ∧
        slope_of sqrt atan2 (normal sqrt p0 p1 p2) = some slope ∧ slope < 1 / 100) ∧
      (∀ f ∈ faces, ∀ p0 p1 p2, point_at pts f.1 = some p0 → point_at pts f.2.1 = some p1 →
        point_at pts f.2.2 = some p2 → p0.2.2 = p1.2.2 → p1.2.2 = p2.2.2 →
        face_cross p0 p1 p2 ≠ (0, 0, 0) → f ∈ part1) ∧
      (∀ f ∈ faces, ∀ p0 p1 p2 slope, point_at pts f.1 = some p0 →
        point_at pts f.2.1 = some p1 → point_at pts f.2.2 = some p2 →
        slope_of sqrt atan2 (normal sqrt p0 p1 p2) = some slope → 1 / 100 < slope →
        f ∉ part1) := by
  have hpart := partition_eq_filter pts (lake_criterion sqrt atan2) faces hrange
  have hmem1 : ∀ f, f ∈ faces.filter (face_satisfies pts (lake_criterion sqrt atan2)) ↔
      f ∈ faces ∧ ∃ p0 p1 p2 slope, point_at pts f.1 = some p0 ∧
        point_at pts f.2.1 = some p1 ∧ point_at pts f.2.2 = some p2 ∧
        slope_of sqrt atan2 (normal sqrt p0 p1 p2) = some slope ∧ slope < 1 / 100 := by
    intro f
    rw [List.mem_filter]
    constructor
    · rintro ⟨hf, hs⟩
      obtain ⟨p0, p1, p2, h0, h1, h2⟩ := points_of_range pts f (hrange f hf)
      rw [face_satisfies_of_points pts _ f p0 p1 p2 h0 h1 h2, lake_criterion_iff] at hs
      obtain ⟨s, hs1, hs2⟩ := hs
      exact ⟨hf, p0, p1, p2, s, h0, h1, h2, hs1, hs2⟩
    · rintro ⟨hf, p0, p1, p2, s, h0, h1, h2, hs1, hs2⟩
      rw [face_satisfies_of_points pts _ f p0 p1 p2 h0 h1 h2, lake_criterion_iff]
      exact ⟨hf, s, hs1, hs2⟩
  refine ⟨_, _, hpart, hmem1, ?_, ?_⟩
  · intro f hf p0 p1 p2 h0 h1 h2 h01 h12 hne
    refine (hmem1 f).mpr ⟨hf, p0, p1, p2, 0, h0, h1, h2, ?_, by norm_num⟩
    exact slope_of_flat_face sqrt atan2 p0 p1 p2 hsqrt hsqrt0 hatan h01 h12 hne
  · intro f hf p0 p1 p2 slope h0 h1 h2 hs hgt hmem
    obtain ⟨-, q0, q1, q2, s, g0, g1, g2, hs2, hlt⟩ := (hmem1 f).mp hmem
    rw [h0] at g0
    rw [h1] at g1
    rw [h2] at g2
    rw [Option.some.injEq] at g0 g1 g2
    subst g0 g1 g2
    rw [hs, Option.some.injEq] at hs2
    subst hs2
    linarith

theorem atan2_approx_axis (x : ℚ) (hx : 0 < x) : atan2_approx 0 x = 0 := by
  have h1 : ¬ (x = 0 ∧ (0 : ℚ) = 0) := fun h => hx.ne' h.1
  have h2 : |(0 : ℚ)| ≤ |x| := by simp
  simp [atan2_approx, h1, h2, hx, atan_approx]

/-- Witness for C14, amended: the two flat faces on the unit square are in the
lake list. -/
theorem lake_faces_flat_witness :
    ((∀ t, 0 < t → 0 < sqrt_floor t) ∧ sqrt_floor 0 = 0 ∧
      (∀ x, 0 < x → atan2_approx 0 x = 0) ∧
      (∀ f ∈ square_faces, face_in_range square_points f)) ∧
    ∃ part1 part2, extract_lakes sqrt_floor atan2_approx square_points square_faces =
        some (part1, part2) ∧
      ((0 : Int), (2 : Int), (1 : Int)) ∈ part1 := by
  obtain ⟨part1, part2, h, -, hflat, -⟩ :=
    lake_faces_flat sqrt_floor atan2_approx square_points square_faces sqrt_floor_pos
      sqrt_floor_zero atan2_approx_axis square_faces_in_range
  refine ⟨⟨sqrt_floor_pos, sqrt_floor_zero, atan2_approx_axis, square_faces_in_range⟩,
    part1, part2, h, ?_⟩
  exact hflat (0, 2, 1) (by simp [square_faces]) (0, 0, 0) (1, 1, 0) (1, 0, 0)
    (by simp [point_at, square_points]) (by simp [point_at, square_points])
    (by simp [point_at, square_points]) rfl rfl (by simp [face_cross, cross])

/-! ## compute_shadow -/

theorem sqrt_floor_sq (q : ℚ) (hq : 0 ≤ q) : sqrt_floor (q ^ 2) = q := by
  have hnum : 0 ≤ q.num := Rat.num_nonneg.mpr hq
  have hden : (q.den : ℚ) ≠ 0 := by exact_mod_cast q.den_pos.ne'
  have h1 : (q.num ^ 2).toNat * q.den ^ 2 = (q.num.toNat * q.den) ^ 2 := by
    have : (q.num ^ 2).toNat = q.num.toNat ^ 2 := by
      apply Int.ofNat.inj
      simp only [Int.ofNat_eq_coe]
      rw [Int.toNat_of_nonneg (pow_nonneg hnum 2)]
      push_cast
      rw [Int.toNat_of_nonneg hnum]
    rw [this]
    ring
  unfold sqrt_floor
  rw [Rat.num_pow, Rat.den_pow, h1, Nat.sqrt_eq']
  have h2 : ((q.num.toNat : ℕ) : ℚ) = (q.num : ℚ) := by
    have := Int.toNat_of_nonneg hnum
    exact_mod_cast this
  push_cast
  rw [h2]
  conv_rhs => rw [← Rat.num_div_den q]
  field_simp
  ring

theorem unit_normal_flat (a b c : Point) (hab : a.2.2 = b.2.2) (hbc : b.2.2 = c.2.2)
    (hccw : 0 < (face_cross a b c).2.2) : unit_normal a b c = (0, 0, 1) := by
  obtain ⟨hx, hy⟩ := face_cross_flat a b c hab hbc
  have hc : norm sqrt_floor (face_cross a b c) = (face_cross a b c).2.2 := by
    simp only [norm, hx, hy]
    norm_num
    exact sqrt_floor_sq _ hccw.le
  simp only [unit_normal, hc, hx, hy, zero_div, div_self hccw.ne']

theorem compute_shadow_loop_cons (cfn : Point → Point → Point → Point)
    (fi : Point → Point → Nat → Bool) (pts : List Point) (sun : Point) (j : Nat)
    (face : Face) (faces : List Face) (a b c : Point) (shade : List Int)
    (ha : point_at pts face.1 = some a) (hb : point_at pts face.2.1 = some b)
    (hc : point_at pts face.2.2 = some c)
    (hrest : compute_shadow_loop cfn fi pts sun (j + 1) faces = some shade) :
    compute_shadow_loop cfn fi pts sun j (face :: faces) =
      if (cfn a b c).1 * sun.1 + (cfn a b c).2.1 * sun.2.1 + (cfn a b c).2.2 * sun.2.2 > 0 then
        some (size_t_to_int j :: shade)
      else if fi (centroid a b c) (-sun.1, -sun.2.1, -sun.2.2) j then
        some (size_t_to_int j :: shade)
      else some shade := by
  simp only [compute_shadow_loop, ha, hb, hc, hrest, Option.bind_eq_bind, Option.some_bind]
  split
  · rfl
  · split <;> rfl

/-- C15, as stated, fails.  On the flat mesh of the two counter-clockwise faces
of the unit square, with the sun vector `(0, 0, 1)`, `compute_shadow` returns both
faces: the scalar product of each face normal `(0, 0, 1)` with the sun vector is
`1 > 0`, the test of the code for a face in shadow. -/
theorem compute_shadow_flat_mesh_sun_up :
    unit_normal (0, 0, 0) (1, 0, 0) (1, 1, 0) = (0, 0, 1) ∧
    unit_normal (0, 0, 0) (1, 1, 0) (0, 1, 0) = (0, 0, 1) ∧
    compute_shadow unit_normal (ray_hits_mesh square_points flat_faces) square_points
      flat_faces (0, 0, 1) = some [0, 1] := by
  have h1 : unit_normal (0, 0, 0) (1, 0, 0) (1, 1, 0) = (0, 0, 1) :=
    unit_normal_flat _ _ _ rfl rfl (by norm_num [face_cross, cross])
  have h2 : unit_normal (0, 0, 0) (1, 1, 0) (0, 1, 0) = (0, 0, 1) :=
    unit_normal_flat _ _ _ rfl rfl (by norm_num [face_cross, cross])
  refine ⟨h1, h2, ?_⟩
  have e2 : compute_shadow_loop unit_normal (ray_hits_mesh square_points flat_faces)
      square_points (0, 0, 1) 2 [] = some [] := rfl
  have e1 := compute_shadow_loop_cons unit_normal (ray_hits_mesh square_points flat_faces)
    square_points (0, 0, 1) 1 (0, 2, 3) [] (0, 0, 0) (1, 1, 0) (0, 1, 0) []
    (by simp [point_at, square_points]) (by simp [point_at, square_points])
    (by simp [point_at, square_points]) e2
  rw [h2, if_pos (by norm_num)] at e1
  have e0 := compute_shadow_loop_cons unit_normal (ray_hits_mesh square_points flat_faces)
    square_points (0, 0, 1) 0 (0, 1, 2) [(0, 2, 3)] (0, 0, 0) (1, 0, 0) (1, 1, 0) _
    (by simp [point_at, square_points]) (by simp [point_at, square_points])
    (by simp [point_at, square_points]) e1
  rw [h1, if_pos (by norm_num)] at e0
  have hs : [size_t_to_int 0, size_t_to_int 1] = [(0 : Int), 1] := by
    norm_num [size_t_to_int]
  rw [hs] at e0
  exact e0

/-- C15, amended.  For a flat horizontal mesh of two triangles wound
counter-clockwise as seen from above, on which `compute_face_normal` returns
`(0, 0, 1)`: with the sun vector `(0, 0, 1)` `compute_shadow` returns both faces,
each one by the test `normal . sun > 0` alone; with the opposite vector
`(0, 0, -1)`, the direction in which the light travels, no face passes that
test, and when no ray from a centroid along `(0, 0, 1)` finds an occluder
`compute_shadow` returns the empty list. -/
theorem compute_shadow_flat_mesh (cfn : Point → Point → Point → Point)
    (fi : Point → Point → Nat → Bool) (pts : List Point) (f1 f2 : Face)
    (hcfn : ∀ a b c : Point, a.2.2 = b.2.2 → b.2.2 = c.2.2 → 0 < (face_cross a b c).2.2 →
      cfn a b c = (0, 0, 1))
    (hrange : ∀ f ∈ [f1, f2], face_in_range pts f)
    (hflat : ∀ p ∈ pts, ∀ q ∈ pts, p.2.2 = q.2.2)
    (hccw : ∀ f ∈ [f1, f2], ∀ a b c, point_at pts f.1 = some a → point_at pts f.2.1 = some b →
      point_at pts f.2.2 = some c → 0 < (face_cross a b c).2.2) :
    compute_shadow cfn fi pts [f1, f2] (0, 0, 1) = some [0, 1] ∧
    ((∀ (j : Nat) (f : Face) (a b c : Point), [f1, f2][j]? = some f →
        point_at pts f.1 = some a → point_at pts f.2.1 = some b →
        point_at pts f.2.2 = some c → fi (centroid a b c) (0, 0, 1) j = false) →
      compute_shadow cfn fi pts [f1, f2] (0, 0, -1) = some []) := by
  have hmem : ∀ (i : Int) (p : Point), point_at pts i = some p → p ∈ pts := by
    intro i p h
    unfold point_at at h
    split at h
    · exact List.getElem?_mem h
    · exact absurd h (by simp)
  obtain ⟨a1, b1, c1, ha1, hb1, hc1⟩ := points_of_range pts f1 (hrange f1 (by simp))
  obtain ⟨a2, b2, c2, ha2, hb2, hc2⟩ := points_of_range pts f2 (hrange f2 (by simp))
  have hn1 : cfn a1 b1 c1 = (0, 0, 1) :=
    hcfn _ _ _ (hflat _ (hmem _ _ ha1) _ (hmem _ _ hb1)) (hflat _ (hmem _ _ hb1) _ (hmem _ _ hc1))
      (hccw f1 (by simp) _ _ _ ha1 hb1 hc1)
  have hn2 : cfn a2 b2 c2 = (0, 0, 1) :=
    hcfn _ _ _ (hflat _ (hmem _ _ ha2) _ (hmem _ _ hb2)) (hflat _ (hmem _ _ hb2) _ (hmem _ _ hc2))
      (hccw f2 (by simp) _ _ _ ha2 hb2 hc2)
  have hs0 : size_t_to_int 0 = 0 := by norm_num [size_t_to_int]
  have hs1 : size_t_to_int 1 = 1 := by norm_num [size_t_to_int]
  constructor
  · have e2 : compute_shadow_loop cfn fi pts (0, 0, 1) 2 [] = some [] := rfl
    have e1 := compute_shadow_loop_cons cfn fi pts (0, 0, 1) 1 f2 [] a2 b2 c2 [] ha2 hb2 hc2 e2
    rw [hn2, if_pos (by norm_num)] at e1
    have e0 := compute_shadow_loop_cons cfn fi pts (0, 0, 1) 0 f1 [f2] a1 b1 c1 _ ha1 hb1 hc1 e1
    rw [hn1, if_pos (by norm_num)] at e0
    rw [compute_shadow, e0, hs0, hs1]
  · intro hfi
    have g2 : fi (centroid a2 b2 c2) (0, 0, 1) 1 = false :=
      hfi 1 f2 a2 b2 c2 (by simp) ha2 hb2 hc2
    have g1 : fi (centroid a1 b1 c1) (0, 0, 1) 0 = false :=
      hfi 0 f1 a1 b1 c1 (by simp) ha1 hb1 hc1
    have e2 : compute_shadow_loop cfn fi pts (0, 0, -1) 2 [] = some [] := rfl
    have e1 := compute_shadow_loop_cons cfn fi pts (0, 0, -1) 1 f2 [] a2 b2 c2 [] ha2 hb2 hc2 e2
    rw [hn2, if_neg (by norm_num)] at e1
    simp only [neg_zero, neg_neg, g2] at e1
    have e0 := compute_shadow_loop_cons cfn fi pts (0, 0, -1) 0 f1 [f2] a1 b1 c1 _ ha1 hb1 hc1 e1
    rw [hn1, if_neg (by norm_num)] at e0
    simp only [neg_zero, neg_neg, g1] at e0
    rw [compute_shadow, e0]
    rfl

theorem flat_faces_in_range : ∀ f ∈ flat_faces, face_in_range square_points f := by
  intro f hf
  simp only [flat_faces, List.mem_cons, List.mem_singleton, List.not_mem_nil, or_false] at hf
  rcases hf with rfl | rfl <;> simp [face_in_range, square_points]

theorem square_points_flat : ∀ p ∈ square_points, ∀ q ∈ square_points, p.2.2 = q.2.2 := by
  have h : ∀ p ∈ square_points, p.2.2 = 0 := by
    intro p hp
    simp only [square_points, List.mem_cons, List.mem_singleton, List.not_mem_nil,
      or_false] at hp
    rcases hp with rfl | rfl | rfl | rfl <;> rfl
  intro p hp q hq
  rw [h p hp, h q hq]

theorem flat_faces_counterclockwise : ∀ f ∈ flat_faces, ∀ a b c,
    point_at square_points f.1 = some a → point_at square_points f.2.1 = some b →
    point_at square_points f.2.2 = some c → 0 < (face_cross a b c).2.2 := by
  intro f hf a b c ha hb hc
  simp only [flat_faces, List.mem_cons, List.mem_singleton, List.not_mem_nil, or_false] at hf
  rcases hf with rfl | rfl
  · simp [point_at, square_points] at ha hb hc
    subst ha hb hc
    norm_num [face_cross, cross]
  · simp [point_at, square_points] at ha hb hc
    subst ha hb hc
    norm_num [face_cross, cross]

theorem point_at_square_points :
    point_at square_points 0 = some (0, 0, 0) ∧ point_at square_points 1 = some (1, 0, 0) ∧
    point_at square_points 2 = some (1, 1, 0) ∧ point_at square_points 3 = some (0, 1, 0) := by
  refine ⟨?_, ?_, ?_, ?_⟩ <;> simp [point_at, square_points]

theorem ray_hits_mesh_flat_faces (o d : Point) (skip : Nat) :
    ray_hits_mesh square_points flat_faces o d skip =
      ((decide (0 ≠ skip) && ray_hits_triangle o d (0, 0, 0) (1, 0, 0) (1, 1, 0)) ||
        (decide (1 ≠ skip) && ray_hits_triangle o d (0, 0, 0) (1, 1, 0) (0, 1, 0))) := by
  obtain ⟨h0, h1, h2, h3⟩ := point_at_square_points
  simp only [ray_hits_mesh, flat_faces, List.enum, List.enumFrom, List.any_cons, List.any_nil,
    h0, h1, h2, h3, Bool.or_false]

theorem flat_faces_no_occluder : ∀ (j : Nat) (f : Face) (a b c : Point),
    flat_faces[j]? = some f → point_at square_points f.1 = some a →
    point_at square_points f.2.1 = some b → point_at square_points f.2.2 = some c →
    ray_hits_mesh square_points flat_faces (centroid a b c) (0, 0, 1) j = false := by
  obtain ⟨h0, h1, h2, h3⟩ := point_at_square_points
  intro j f a b c hj ha hb hc
  rw [ray_hits_mesh_flat_faces]
  match j with
  | 0 =>
    simp only [flat_faces, List.getElem?_cons_zero, Option.some.injEq] at hj
    subst hj
    rw [h0] at ha
    rw [h1] at hb
    rw [h2] at hc
    rw [Option.some.injEq] at ha hb hc
    subst ha hb hc
    norm_num [ray_hits_triangle, centroid, cross, dot]
  | 1 =>
    simp only [flat_faces, List.getElem?_cons_succ, List.getElem?_cons_zero,
      Option.some.injEq] at hj
    subst hj
    rw [h0] at ha
    rw [h2] at hb
    rw [h3] at hc
    rw [Option.some.injEq] at ha hb hc
    subst ha hb hc
    norm_num [ray_hits_triangle, centroid, cross, dot]
  | (k + 2) => simp [flat_faces] at hj

/-- Witness for C15, amended: the two counter-clockwise faces of the unit
square, with `unit_normal` for `compute_face_normal` and `ray_hits_mesh` for the
intersection query. -/
theorem compute_shadow_flat_mesh_witness :
    ((∀ a b c : Point, a.2.2 = b.2.2 → b.2.2 = c.2.2 → 0 < (face_cross a b c).2.2 →
        unit_normal a b c = (0, 0, 1)) ∧
      (∀ f ∈ flat_faces, face_in_range square_points f) ∧
      (∀ p ∈ square_points, ∀ q ∈ square_points, p.2.2 = q.2.2) ∧
      (∀ f ∈ flat_faces, ∀ a b c, point_at square_points f.1 = some a →
        point_at square_points f.2.1 = some b → point_at square_points f.2.2 = some c →
        0 < (face_cross a b c).2.2)) ∧
    compute_shadow unit_normal (ray_hits_mesh square_points flat_faces) square_points
      flat_faces (0, 0, -1) = some [] :=
  ⟨⟨unit_normal_flat, flat_faces_in_range, square_points_flat, flat_faces_counterclockwise⟩,
    (compute_shadow_flat_mesh unit_normal (ray_hits_mesh square_points flat_faces)
      square_points (0, 1, 2) (0, 2, 3) unit_normal_flat flat_faces_in_range square_points_flat
      flat_faces_counterclockwise).2 flat_faces_no_occluder⟩

/-! ## make_tin: the re-indexing pass -/

/-- The counter step `n++` inside the range of `int`. -/
theorem int_add_one_of_range (n : Int) (h0 : 0 ≤ n) (h1 : n + 1 ≤ 2147483647) :
    int_add n 1 = some (n + 1) := by
  have h : INT_MIN ≤ n + 1 ∧ n + 1 ≤ INT_MAX := by
    constructor
    · show (-2147483648 : Int) ≤ n + 1
      omega
    · exact h1
  rw [int_add, if_pos h]

/-- The counter step `n++` at the largest `int`. -/
theorem int_add_one_overflow (n : Int) (h1 : 2147483647 < n + 1) : int_add n 1 = none := by
  have h : ¬ (INT_MIN ≤ n + 1 ∧ n + 1 ≤ INT_MAX) := by
    rintro ⟨-, h2⟩
    have h3 : n + 1 ≤ 2147483647 := h2
    omega
  rw [int_add, if_neg h]

/-- One iteration of the vertex loop inside the range of `int`. -/
theorem reindex_vertex_of_range (point : VertexIndex → Point)
    (reindex : List (VertexIndex × Int)) (o_points : List Point) (n : Int) (v : VertexIndex)
    (h0 : 0 ≤ n) (h1 : n + 1 ≤ 2147483647) :
    reindex_vertex point (reindex, o_points, n) v
      = some (map_emplace reindex v n, o_points ++ [point v], n + 1) := by
  have e := int_add_one_of_range n h0 h1
  unfold reindex_vertex
  show (int_add n 1).bind _ = _
  rw [e]
  rfl

/-- One iteration of the vertex loop when the counter is the largest `int`. -/
theorem reindex_vertex_overflow (point : VertexIndex → Point)
    (reindex : List (VertexIndex × Int)) (o_points : List Point) (n : Int) (v : VertexIndex)
    (h1 : 2147483647 < n + 1) :
    reindex_vertex point (reindex, o_points, n) v = none := by
  have e := int_add_one_overflow n h1
  unfold reindex_vertex
  show (int_add n 1).bind _ = _
  rw [e]
  rfl

/-- The vertex loop has no defined result when the counter passes the largest
`int` before the vertices are exhausted. -/
theorem reindex_fold_overflow (point : VertexIndex → Point) :
    ∀ (rest : List VertexIndex) (reindex : List (VertexIndex × Int)) (o_points : List Point)
      (n : Int), 0 ≤ n → n ≤ 2147483647 → 2147483647 < n + rest.length →
      rest.foldlM (reindex_vertex point) (reindex, o_points, n) = none := by
  intro rest
  induction rest with
  | nil =>
    intro reindex o_points n _ h1 h2
    simp only [List.length_nil, Nat.cast_zero, add_zero] at h2
    omega
  | cons v rest ih =>
    intro reindex o_points n h0 h1 h2
    rw [List.foldlM_cons]
    by_cases hn : n + 1 ≤ 2147483647
    · rw [reindex_vertex_of_range point reindex o_points n v h0 hn]
      show rest.foldlM (reindex_vertex point) _ = none
      apply ih _ _ _ (by omega) hn
      simp only [List.length_cons, Nat.cast_add, Nat.cast_one] at h2
      omega
    · rw [reindex_vertex_overflow point reindex o_points n v (by omega)]
      rfl

/-- The map after `emplace`, read at any key. -/
theorem lookup_map_emplace (done : List VertexIndex) (reindex : List (VertexIndex × Int))
    (v : VertexIndex)
    (hinv : ∀ w, reindex.lookup w = if w ∈ done then some (done.indexOf w : Int) else none) :
    ∀ w, (map_emplace reindex v (done.length : Int)).lookup w
      = if w ∈ done ++ [v] then some ((done ++ [v]).indexOf w : Int) else none := by
  intro w
  by_cases hv : v ∈ done
  · have e : map_emplace reindex v (done.length : Int) = reindex := by
      rw [map_emplace, hinv v, if_pos hv]
      rfl
    rw [e, hinv w]
    by_cases hw : w ∈ done
    · rw [if_pos hw, if_pos (List.mem_append_left _ hw), List.indexOf_append_of_mem hw]
    · have hw2 : w ∉ done ++ [v] := by
        intro h
        rcases List.mem_append.mp h with h | h
        · exact hw h
        · rw [List.mem_singleton] at h
          exact hw (h ▸ hv)
      rw [if_neg hw, if_neg hw2]
  · have e : map_emplace reindex v (done.length : Int) = reindex ++ [(v, (done.length : Int))] := by
      rw [map_emplace, hinv v, if_neg hv]
      rfl
    rw [e, List.lookup_append, hinv w]
    by_cases hw : w ∈ done
    · rw [if_pos hw, if_pos (List.mem_append_left _ hw), List.indexOf_append_of_mem hw]
      rfl
    · rw [if_neg hw]
      by_cases hwv : w = v
      · subst hwv
        have hm : w ∈ done ++ [w] := List.mem_append_right _ (List.mem_singleton_self w)
        rw [if_pos hm, List.indexOf_append_of_not_mem hw, List.indexOf_cons_self]
        simp [List.lookup]
      · have hw2 : w ∉ done ++ [v] := by
          intro h
          rcases List.mem_append.mp h with h | h
          · exact hw h
          · rw [List.mem_singleton] at h
            exact hwv h
        rw [if_neg hw2]
        have hb : (w == v) = false := by simpa using hwv
        simp [List.lookup, hb]

/-- The vertex loop on at most `INT_MAX` vertices: the points are the positions of
the vertices in enumeration order, and the map sends each vertex to the position of
its first occurrence. -/
theorem reindex_fold (point : VertexIndex → Point) :
    ∀ (rest done : List VertexIndex) (reindex : List (VertexIndex × Int)),
      done.length + rest.length ≤ 2147483647 →
      (∀ w, reindex.lookup w = if w ∈ done then some (done.indexOf w : Int) else none) →
      ∃ reindex2, rest.foldlM (reindex_vertex point) (reindex, done.map point, (done.length : Int))
          = some (reindex2, (done ++ rest).map point, ((done ++ rest).length : Int)) ∧
        ∀ w, reindex2.lookup w
          = if w ∈ done ++ rest then some ((done ++ rest).indexOf w : Int) else none := by
  intro rest
  induction rest with
  | nil =>
    intro done reindex _ hinv
    refine ⟨reindex, ?_, ?_⟩
    · rw [List.append_nil]
      rfl
    · rw [List.append_nil]
      exact hinv
  | cons v rest ih =>
    intro done reindex hlen hinv
    rw [List.length_cons] at hlen
    have h0 : (0 : Int) ≤ (done.length : Int) := Int.natCast_nonneg _
    have h1 : (done.length : Int) + 1 ≤ 2147483647 := by omega
    have hl : ((done ++ [v]).length : Int) = (done.length : Int) + 1 := by
      rw [List.length_append, List.length_singleton, Nat.cast_add, Nat.cast_one]
    have hlen2 : (done ++ [v]).length + rest.length ≤ 2147483647 := by
      rw [List.length_append, List.length_singleton]
      omega
    obtain ⟨reindex2, hfold, hlook⟩ :=
      ih (done ++ [v]) (map_emplace reindex v (done.length : Int)) hlen2
        (lookup_map_emplace done reindex v hinv)
    refine ⟨reindex2, ?_, ?_⟩
    · rw [List.foldlM_cons, reindex_vertex_of_range point reindex _ _ v h0 h1]
      show rest.foldlM (reindex_vertex point) _ = _
      rw [List.map_append, hl] at hfold
      rw [List.append_assoc] at hfold
      exact hfold
    · intro w
      have := hlook w
      rw [List.append_assoc] at this
      exact this

/-- The result of the re-indexing pass from the result of its vertex loop. -/
theorem reindex_pass_of_fold (mesh : SurfaceMesh) (reindex : List (VertexIndex × Int))
    (o_points : List Point) (n : Int)
    (h : mesh.vertices.foldlM (reindex_vertex mesh.point) ([], [], 0)
      = some (reindex, o_points, n)) :
    reindex_pass mesh = some (o_points, mesh.faces.map fun f =>
      (map_at reindex f.1, map_at reindex f.2.1, map_at reindex f.2.2)) := by
  unfold reindex_pass
  rw [h]
  rfl

/-- The output index of a vertex of the mesh: a position of the output points,
where the position of that vertex stands. -/
theorem map_at_of_mem (vertices : List VertexIndex) (point : VertexIndex → Point)
    (reindex : List (VertexIndex × Int)) (v : VertexIndex) (hv : v ∈ vertices)
    (hlook : ∀ w, reindex.lookup w
      = if w ∈ vertices then some (vertices.indexOf w : Int) else none) :
    0 ≤ map_at reindex v ∧ map_at reindex v < ((vertices.map point).length : Int) ∧
    point_at (vertices.map point) (map_at reindex v) = some (point v) ∧
    (vertices.Nodup → ∀ i : Nat, vertices[i]? = some v → map_at reindex v = (i : Int)) := by
  have e : map_at reindex v = (vertices.indexOf v : Int) := by
    rw [map_at, hlook v, if_pos hv]
    rfl
  rw [e]
  refine ⟨Int.natCast_nonneg _, ?_, ?_, ?_⟩
  · rw [List.length_map]
    exact_mod_cast List.indexOf_lt_length.mpr hv
  · rw [point_at, if_pos (Int.natCast_nonneg _), Int.toNat_natCast, List.getElem?_map,
      List.getElem?_indexOf hv]
    rfl
  · intro hnd i hi
    obtain ⟨hlt, hget⟩ := List.getElem?_eq_some.mp hi
    have := List.indexOf_getElem hnd i hlt
    rw [hget] at this
    rw [this]

/-- C16. In both variants of `make_tin`, for a simplified mesh with at most
`2^31 - 1` vertices whose faces refer to vertices of the mesh, the re-indexing pass
returns as output point `k` the position of the `k`-th vertex in enumeration order
and one output face per face of the mesh, in order; each index of an output face is
at least `0` and below the number of output points, the output point at that index
is the position of the vertex the face referred to, and when the enumeration has no
repetition the index is the rank of that vertex in the enumeration. -/
theorem make_tin_dense_indices (mesh : SurfaceMesh)
    (hsize : mesh.vertices.length ≤ 2147483647)
    (hfaces : ∀ f ∈ mesh.faces,
      f.1 ∈ mesh.vertices ∧ f.2.1 ∈ mesh.vertices ∧ f.2.2 ∈ mesh.vertices) :
    ∃ (o_points : List Point) (faces : List Face),
      make_tin mesh = some (o_points, faces) ∧
      make_tin_constrained mesh = some (o_points, faces) ∧
      o_points.length = mesh.vertices.length ∧
      (∀ (k : Nat) v, mesh.vertices[k]? = some v → o_points[k]? = some (mesh.point v)) ∧
      faces.length = mesh.faces.length ∧
      ∀ (k : Nat) f, mesh.faces[k]? = some f → ∃ g, faces[k]? = some g ∧
        ∀ vg ∈ [(f.1, g.1), (f.2.1, g.2.1), (f.2.2, g.2.2)],
          0 ≤ vg.2 ∧ vg.2 < (o_points.length : Int) ∧
          point_at o_points vg.2 = some (mesh.point vg.1) ∧
          (mesh.vertices.Nodup → ∀ i : Nat, mesh.vertices[i]? = some vg.1 → vg.2 = (i : Int)) := by
  obtain ⟨reindex, hfold, hlook⟩ :=
    reindex_fold mesh.point mesh.vertices [] [] (by simpa using hsize) (fun w => by simp)
  simp only [List.nil_append, List.map_nil, List.length_nil, Nat.cast_zero] at hfold hlook
  have hpass := reindex_pass_of_fold mesh reindex _ _ hfold
  refine ⟨_, _, hpass, hpass, List.length_map _ _, ?_, List.length_map _ _, ?_⟩
  · intro k v hk
    rw [List.getElem?_map, hk]
    rfl
  · intro k f hk
    refine ⟨(map_at reindex f.1, map_at reindex f.2.1, map_at reindex f.2.2), ?_, ?_⟩
    · rw [List.getElem?_map, hk]
      rfl
    · obtain ⟨h1, h2, h3⟩ := hfaces f (List.getElem?_mem hk)
      intro vg hvg
      simp only [List.mem_cons, List.mem_singleton, List.not_mem_nil, or_false] at hvg
      rcases hvg with rfl | rfl | rfl
      · exact map_at_of_mem mesh.vertices mesh.point reindex f.1 h1 hlook
      · exact map_at_of_mem mesh.vertices mesh.point reindex f.2.1 h2 hlook
      · exact map_at_of_mem mesh.vertices mesh.point reindex f.2.2 h3 hlook

/-- Witness for C16: the mesh of four vertices and two faces. -/
theorem make_tin_dense_indices_witness :
    (small_mesh.vertices.length ≤ 2147483647 ∧
      ∀ f ∈ small_mesh.faces,
        f.1 ∈ small_mesh.vertices ∧ f.2.1 ∈ small_mesh.vertices ∧ f.2.2 ∈ small_mesh.vertices) ∧
    ∃ (o_points : List Point) (faces : List Face),
      make_tin small_mesh = some (o_points, faces) ∧
      make_tin_constrained small_mesh = some (o_points, faces) ∧
      o_points.length = small_mesh.vertices.length ∧
      (∀ (k : Nat) v, small_mesh.vertices[k]? = some v → o_points[k]? = some (small_mesh.point v)) ∧
      faces.length = small_mesh.faces.length ∧
      ∀ (k : Nat) f, small_mesh.faces[k]? = some f → ∃ g, faces[k]? = some g ∧
        ∀ vg ∈ [(f.1, g.1), (f.2.1, g.2.1), (f.2.2, g.2.2)],
          0 ≤ vg.2 ∧ vg.2 < (o_points.length : Int) ∧
          point_at o_points vg.2 = some (small_mesh.point vg.1) ∧
          (small_mesh.vertices.Nodup →
            ∀ i : Nat, small_mesh.vertices[i]? = some vg.1 → vg.2 = (i : Int)) := by
  have hsize : small_mesh.vertices.length ≤ 2147483647 := by
    simp [small_mesh]
  have hfaces : ∀ f ∈ small_mesh.faces,
      f.1 ∈ small_mesh.vertices ∧ f.2.1 ∈ small_mesh.vertices ∧ f.2.2 ∈ small_mesh.vertices := by
    simp [small_mesh]
  exact ⟨⟨hsize, hfaces⟩, make_tin_dense_indices small_mesh hsize hfaces⟩

/-- Counterexample for C16: on a simplified mesh with `2^31` distinct vertices the
counter `int n` of the vertex loop is incremented past the largest `int`, and
neither variant of `make_tin` has a defined result. -/
theorem make_tin_int_counter_overflow :
    big_mesh.vertices.Nodup ∧ big_mesh.vertices.length = 2147483648 ∧
    (∀ f ∈ big_mesh.faces,
      f.1 ∈ big_mesh.vertices ∧ f.2.1 ∈ big_mesh.vertices ∧ f.2.2 ∈ big_mesh.vertices) ∧
    make_tin big_mesh = none ∧ make_tin_constrained big_mesh = none := by
  have hv : big_mesh.vertices = big_vertices := by
    simp only [big_mesh]
  have hl : big_vertices.length = 2147483648 := by
    rw [big_vertices, List.length_range]
  have hfold : big_mesh.vertices.foldlM (reindex_vertex big_mesh.point) ([], [], 0) = none := by
    apply reindex_fold_overflow big_mesh.point big_mesh.vertices [] [] 0 (le_refl 0)
    · norm_num
    · rw [hv, hl]
      norm_num
  have hpass : reindex_pass big_mesh = none := by
    unfold reindex_pass
    rw [hfold]
    rfl
  refine ⟨?_, ?_, ?_, hpass, hpass⟩
  · rw [hv, big_vertices]
    exact List.nodup_range _
  · rw [hv, hl]
  · intro f hf
    have hf2 : f = (0, 1, 2) := by
      have : f ∈ [((0 : VertexIndex), (1 : VertexIndex), (2 : VertexIndex))] := hf
      exact List.mem_singleton.mp this
    rw [hf2, hv, big_vertices]
    exact ⟨List.mem_range.mpr (by norm_num), List.mem_range.mpr (by norm_num),
      List.mem_range.mpr (by norm_num)⟩

/-! ## RasterData: a degenerate raster -/

/-- C17, as stated, fails.  The constructor accepts a raster of a single point
and a raster with negative spacing, and the operations return values on them:
`raster_points` returns the points, `get_indices` a pair, `contains` a truth
value. -/
theorem degenerate_raster_accepted :
    (RasterData.RasterData 0 0 3 4 1 1 [7]).num_points_x < 2 ∧
    (RasterData.RasterData 0 0 3 4 1 1 [7]).raster_points = [(0, 0, some 7)] ∧
    (RasterData.RasterData 0 0 3 4 1 1 [7]).get_indices 6 (-8) = some (0, 0) ∧
    (RasterData.RasterData 0 0 3 4 1 1 [7]).contains sqrt_floor 0 0 = false ∧
    (RasterData.RasterData 0 0 (-1) (-1) 2 2 [1, 2, 3, 4]).delta_x ≤ 0 ∧
    (RasterData.RasterData 0 0 (-1) (-1) 2 2 [1, 2, 3, 4]).raster_points =
      [(0, 0, some 1), (-1, 0, some 2), (0, 1, some 3), (-1, 1, some 4)] := by
  refine ⟨?_, ?_, ?_, ?_, ?_, ?_⟩
  · simp [RasterData.RasterData]
  · norm_num [RasterData.RasterData, RasterData.raster_points, List.range_succ]
  · norm_num [RasterData.RasterData, RasterData.get_indices, fdiv, static_cast_int, trunc,
      INT_MIN, INT_MAX, size_t_sub, size_t_to_int]
  · have he : RasterData.contains_eps sqrt_floor (RasterData.RasterData 0 0 3 4 1 1 [7])
        = true := by
      have h : (RasterData.RasterData 0 0 3 4 1 1 [7]).delta_x ^ 2 +
          (RasterData.RasterData 0 0 3 4 1 1 [7]).delta_y ^ 2 = 25 := by
        norm_num [RasterData.RasterData]
      simp [RasterData.contains_eps, h, sqrt_floor_25]
    simp only [RasterData.contains, he]
    norm_num [RasterData.RasterData]
  · simp [RasterData.RasterData]
  · norm_num [RasterData.RasterData, RasterData.raster_points, List.range_succ]

/-- C17, amended.  The constructor stores its seven arguments without a check,
whatever the spacing and the numbers of points.  On the raster it returns
`raster_points` returns `num_points_x * num_points_y` points, and `contains` is
false at every point when the raster has a single column or a single row or a
spacing that is not positive. -/
theorem raster_not_validated (sqrt : ℚ → ℚ) (x_min y_max delta_x delta_y : ℚ)
    (num_points_x num_points_y : Nat) (data : List ℚ) :
    (RasterData.RasterData x_min y_max delta_x delta_y num_points_x num_points_y data).x_min
      = x_min ∧
    (RasterData.RasterData x_min y_max delta_x delta_y num_points_x num_points_y data).y_max
      = y_max ∧
    (RasterData.RasterData x_min y_max delta_x delta_y num_points_x num_points_y data).delta_x
      = delta_x ∧
    (RasterData.RasterData x_min y_max delta_x delta_y num_points_x num_points_y data).delta_y
      = delta_y ∧
    (RasterData.RasterData x_min y_max delta_x delta_y num_points_x num_points_y
      data).num_points_x = num_points_x ∧
    (RasterData.RasterData x_min y_max delta_x delta_y num_points_x num_points_y
      data).num_points_y = num_points_y ∧
    (RasterData.RasterData x_min y_max delta_x delta_y num_points_x num_points_y data).data
      = data ∧
    (RasterData.RasterData x_min y_max delta_x delta_y num_points_x num_points_y
      data).raster_points.length = num_points_x * num_points_y ∧
    (num_points_x = 1 ∨ num_points_y = 1 ∨ delta_x ≤ 0 ∨ delta_y ≤ 0 →
      ∀ x y, (RasterData.RasterData x_min y_max delta_x delta_y num_points_x num_points_y
        data).contains sqrt x y = false) := by
  refine ⟨rfl, rfl, rfl, rfl, rfl, rfl, rfl, ?_, ?_⟩
  · unfold RasterData.raster_points
    rw [length_flatMap_range _ num_points_x (fun i => by simp [RasterData.RasterData])]
    exact Nat.mul_comm _ _
  · intro hdeg x y
    generalize hr : RasterData.RasterData x_min y_max delta_x delta_y num_points_x num_points_y
      data = r
    have hx_min : r.x_min = x_min := by rw [← hr]; rfl
    have hy_max : r.y_max = y_max := by rw [← hr]; rfl
    have hdx : r.delta_x = delta_x := by rw [← hr]; rfl
    have hdy : r.delta_y = delta_y := by rw [← hr]; rfl
    have hnx : r.num_points_x = num_points_x := by rw [← hr]; rfl
    have hny : r.num_points_y = num_points_y := by rw [← hr]; rfl
    by_contra hne
    have htrue : r.contains sqrt x y = true := by
      cases h : r.contains sqrt x y
      · exact absurd h hne
      · rfl
    unfold RasterData.contains at htrue
    simp only [Bool.and_eq_true, decide_eq_true_eq] at htrue
    obtain ⟨⟨⟨h1, h2⟩, h3⟩, h4⟩ := htrue
    have he : (0 : ℚ) ≤ (if RasterData.contains_eps sqrt r = true then 1 else 0) := by
      split <;> norm_num
    have hcx : (0 : ℚ) ≤ ((size_t_sub r.num_points_x 1 : Nat) : ℚ) := Nat.cast_nonneg _
    have hcy : (0 : ℚ) ≤ ((size_t_sub r.num_points_y 1 : Nat) : ℚ) := Nat.cast_nonneg _
    unfold RasterData.get_x_max at h2
    unfold RasterData.get_y_min at h3
    rcases hdeg with h | h | h | h
    · have : size_t_sub r.num_points_x 1 = 0 := by rw [hnx, h]; rfl
      rw [this] at h2
      simp only [Nat.cast_zero, zero_mul, add_zero] at h2
      linarith
    · have : size_t_sub r.num_points_y 1 = 0 := by rw [hny, h]; rfl
      rw [this] at h3
      simp only [Nat.cast_zero, zero_mul, sub_zero] at h3
      linarith
    · have : ((size_t_sub r.num_points_x 1 : Nat) : ℚ) * r.delta_x ≤ 0 :=
        mul_nonpos_of_nonneg_of_nonpos hcx (by rw [hdx]; exact h)
      linarith
    · have : ((size_t_sub r.num_points_y 1 : Nat) : ℚ) * r.delta_y ≤ 0 :=
        mul_nonpos_of_nonneg_of_nonpos hcy (by rw [hdy]; exact h)
      linarith

/-- Witness for C17, amended: a raster of a single point. -/
theorem raster_not_validated_witness :
    ((1 : Nat) = 1 ∨ (1 : Nat) = 1 ∨ (3 : ℚ) ≤ 0 ∨ (4 : ℚ) ≤ 0) ∧
    ∀ x y, (RasterData.RasterData 0 0 3 4 1 1 [7]).contains sqrt_floor x y = false :=
  ⟨Or.inl rfl, (raster_not_validated sqrt_floor 0 0 3 4 1 1 [7]).2.2.2.2.2.2.2.2 (Or.inl rfl)⟩

/-! ## point_normals -/

/-- C19. For an upward normal, a non-zero vector `n` with `n_z >= 0`,
`compute_slope(n) = atan2(sqrt(n_x^2 + n_y^2), n_z)` lies in `[0, pi / 2]`; it is `0`
exactly when `n_x = n_y = 0` and `pi / 2` exactly when `n_z = 0`.  The numbers are
the reals, `sqrt` the real square root and `atan2` the function `real_atan2`. -/
theorem compute_slope_range (n : ℝ × ℝ × ℝ) (hne : n ≠ (0, 0, 0)) (hz : 0 ≤ n.2.2) :
    0 ≤ compute_slope Real.sqrt real_atan2 n ∧
    compute_slope Real.sqrt real_atan2 n ≤ Real.pi / 2 ∧
    (compute_slope Real.sqrt real_atan2 n = 0 ↔ n.1 = 0 ∧ n.2.1 = 0) ∧
    (compute_slope Real.sqrt real_atan2 n = Real.pi / 2 ↔ n.2.2 = 0) := by
  have hs : 0 ≤ n.1 ^ 2 + n.2.1 ^ 2 := by positivity
  unfold compute_slope real_atan2
  refine ⟨?_, ?_, ?_, ?_⟩
  · rw [Complex.arg_nonneg_iff]
    exact Real.sqrt_nonneg _
  · rw [Complex.arg_le_pi_div_two_iff]
    exact Or.inl hz
  · rw [Complex.arg_eq_zero_iff]
    constructor
    · rintro ⟨-, him⟩
      have h0 : n.1 ^ 2 + n.2.1 ^ 2 = 0 := le_antisymm (Real.sqrt_eq_zero'.mp him) hs
      have h1 : n.1 ^ 2 = 0 := by nlinarith [sq_nonneg n.1, sq_nonneg n.2.1]
      have h2 : n.2.1 ^ 2 = 0 := by nlinarith [sq_nonneg n.1, sq_nonneg n.2.1]
      exact ⟨pow_eq_zero_iff (two_ne_zero) |>.mp h1, pow_eq_zero_iff (two_ne_zero) |>.mp h2⟩
    · rintro ⟨h1, h2⟩
      refine ⟨hz, ?_⟩
      show Real.sqrt (n.1 ^ 2 + n.2.1 ^ 2) = 0
      rw [h1, h2]
      simp
  · rw [Complex.arg_eq_pi_div_two_iff]
    constructor
    · rintro ⟨hre, -⟩
      exact hre
    · intro h3
      refine ⟨h3, ?_⟩
      show 0 < Real.sqrt (n.1 ^ 2 + n.2.1 ^ 2)
      rw [Real.sqrt_pos]
      by_contra hle
      have h0 : n.1 ^ 2 + n.2.1 ^ 2 = 0 := le_antisymm (not_lt.mp hle) hs
      have h1 : n.1 ^ 2 = 0 := by nlinarith [sq_nonneg n.1, sq_nonneg n.2.1]
      have h2 : n.2.1 ^ 2 = 0 := by nlinarith [sq_nonneg n.1, sq_nonneg n.2.1]
      exact hne (Prod.ext (pow_eq_zero_iff (two_ne_zero) |>.mp h1)
        (Prod.ext (pow_eq_zero_iff (two_ne_zero) |>.mp h2) h3))

/-- Witness for C19: the vertical normal `(0, 0, 1)` has slope `0`. -/
theorem compute_slope_range_witness :
    (((0 : ℝ), (0 : ℝ), (1 : ℝ)) ≠ (0, 0, 0) ∧ (0 : ℝ) ≤ 1) ∧
    compute_slope Real.sqrt real_atan2 ((0 : ℝ), (0 : ℝ), (1 : ℝ)) = 0 := by
  have hne : ((0 : ℝ), (0 : ℝ), (1 : ℝ)) ≠ (0, 0, 0) := by simp
  have hz : (0 : ℝ) ≤ 1 := zero_le_one
  exact ⟨⟨hne, hz⟩, (compute_slope_range (0, 0, 1) hne hz).2.2.1.mpr ⟨rfl, rfl⟩⟩

/-! ## interpolate_boundary_points: an edge of length zero -/

theorem contains_raster3x3_centre : raster3x3.contains sqrt_floor ((3 + 3) / 2) ((4 + 4) / 2) = true := by
  simp only [RasterData.contains, contains_eps_raster3x3, get_x_max_raster3x3,
    get_y_min_raster3x3]
  norm_num [raster3x3]

/-- C20, as stated, fails.  The edge from `(3, 4)` to `(3, 4)` of `raster3x3` has
length zero and is retained, its midpoint being contained in the raster; the
code takes `num_subedges = max(1, 0) = 1` and samples `k = 0` and `k = 1`: the
sequence has two points. -/
theorem zero_length_edge_two_points :
    raster3x3.contains sqrt_floor (((3 : ℚ) + 3) / 2) (((4 : ℚ) + 4) / 2) = true ∧
    num_subedges raster3x3 (3 - 3) (4 - 4) = some 1 ∧
    boundary_edge sqrt_floor raster3x3 [] ((3, 4), (3, 4)) =
      some [[(3, 4, raster3x3.get_interpolated_value_at_point 3 4),
        (3, 4, raster3x3.get_interpolated_value_at_point 3 4)]] := by
  have hn : num_subedges raster3x3 (3 - 3) (4 - 4) = some 1 := by
    norm_num [num_subedges, raster3x3, fdiv, static_cast_int, trunc, INT_MIN, INT_MAX,
      int_to_size_t, size_t_to_int]
  refine ⟨contains_raster3x3_centre, hn, ?_⟩
  simp only [boundary_edge, contains_raster3x3_centre, hn]
  norm_num [edge_samples, List.range_succ]

/-- C20, amended.  For a retained edge of length zero, whose two end points are
the point `a`, the loop iteration appends one sequence of two points, both equal
to `a` with the value of `get_interpolated_value_at_point` there as third
coordinate. -/
theorem zero_length_edge_samples (sqrt : ℚ → ℚ) (r : RasterData) (a : Point2)
    (hret : r.contains sqrt ((a.1 + a.1) / 2) ((a.2 + a.2) / 2) = true) :
    (∀ acc, boundary_edge sqrt r acc (a, a) =
      some (acc ++ [[(a.1, a.2, r.get_interpolated_value_at_point a.1 a.2),
        (a.1, a.2, r.get_interpolated_value_at_point a.1 a.2)]])) ∧
    interpolate_boundary_points sqrt r [[(a, a)]] =
      some [[(a.1, a.2, r.get_interpolated_value_at_point a.1 a.2),
        (a.1, a.2, r.get_interpolated_value_at_point a.1 a.2)]] := by
  obtain ⟨hdx, hdy⟩ := contains_delta_ne_zero sqrt r _ _ hret
  have hnum : num_subedges r (a.1 - a.1) (a.2 - a.2) = some 1 := by
    have h := num_subedges_of_range r (a.1 - a.1) (a.2 - a.2) hdx hdy (by norm_num)
    rw [h]
    norm_num
  have hedge : ∀ acc, boundary_edge sqrt r acc (a, a) =
      some (acc ++ [[(a.1, a.2, r.get_interpolated_value_at_point a.1 a.2),
        (a.1, a.2, r.get_interpolated_value_at_point a.1 a.2)]]) := by
    intro acc
    simp only [boundary_edge, hret, hnum]
    norm_num [edge_samples, List.range_succ]
  refine ⟨hedge, ?_⟩
  simp only [interpolate_boundary_points, List.foldlM_cons, List.foldlM_nil, hedge]
  rfl

/-- Witness for C20, amended: the edge from `(3, 4)` to `(3, 4)` of `raster3x3`. -/
theorem zero_length_edge_samples_witness :
    raster3x3.contains sqrt_floor (((3 : ℚ) + 3) / 2) (((4 : ℚ) + 4) / 2) = true ∧
    interpolate_boundary_points sqrt_floor raster3x3 [[((3, 4), (3, 4))]] =
      some [[(3, 4, raster3x3.get_interpolated_value_at_point 3 4),
        (3, 4, raster3x3.get_interpolated_value_at_point 3 4)]] :=
  ⟨contains_raster3x3_centre,
    (zero_length_edge_samples sqrt_floor raster3x3 (3, 4) contains_raster3x3_centre).2⟩

/-! ## compute_shadows -/

theorem compute_shadows_loop_cons (cfn : Point → Point → Point → Point)
    (fi : Point → Point → Nat → Bool) (pts : List Point) (sun : Point) (j : Nat)
    (face : Face) (faces : List Face) (a b c : Point) (shade : List Int)
    (ha : point_at pts face.1 = some a) (hb : point_at pts face.2.1 = some b)
    (hc : point_at pts face.2.2 = some c)
    (hrest : compute_shadows_loop cfn fi pts sun (j + 1) faces = some shade) :
    compute_shadows_loop cfn fi pts sun j (face :: faces) =
      if (cfn a b c).1 * sun.1 + (cfn a b c).2.1 * sun.2.1 + (cfn a b c).2.2 * sun.2.2 ≥ 0 then
        some (size_t_to_int j :: shade)
      else if fi (centroid a b c) (-sun.1, -sun.2.1, -sun.2.2) j then
        some (size_t_to_int j :: shade)
      else some shade := by
  simp only [compute_shadows_loop, ha, hb, hc, hrest, Option.bind_eq_bind, Option.some_bind]
  split
  · rfl
  · split <;> rfl

theorem shadowed_single_of_points (cfn : Point → Point → Point → Point)
    (fi : Point → Point → Nat → Bool) (pts : List Point) (sun : Point) (j : Nat) (f : Face)
    (a b c : Point) (ha : point_at pts f.1 = some a) (hb : point_at pts f.2.1 = some b)
    (hc : point_at pts f.2.2 = some c) :
    shadowed_single cfn fi pts sun (j, f) =
      (decide (dot (cfn a b c) sun > 0) ||
        fi (centroid a b c) (-sun.1, -sun.2.1, -sun.2.2) j) := by
  simp only [shadowed_single, ha, hb, hc]

theorem shadowed_batched_of_points (cfn : Point → Point → Point → Point)
    (fi : Point → Point → Nat → Bool) (pts : List Point) (sun : Point) (j : Nat) (f : Face)
    (a b c : Point) (ha : point_at pts f.1 = some a) (hb : point_at pts f.2.1 = some b)
    (hc : point_at pts f.2.2 = some c) :
    shadowed_batched cfn fi pts sun (j, f) =
      (decide (dot (cfn a b c) sun ≥ 0) ||
        fi (centroid a b c) (-sun.1, -sun.2.1, -sun.2.2) j) := by
  simp only [shadowed_batched, ha, hb, hc]

/-- The loop of `compute_shadow` returns the indices of the faces that the rule
with the strict test marks, in face order. -/
theorem compute_shadow_loop_eq_filter (cfn : Point → Point → Point → Point)
    (fi : Point → Point → Nat → Bool) (pts : List Point) (sun : Point) :
    ∀ (faces : List Face) (j : Nat), (∀ f ∈ faces, face_in_range pts f) →
      compute_shadow_loop cfn fi pts sun j faces =
        some (((faces.enumFrom j).filter (shadowed_single cfn fi pts sun)).map
          fun jf => size_t_to_int jf.1) := by
  intro faces
  induction faces with
  | nil => intro j _; rfl
  | cons f faces ih =>
    intro j hr
    obtain ⟨⟨a0, a1⟩, ⟨b0, b1⟩, ⟨c0, c1⟩⟩ := hr f (List.mem_cons_self _ _)
    obtain ⟨a, ha⟩ := point_at_of_range pts f.1 a0 a1
    obtain ⟨b, hb⟩ := point_at_of_range pts f.2.1 b0 b1
    obtain ⟨c, hc⟩ := point_at_of_range pts f.2.2 c0 c1
    have hrest := ih (j + 1) (fun g hg => hr g (List.mem_cons_of_mem _ hg))
    rw [compute_shadow_loop_cons cfn fi pts sun j f faces a b c _ ha hb hc hrest,
      List.enumFrom_cons, List.filter_cons,
      shadowed_single_of_points cfn fi pts sun j f a b c ha hb hc]
    have hdot : dot (cfn a b c) sun
        = (cfn a b c).1 * sun.1 + (cfn a b c).2.1 * sun.2.1 + (cfn a b c).2.2 * sun.2.2 := rfl
    rw [hdot]
    by_cases h1 : (cfn a b c).1 * sun.1 + (cfn a b c).2.1 * sun.2.1
        + (cfn a b c).2.2 * sun.2.2 > 0
    · simp [h1]
    · by_cases h2 : fi (centroid a b c) (-sun.1, -sun.2.1, -sun.2.2) j = true
      · simp [h1, h2]
      · simp [h1, h2]

/-- The inner loop of `compute_shadows` returns the indices of the faces that the
rule with the test `>= 0` marks, in face order. -/
theorem compute_shadows_loop_eq_filter (cfn : Point → Point → Point → Point)
    (fi : Point → Point → Nat → Bool) (pts : List Point) (sun : Point) :
    ∀ (faces : List Face) (j : Nat), (∀ f ∈ faces, face_in_range pts f) →
      compute_shadows_loop cfn fi pts sun j faces =
        some (((faces.enumFrom j).filter (shadowed_batched cfn fi pts sun)).map
          fun jf => size_t_to_int jf.1) := by
  intro faces
  induction faces with
  | nil => intro j _; rfl
  | cons f faces ih =>
    intro j hr
    obtain ⟨⟨a0, a1⟩, ⟨b0, b1⟩, ⟨c0, c1⟩⟩ := hr f (List.mem_cons_self _ _)
    obtain ⟨a, ha⟩ := point_at_of_range pts f.1 a0 a1
    obtain ⟨b, hb⟩ := point_at_of_range pts f.2.1 b0 b1
    obtain ⟨c, hc⟩ := point_at_of_range pts f.2.2 c0 c1
    have hrest := ih (j + 1) (fun g hg => hr g (List.mem_cons_of_mem _ hg))
    rw [compute_shadows_loop_cons cfn fi pts sun j f faces a b c _ ha hb hc hrest,
      List.enumFrom_cons, List.filter_cons,
      shadowed_batched_of_points cfn fi pts sun j f a b c ha hb hc]
    have hdot : dot (cfn a b c) sun
        = (cfn a b c).1 * sun.1 + (cfn a b c).2.1 * sun.2.1 + (cfn a b c).2.2 * sun.2.2 := rfl
    rw [hdot]
    by_cases h1 : (cfn a b c).1 * sun.1 + (cfn a b c).2.1 * sun.2.1
        + (cfn a b c).2.2 * sun.2.2 ≥ 0
    · simp [h1]
    · by_cases h2 : fi (centroid a b c) (-sun.1, -sun.2.1, -sun.2.2) j = true
      · simp [h1, h2]
      · simp [h1, h2]

/-- The outer loop of `compute_shadows`: one list per sun ray, in order, each the
result of the inner loop on that ray. -/
theorem compute_shadows_of_range (cfn : Point → Point → Point → Point)
    (fi : Point → Point → Nat → Bool) (pts : List Point) (faces : List Face)
    (hrange : ∀ f ∈ faces, face_in_range pts f) :
    ∀ sun_rays : List (Int × Point),
      ∃ result, compute_shadows cfn fi pts faces sun_rays = some result ∧
        result.length = sun_rays.length ∧
        ∀ (k : Nat) (item : Int × Point), sun_rays[k]? = some item →
          result[k]? = some (((faces.enum.filter (shadowed_batched cfn fi pts item.2)).map
            fun jf => size_t_to_int jf.1)) := by
  intro sun_rays
  induction sun_rays with
  | nil => exact ⟨[], rfl, rfl, by simp⟩
  | cons item sun_rays ih =>
    obtain ⟨result, hres, hlen, hk⟩ := ih
    have hloop := compute_shadows_loop_eq_filter cfn fi pts item.2 faces 0 hrange
    refine ⟨((faces.enum.filter (shadowed_batched cfn fi pts item.2)).map
      fun jf => size_t_to_int jf.1) :: result, ?_, ?_, ?_⟩
    · simp only [compute_shadows, hloop, hres, Option.bind_eq_bind, Option.some_bind]
      rfl
    · simp [hlen]
    · intro k it hit
      cases k with
      | zero =>
        simp only [List.getElem?_cons_zero, Option.some.injEq] at hit
        subst hit
        exact List.getElem?_cons_zero
      | succ k =>
        simp only [List.getElem?_cons_succ] at hit ⊢
        exact hk k it hit

/-- C21. On a mesh with in-range face indices `compute_shadows` returns one list
per sun ray, in order.  Its `k`-th list and the list of `compute_shadow` on the
`k`-th vector are the indices, in face order, of the faces that the decision rule
marks, with the test `normal . sun >= 0` for the first and `normal . sun > 0` for
the second.  The two rules agree on every face with `normal . sun` different from
`0`; a face with `normal . sun = 0` is always marked by the batched routine and is
marked by the single routine exactly when the ray finds an occluder.  So the list
of the single routine is a sub-list of the batched one, and the two lists are equal
when no face normal is perpendicular to the vector. -/
theorem compute_shadows_agrees_with_compute_shadow (cfn : Point → Point → Point → Point)
    (fi : Point → Point → Nat → Bool) (pts : List Point) (faces : List Face)
    (sun_rays : List (Int × Point)) (hrange : ∀ f ∈ faces, face_in_range pts f) :
    ∃ result, compute_shadows cfn fi pts faces sun_rays = some result ∧
      result.length = sun_rays.length ∧
      ∀ (k : Nat) (item : Int × Point), sun_rays[k]? = some item →
        ∃ batched single, result[k]? = some batched ∧
          compute_shadow cfn fi pts faces item.2 = some single ∧
          batched = ((faces.enum.filter (shadowed_batched cfn fi pts item.2)).map
            fun jf => size_t_to_int jf.1) ∧
          single = ((faces.enum.filter (shadowed_single cfn fi pts item.2)).map
            fun jf => size_t_to_int jf.1) ∧
          (∀ (j : Nat) (f : Face) (a b c : Point), faces[j]? = some f →
            point_at pts f.1 = some a → point_at pts f.2.1 = some b →
            point_at pts f.2.2 = some c →
            (dot (cfn a b c) item.2 ≠ 0 →
              shadowed_batched cfn fi pts item.2 (j, f)
                = shadowed_single cfn fi pts item.2 (j, f)) ∧
            (dot (cfn a b c) item.2 = 0 →
              shadowed_batched cfn fi pts item.2 (j, f) = true ∧
              shadowed_single cfn fi pts item.2 (j, f)
                = fi (centroid a b c) (-item.2.1, -item.2.2.1, -item.2.2.2) j)) ∧
          single.Sublist batched ∧
          ((∀ (j : Nat) (f : Face) (a b c : Point), faces[j]? = some f →
              point_at pts f.1 = some a → point_at pts f.2.1 = some b →
              point_at pts f.2.2 = some c → dot (cfn a b c) item.2 ≠ 0) →
            batched = single) := by
  obtain ⟨result, hres, hlen, hk⟩ := compute_shadows_of_range cfn fi pts faces hrange sun_rays
  refine ⟨result, hres, hlen, ?_⟩
  intro k item hitem
  have hface : ∀ (j : Nat) (f : Face) (a b c : Point), point_at pts f.1 = some a →
      point_at pts f.2.1 = some b → point_at pts f.2.2 = some c →
      (dot (cfn a b c) item.2 ≠ 0 →
        shadowed_batched cfn fi pts item.2 (j, f) = shadowed_single cfn fi pts item.2 (j, f)) ∧
      (dot (cfn a b c) item.2 = 0 →
        shadowed_batched cfn fi pts item.2 (j, f) = true ∧
        shadowed_single cfn fi pts item.2 (j, f)
          = fi (centroid a b c) (-item.2.1, -item.2.2.1, -item.2.2.2) j) ∧
      (shadowed_single cfn fi pts item.2 (j, f) = true →
        shadowed_batched cfn fi pts item.2 (j, f) = true) := by
    intro j f a b c ha hb hc
    rw [shadowed_batched_of_points cfn fi pts item.2 j f a b c ha hb hc,
      shadowed_single_of_points cfn fi pts item.2 j f a b c ha hb hc]
    refine ⟨?_, ?_, ?_⟩
    · intro hne
      have hiff : dot (cfn a b c) item.2 ≥ 0 ↔ dot (cfn a b c) item.2 > 0 :=
        ⟨fun h => lt_of_le_of_ne h (Ne.symm hne), fun h => le_of_lt h⟩
      rw [decide_eq_decide.mpr hiff]
    · intro h0
      rw [h0]
      simp
    · intro h
      rcases Bool.or_eq_true _ _ |>.mp h with h1 | h1
      · have h2 : dot (cfn a b c) item.2 > 0 := of_decide_eq_true h1
        have h3 : dot (cfn a b c) item.2 ≥ 0 := le_of_lt h2
        simp [h3]
      · simp [h1]
  refine ⟨_, _, hk k item hitem, compute_shadow_loop_eq_filter cfn fi pts item.2 faces 0 hrange,
    rfl, rfl, ?_, ?_, ?_⟩
  · intro j f a b c _ ha hb hc
    exact ⟨(hface j f a b c ha hb hc).1, (hface j f a b c ha hb hc).2.1⟩
  · apply List.Sublist.map
    apply List.monotone_filter_right
    rintro ⟨j, f⟩ hs
    have hmem : shadowed_single cfn fi pts item.2 (j, f) = true := hs
    cases ha : point_at pts f.1 with
    | none => simp [shadowed_single, ha] at hmem
    | some a =>
      cases hb : point_at pts f.2.1 with
      | none => simp [shadowed_single, ha, hb] at hmem
      | some b =>
        cases hc : point_at pts f.2.2 with
        | none => simp [shadowed_single, ha, hb, hc] at hmem
        | some c => exact (hface j f a b c ha hb hc).2.2 hmem
  · intro hperp
    apply congrArg
    apply List.filter_congr
    rintro ⟨j, f⟩ hjf
    have hget : faces[j]? = some f := List.mk_mem_enum_iff_getElem?.mp hjf
    obtain ⟨⟨a0, a1⟩, ⟨b0, b1⟩, ⟨c0, c1⟩⟩ := hrange f (List.getElem?_mem hget)
    obtain ⟨a, ha⟩ := point_at_of_range pts f.1 a0 a1
    obtain ⟨b, hb⟩ := point_at_of_range pts f.2.1 b0 b1
    obtain ⟨c, hc⟩ := point_at_of_range pts f.2.2 c0 c1
    exact (hface j f a b c ha hb hc).1 (hperp j f a b c hget ha hb hc)

/-- Witness for C21: the flat mesh of the unit square and two sun rays. -/
theorem compute_shadows_agrees_with_compute_shadow_witness :
    (∀ f ∈ flat_faces, face_in_range square_points f) ∧
    ∃ result, compute_shadows unit_normal (ray_hits_mesh square_points flat_faces)
        square_points flat_faces [(0, (0, 0, -1)), (1, (1, 0, 0))] = some result ∧
      result.length = 2 := by
  obtain ⟨result, h, hlen, -⟩ :=
    compute_shadows_agrees_with_compute_shadow unit_normal
      (ray_hits_mesh square_points flat_faces) square_points flat_faces
      [(0, (0, 0, -1)), (1, (1, 0, 0))] flat_faces_in_range
  exact ⟨flat_faces_in_range, result, h, hlen⟩

/-! ## orient_tin and surface_normals -/

theorem face_cross_reversed_all (p0 p1 p2 : Point) :
    face_cross p2 p1 p0 =
      (-(face_cross p0 p1 p2).1, -(face_cross p0 p1 p2).2.1, -(face_cross p0 p1 p2).2.2) := by
  simp only [face_cross, cross]
  refine Prod.ext ?_ (Prod.ext ?_ ?_) <;> simp only <;> ring

/-- On a face whose cross product has a positive norm the loop body of
`orient_tin` pushes the vector that `normal` returns on the three points. -/
theorem orient_face_eq_normal (sqrt : ℚ → ℚ) (pts : List Point) (f : Face) (p0 p1 p2 : Point)
    (h0 : point_at pts f.1 = some p0) (h1 : point_at pts f.2.1 = some p1)
    (h2 : point_at pts f.2.2 = some p2) (hc : 0 < norm sqrt (face_cross p0 p1 p2)) :
    orient_face sqrt pts f = some (normal sqrt p0 p1 p2,
      if (face_cross p0 p1 p2).2.2 < 0 then (f.2.2, f.2.1, f.1) else f) := by
  have hne : norm sqrt (face_cross p0 p1 p2) ≠ 0 := hc.ne'
  have hne2 : -norm sqrt (face_cross p0 p1 p2) ≠ 0 := neg_ne_zero.mpr hne
  have hn : normal sqrt p0 p1 p2 = upward (normalize sqrt (face_cross p0 p1 p2)) := rfl
  rw [hn, upward_normalize sqrt _ hc]
  simp only [orient_face, h0, h1, h2, Option.bind_eq_bind, Option.some_bind]
  by_cases hz : (face_cross p0 p1 p2).2.2 < 0
  · have hz2 : ¬ 0 ≤ (face_cross p0 p1 p2).2.2 := not_le.mpr hz
    simp only [if_pos hz, if_neg hz2, fdiv, mul_neg, mul_one, div_neg, if_neg hne2]
    rfl
  · have hz2 : 0 ≤ (face_cross p0 p1 p2).2.2 := not_lt.mp hz
    simp only [if_neg hz, if_pos hz2, fdiv, if_neg hne]
    rfl

/-- The face that the loop body of `orient_tin` leaves: its normal is the normal
of the face before, and the loop body leaves it as it is. -/
theorem orient_face_fixed (sqrt : ℚ → ℚ) (pts : List Point) (f : Face)
    (hsqrt : ∀ t, 0 < t → 0 < sqrt t) (hr : face_in_range pts f)
    (hnd : face_non_degenerate pts f) :
    ∃ p0 p1 p2 g q0 q1 q2, point_at pts f.1 = some p0 ∧ point_at pts f.2.1 = some p1 ∧
      point_at pts f.2.2 = some p2 ∧
      orient_face sqrt pts f = some (normal sqrt p0 p1 p2, g) ∧
      point_at pts g.1 = some q0 ∧ point_at pts g.2.1 = some q1 ∧
      point_at pts g.2.2 = some q2 ∧
      normal sqrt q0 q1 q2 = normal sqrt p0 p1 p2 ∧
      orient_face sqrt pts g = some (normal sqrt p0 p1 p2, g) := by
  obtain ⟨⟨a0, a1⟩, ⟨b0, b1⟩, ⟨c0, c1⟩⟩ := hr
  obtain ⟨p0, h0⟩ := point_at_of_range pts f.1 a0 a1
  obtain ⟨p1, h1⟩ := point_at_of_range pts f.2.1 b0 b1
  obtain ⟨p2, h2⟩ := point_at_of_range pts f.2.2 c0 c1
  have hc : 0 < norm sqrt (face_cross p0 p1 p2) :=
    hsqrt _ (sum_sq_pos_of_ne_zero _ (hnd p0 p1 p2 h0 h1 h2))
  have hface := orient_face_eq_normal sqrt pts f p0 p1 p2 h0 h1 h2 hc
  by_cases hz : (face_cross p0 p1 p2).2.2 < 0
  · rw [if_pos hz] at hface
    have hrev := face_cross_reversed_all p0 p1 p2
    have hc2 : 0 < norm sqrt (face_cross p2 p1 p0) := by
      rw [hrev, norm_neg]
      exact hc
    have hnormal : normal sqrt p2 p1 p0 = normal sqrt p0 p1 p2 := by
      show upward (normalize sqrt (face_cross p2 p1 p0))
        = upward (normalize sqrt (face_cross p0 p1 p2))
      rw [hrev]
      exact upward_normalize_neg sqrt _ hc hz.ne
    have hz2 : ¬ (face_cross p2 p1 p0).2.2 < 0 := by
      rw [hrev]
      show ¬ -(face_cross p0 p1 p2).2.2 < 0
      linarith
    have hface2 := orient_face_eq_normal sqrt pts (f.2.2, f.2.1, f.1) p2 p1 p0 h2 h1 h0 hc2
    rw [if_neg hz2, hnormal] at hface2
    exact ⟨p0, p1, p2, (f.2.2, f.2.1, f.1), p2, p1, p0, h0, h1, h2, hface, h2, h1, h0,
      hnormal, hface2⟩
  · rw [if_neg hz] at hface
    exact ⟨p0, p1, p2, f, p0, p1, p2, h0, h1, h2, hface, h0, h1, h2, rfl, hface⟩

/-- C22. For a point list and a face list with in-range indices whose faces are
all non-degenerate, and a square root that is positive on positive numbers, the
normals that `orient_tin` returns are the list that `surface_normals` returns on
the face list as it was before the call, and also the list that `surface_normals`
returns on the re-oriented face list; `orient_tin` on the re-oriented face list
returns the same normals and leaves every face as it is. -/
theorem orient_tin_normals_are_surface_normals (sqrt : ℚ → ℚ) (pts : List Point)
    (faces : List Face)
    (hsqrt : ∀ t, 0 < t → 0 < sqrt t)
    (hrange : ∀ f ∈ faces, face_in_range pts f)
    (hnd : ∀ f ∈ faces, face_non_degenerate pts f) :
    ∃ result oriented, orient_tin sqrt pts faces = some (result, oriented) ∧
      result.length = faces.length ∧
      surface_normals sqrt pts faces = some result ∧
      surface_normals sqrt pts oriented = some result ∧
      orient_tin sqrt pts oriented = some (result, oriented) := by
  induction faces with
  | nil => exact ⟨[], [], rfl, rfl, rfl, rfl, rfl⟩
  | cons f faces ih =>
    obtain ⟨result, oriented, e1, el, e2, e3, e4⟩ :=
      ih (fun g hg => hrange g (List.mem_cons_of_mem _ hg))
        (fun g hg => hnd g (List.mem_cons_of_mem _ hg))
    obtain ⟨p0, p1, p2, g, q0, q1, q2, h0, h1, h2, hface, k0, k1, k2, hnormal, hface2⟩ :=
      orient_face_fixed sqrt pts f hsqrt (hrange f (List.mem_cons_self _ _))
        (hnd f (List.mem_cons_self _ _))
    refine ⟨normal sqrt p0 p1 p2 :: result, g :: oriented, ?_, ?_, ?_, ?_, ?_⟩
    · simp only [orient_tin, hface, e1, Option.bind_eq_bind, Option.some_bind]
      rfl
    · simp [el]
    · simp only [surface_normals, h0, h1, h2, e2, Option.bind_eq_bind, Option.some_bind]
      rfl
    · simp only [surface_normals, k0, k1, k2, e3, hnormal, Option.bind_eq_bind,
        Option.some_bind]
      rfl
    · simp only [orient_tin, hface2, e4, Option.bind_eq_bind, Option.some_bind]
      rfl

/-- Witness for C22: the two triangles of the unit square, the first of them
clockwise. -/
theorem orient_tin_normals_are_surface_normals_witness :
    ((∀ t, 0 < t → 0 < sqrt_floor t) ∧
      (∀ f ∈ square_faces, face_in_range square_points f) ∧
      (∀ f ∈ square_faces, face_non_degenerate square_points f)) ∧
    ∃ result oriented, orient_tin sqrt_floor square_points square_faces
        = some (result, oriented) ∧
      result.length = square_faces.length ∧
      surface_normals sqrt_floor square_points square_faces = some result ∧
      surface_normals sqrt_floor square_points oriented = some result ∧
      orient_tin sqrt_floor square_points oriented = some (result, oriented) :=
  ⟨⟨sqrt_floor_pos, square_faces_in_range, square_faces_non_degenerate⟩,
    orient_tin_normals_are_surface_normals sqrt_floor square_points square_faces
      sqrt_floor_pos square_faces_in_range square_faces_non_degenerate⟩

/-! ## RasterData: the bilinear weights -/

theorem raster_huge_invariants : data_model_invariants raster_huge := by
  have hlen : raster_huge.data.length = raster_huge.num_points_x * raster_huge.num_points_y := by
    show huge_data.length = 6442450944 * 2
    rw [huge_data, List.length_replicate]
  refine ⟨?_, ?_, ?_, ?_, hlen⟩
  · show (0 : ℚ) < 1
    norm_num
  · show (0 : ℚ) < 1
    norm_num
  · show 2 ≤ 6442450944
    norm_num
  · show 2 ≤ 2
    norm_num

theorem get_indices_raster_huge :
    raster_huge.get_indices (4294967295 / 2) (1 / 2) = some (0, 2147483647) := by
  have hx : static_cast_int (((4294967295 : ℚ) / 2 - 0) / 1) = some 2147483647 := by
    have ht : trunc (((4294967295 : ℚ) / 2 - 0) / 1) = 2147483647 := by
      rw [trunc_of_nonneg _ (by norm_num), Int.floor_eq_iff]
      constructor <;> norm_num
    rw [static_cast_int_of_range _ (by norm_num) (by norm_num), ht]
  have hy : static_cast_int (((1 : ℚ) - 1 / 2) / 1) = some 0 := by
    have ht : trunc (((1 : ℚ) - 1 / 2) / 1) = 0 := by
      rw [trunc_of_nonneg _ (by norm_num), Int.floor_eq_iff]
      constructor <;> norm_num
    rw [static_cast_int_of_range _ (by norm_num) (by norm_num), ht]
  have hnx : size_t_to_int (size_t_sub 6442450944 1) = 2147483647 := by
    unfold size_t_to_int size_t_sub
    norm_num
  have hny : size_t_to_int (size_t_sub 2 1) = 1 := by
    unfold size_t_to_int size_t_sub
    norm_num
  have h1 : (1 : ℚ) ≠ 0 := one_ne_zero
  simp only [RasterData.get_indices, raster_huge, fdiv, if_neg h1, Option.bind_eq_bind,
    Option.some_bind, hx, hy, hnx, hny]
  rfl

/-- C23, as stated, fails.  The raster `raster_huge` of `2^32 + 2^31` columns
satisfies the data-model invariants, and the point `(2147483647.5, 0.5)` lies in
its cell with upper-left node `(i, j) = (0, 2^31 - 1)`, which is what `get_indices`
returns, with `i <= num_points_y - 2` and `j <= num_points_x - 2`.  The corner
`x_1 = x_min + (j + 1) * delta_x` is computed with the `int` sum `j + 1`, which
passes the largest `int`: the weights and the interpolated value are undefined. -/
theorem interpolation_int_column_overflow :
    data_model_invariants raster_huge ∧
    raster_huge.get_indices (4294967295 / 2) (1 / 2) = some (0, 2147483647) ∧
    ((0 : Int) ≤ (raster_huge.num_points_y : Int) - 2 ∧
      (2147483647 : Int) ≤ (raster_huge.num_points_x : Int) - 2) ∧
    (raster_huge.x_min + 2147483647 * raster_huge.delta_x ≤ 4294967295 / 2 ∧
      (4294967295 / 2 : ℚ) ≤ raster_huge.x_min + (2147483647 + 1) * raster_huge.delta_x) ∧
    (raster_huge.y_max - (0 + 1) * raster_huge.delta_y ≤ 1 / 2 ∧
      (1 / 2 : ℚ) ≤ raster_huge.y_max - 0 * raster_huge.delta_y) ∧
    int_add 2147483647 1 = none ∧
    raster_huge.get_interpolated_value_at_point (4294967295 / 2) (1 / 2) = none := by
  have hadd : int_add 2147483647 1 = none := int_add_one_overflow 2147483647 (by norm_num)
  refine ⟨raster_huge_invariants, get_indices_raster_huge, ⟨?_, ?_⟩, ⟨?_, ?_⟩, ⟨?_, ?_⟩, hadd, ?_⟩
  · show (0 : Int) ≤ ((2 : Nat) : Int) - 2
    norm_num
  · show (2147483647 : Int) ≤ ((6442450944 : Nat) : Int) - 2
    norm_num
  · show (0 : ℚ) + 2147483647 * 1 ≤ 4294967295 / 2
    norm_num
  · show (4294967295 / 2 : ℚ) ≤ 0 + (2147483647 + 1) * 1
    norm_num
  · show (1 : ℚ) - (0 + 1) * 1 ≤ 1 / 2
    norm_num
  · show (1 / 2 : ℚ) ≤ 1 - 0 * 1
    norm_num
  · unfold RasterData.get_interpolated_value_at_point
    simp only [get_indices_raster_huge, hadd, Option.bind_eq_bind, Option.some_bind,
      Option.none_bind]

theorem get_indices_nonneg (r : RasterData) (x y : ℚ) (i j : Int)
    (hnx1 : 1 ≤ r.num_points_x) (hnx : r.num_points_x ≤ 2147483648)
    (hny1 : 1 ≤ r.num_points_y) (hny : r.num_points_y ≤ 2147483648)
    (hidx : r.get_indices x y = some (i, j)) : 0 ≤ i ∧ 0 ≤ j := by
  unfold RasterData.get_indices at hidx
  simp only [Option.bind_eq_bind, Option.bind_eq_some, size_t_to_int_pred _ hnx1 hnx,
    size_t_to_int_pred _ hny1 hny] at hidx
  obtain ⟨qx, -, tx, -, qy, -, ty, -, h⟩ := hidx
  have h2 : (min (max ty 0) ((r.num_points_y : Int) - 1),
      min (max tx 0) ((r.num_points_x : Int) - 1)) = (i, j) := Option.some.inj h
  have hi : min (max ty 0) ((r.num_points_y : Int) - 1) = i := congrArg Prod.fst h2
  have hj : min (max tx 0) ((r.num_points_x : Int) - 1) = j := congrArg Prod.snd h2
  constructor <;> omega

theorem bilinear_weights (dx dy x0 x1 y0 y1 x y : ℚ) (hdx : 0 < dx) (hdy : 0 < dy)
    (hx : x1 - x0 = dx) (hy : y0 - y1 = dy)
    (hx0 : x0 ≤ x) (hx1 : x ≤ x1) (hy1 : y1 ≤ y) (hy0 : y ≤ y0) :
    0 ≤ (x1 - x) / dx * ((y - y1) / dy) ∧ 0 ≤ (x1 - x) / dx * ((y0 - y) / dy) ∧
    0 ≤ (x - x0) / dx * ((y - y1) / dy) ∧ 0 ≤ (x - x0) / dx * ((y0 - y) / dy) ∧
    (x1 - x) / dx * ((y - y1) / dy) + (x1 - x) / dx * ((y0 - y) / dy)
      + (x - x0) / dx * ((y - y1) / dy) + (x - x0) / dx * ((y0 - y) / dy) = 1 := by
  have a1 : 0 ≤ (x1 - x) / dx := div_nonneg (sub_nonneg.mpr hx1) hdx.le
  have a0 : 0 ≤ (x - x0) / dx := div_nonneg (sub_nonneg.mpr hx0) hdx.le
  have b1 : 0 ≤ (y - y1) / dy := div_nonneg (sub_nonneg.mpr hy1) hdy.le
  have b0 : 0 ≤ (y0 - y) / dy := div_nonneg (sub_nonneg.mpr hy0) hdy.le
  refine ⟨mul_nonneg a1 b1, mul_nonneg a1 b0, mul_nonneg a0 b1, mul_nonneg a0 b0, ?_⟩
  have sx : (x1 - x) / dx + (x - x0) / dx = 1 := by
    rw [← add_div, ← hx]
    have : x1 - x + (x - x0) = x1 - x0 := by ring
    rw [this]
    exact div_self (by rw [hx]; exact hdx.ne')
  have sy : (y - y1) / dy + (y0 - y) / dy = 1 := by
    rw [← add_div, ← hy]
    have : y - y1 + (y0 - y) = y0 - y1 := by ring
    rw [this]
    exact div_self (by rw [hy]; exact hdy.ne')
  calc (x1 - x) / dx * ((y - y1) / dy) + (x1 - x) / dx * ((y0 - y) / dy)
        + (x - x0) / dx * ((y - y1) / dy) + (x - x0) / dx * ((y0 - y) / dy)
      = ((x1 - x) / dx + (x - x0) / dx) * ((y - y1) / dy + (y0 - y) / dy) := by ring
    _ = 1 := by rw [sx, sy, mul_one]

theorem convex_combination_bounds (d00 d10 d01 d11 w00 w10 w01 w11 : ℚ)
    (h00 : 0 ≤ w00) (h10 : 0 ≤ w10) (h01 : 0 ≤ w01) (h11 : 0 ≤ w11)
    (hsum : w00 + w10 + w01 + w11 = 1) :
    min (min d00 d10) (min d01 d11) ≤ d00 * w00 + d10 * w10 + d01 * w01 + d11 * w11 ∧
    d00 * w00 + d10 * w10 + d01 * w01 + d11 * w11 ≤ max (max d00 d10) (max d01 d11) := by
  constructor
  · have m00 : min (min d00 d10) (min d01 d11) ≤ d00 :=
      le_trans (min_le_left _ _) (min_le_left _ _)
    have m10 : min (min d00 d10) (min d01 d11) ≤ d10 :=
      le_trans (min_le_left _ _) (min_le_right _ _)
    have m01 : min (min d00 d10) (min d01 d11) ≤ d01 :=
      le_trans (min_le_right _ _) (min_le_left _ _)
    have m11 : min (min d00 d10) (min d01 d11) ≤ d11 :=
      le_trans (min_le_right _ _) (min_le_right _ _)
    have e : min (min d00 d10) (min d01 d11)
        = min (min d00 d10) (min d01 d11) * (w00 + w10 + w01 + w11) := by
      rw [hsum, mul_one]
    have p00 := mul_le_mul_of_nonneg_right m00 h00
    have p10 := mul_le_mul_of_nonneg_right m10 h10
    have p01 := mul_le_mul_of_nonneg_right m01 h01
    have p11 := mul_le_mul_of_nonneg_right m11 h11
    rw [e, mul_add, mul_add, mul_add]
    linarith
  · have m00 : d00 ≤ max (max d00 d10) (max d01 d11) :=
      le_trans (le_max_left _ _) (le_max_left _ _)
    have m10 : d10 ≤ max (max d00 d10) (max d01 d11) :=
      le_trans (le_max_right _ _) (le_max_left _ _)
    have m01 : d01 ≤ max (max d00 d10) (max d01 d11) :=
      le_trans (le_max_left _ _) (le_max_right _ _)
    have m11 : d11 ≤ max (max d00 d10) (max d01 d11) :=
      le_trans (le_max_right _ _) (le_max_right _ _)
    have e : max (max d00 d10) (max d01 d11)
        = max (max d00 d10) (max d01 d11) * (w00 + w10 + w01 + w11) := by
      rw [hsum, mul_one]
    have p00 := mul_le_mul_of_nonneg_right m00 h00
    have p10 := mul_le_mul_of_nonneg_right m10 h10
    have p01 := mul_le_mul_of_nonneg_right m01 h01
    have p11 := mul_le_mul_of_nonneg_right m11 h11
    rw [e, mul_add, mul_add, mul_add]
    linarith

/-- C23, amended.  For a raster that satisfies the data-model invariants and has
at most `2^31` points in each direction, and a point `(x, y)` of the cell whose
upper-left node `(i, j)` is what `get_indices` returns, with
`i <= num_points_y - 2` and `j <= num_points_x - 2`:
`get_interpolated_value_at_point` reads the four corner values of that cell inside
`data` and returns their sum weighted by four weights that are non-negative and
sum to `1`; the value lies between the smallest and the largest of the four corner
values, and it is `c` when every datum is `c`. -/
theorem interpolation_within_cell_values (r : RasterData) (x y : ℚ) (i j : Int)
    (hinv : data_model_invariants r)
    (hnx : r.num_points_x ≤ 2147483648) (hny : r.num_points_y ≤ 2147483648)
    (hidx : r.get_indices x y = some (i, j))
    (hi : i ≤ (r.num_points_y : Int) - 2) (hj : j ≤ (r.num_points_x : Int) - 2)
    (hx0 : r.x_min + (j : ℚ) * r.delta_x ≤ x)
    (hx1 : x ≤ r.x_min + ((j : ℚ) + 1) * r.delta_x)
    (hy1 : r.y_max - ((i : ℚ) + 1) * r.delta_y ≤ y)
    (hy0 : y ≤ r.y_max - (i : ℚ) * r.delta_y) :
    ∃ d00 d10 d01 d11 w00 w10 w01 w11 h : ℚ,
      (0 ≤ i ∧ 0 ≤ j) ∧
      r.data[i.toNat * r.num_points_x + j.toNat]? = some d00 ∧
      r.data[(i.toNat + 1) * r.num_points_x + j.toNat]? = some d10 ∧
      r.data[i.toNat * r.num_points_x + j.toNat + 1]? = some d01 ∧
      r.data[(i.toNat + 1) * r.num_points_x + j.toNat + 1]? = some d11 ∧
      w00 = (r.x_min + ((j : ℚ) + 1) * r.delta_x - x) / r.delta_x
        * ((y - (r.y_max - ((i : ℚ) + 1) * r.delta_y)) / r.delta_y) ∧
      w10 = (r.x_min + ((j : ℚ) + 1) * r.delta_x - x) / r.delta_x
        * ((r.y_max - (i : ℚ) * r.delta_y - y) / r.delta_y) ∧
      w01 = (x - (r.x_min + (j : ℚ) * r.delta_x)) / r.delta_x
        * ((y - (r.y_max - ((i : ℚ) + 1) * r.delta_y)) / r.delta_y) ∧
      w11 = (x - (r.x_min + (j : ℚ) * r.delta_x)) / r.delta_x
        * ((r.y_max - (i : ℚ) * r.delta_y - y) / r.delta_y) ∧
      r.get_interpolated_value_at_point x y = some h ∧
      h = d00 * w00 + d10 * w10 + d01 * w01 + d11 * w11 ∧
      (0 ≤ w00 ∧ 0 ≤ w10 ∧ 0 ≤ w01 ∧ 0 ≤ w11) ∧
      w00 + w10 + w01 + w11 = 1 ∧
      min (min d00 d10) (min d01 d11) ≤ h ∧ h ≤ max (max d00 d10) (max d01 d11) ∧
      ∀ c, (∀ d ∈ r.data, d = c) → h = c := by
  obtain ⟨hdx, hdy, hnx2, hny2, hlen⟩ := hinv
  obtain ⟨hi0, hj0⟩ := get_indices_nonneg r x y i j (by omega) hnx (by omega) hny hidx
  obtain ⟨a, rfl⟩ := Int.eq_ofNat_of_zero_le hi0
  obtain ⟨b, rfl⟩ := Int.eq_ofNat_of_zero_le hj0
  simp only [Int.toNat_natCast, Int.cast_natCast] at *
  have ha : a + 2 ≤ r.num_points_y := by omega
  have hb : b + 2 ≤ r.num_points_x := by omega
  have hmul : (a + 2) * r.num_points_x ≤ r.num_points_y * r.num_points_x :=
    Nat.mul_le_mul_right _ ha
  have e2 : (a + 2) * r.num_points_x = a * r.num_points_x + r.num_points_x + r.num_points_x := by
    ring
  have e1 : (a + 1) * r.num_points_x = a * r.num_points_x + r.num_points_x := by
    ring
  have hlen2 : r.data.length = r.num_points_y * r.num_points_x := by
    rw [hlen, Nat.mul_comm]
  have k00 : a * r.num_points_x + b < r.data.length := by omega
  have k10 : (a + 1) * r.num_points_x + b < r.data.length := by omega
  have k01 : a * r.num_points_x + b + 1 < r.data.length := by omega
  have k11 : (a + 1) * r.num_points_x + b + 1 < r.data.length := by omega
  have r00 : read_at r.data (((a : Int) + 0) * r.num_points_x + (b : Int) + 0)
      = some r.data[a * r.num_points_x + b] := by
    have e : ((a : Int) + 0) * r.num_points_x + (b : Int) + 0
        = ((a * r.num_points_x + b : Nat) : Int) := by push_cast; ring
    rw [e, read_at_natCast]
    exact List.getElem?_eq_getElem k00
  have r10 : read_at r.data (((a : Int) + 1) * r.num_points_x + (b : Int) + 0)
      = some r.data[(a + 1) * r.num_points_x + b] := by
    have e : ((a : Int) + 1) * r.num_points_x + (b : Int) + 0
        = (((a + 1) * r.num_points_x + b : Nat) : Int) := by push_cast; ring
    rw [e, read_at_natCast]
    exact List.getElem?_eq_getElem k10
  have r01 : read_at r.data (((a : Int) + 0) * r.num_points_x + (b : Int) + 1)
      = some r.data[a * r.num_points_x + b + 1] := by
    have e : ((a : Int) + 0) * r.num_points_x + (b : Int) + 1
        = ((a * r.num_points_x + b + 1 : Nat) : Int) := by push_cast; ring
    rw [e, read_at_natCast]
    exact List.getElem?_eq_getElem k01
  have r11 : read_at r.data (((a : Int) + 1) * r.num_points_x + (b : Int) + 1)
      = some r.data[(a + 1) * r.num_points_x + b + 1] := by
    have e : ((a : Int) + 1) * r.num_points_x + (b : Int) + 1
        = (((a + 1) * r.num_points_x + b + 1 : Nat) : Int) := by push_cast; ring
    rw [e, read_at_natCast]
    exact List.getElem?_eq_getElem k11
  have hj1 : int_add (b : Int) 1 = some ((b : Int) + 1) :=
    int_add_one_of_range _ (Int.natCast_nonneg b) (by omega)
  have hi1 : int_add (a : Int) 1 = some ((a : Int) + 1) :=
    int_add_one_of_range _ (Int.natCast_nonneg a) (by omega)
  have hval := get_interpolated_value_of_reads r x y (a : Int) (b : Int) _ _ _ _ hidx hj1 hi1
    r00 r10 r01 r11
  obtain ⟨w00, w10, w01, w11, wsum⟩ := bilinear_weights r.delta_x r.delta_y
    (r.x_min + (b : ℚ) * r.delta_x) (r.x_min + ((b : ℚ) + 1) * r.delta_x)
    (r.y_max - (a : ℚ) * r.delta_y) (r.y_max - ((a : ℚ) + 1) * r.delta_y) x y hdx hdy
    (by ring) (by ring) hx0 hx1 hy1 hy0
  have hbounds := convex_combination_bounds r.data[a * r.num_points_x + b]
    r.data[(a + 1) * r.num_points_x + b] r.data[a * r.num_points_x + b + 1]
    r.data[(a + 1) * r.num_points_x + b + 1] _ _ _ _ w00 w10 w01 w11 wsum
  refine ⟨_, _, _, _, _, _, _, _, _, ⟨hi0, hj0⟩, List.getElem?_eq_getElem k00,
    List.getElem?_eq_getElem k10, List.getElem?_eq_getElem k01, List.getElem?_eq_getElem k11,
    rfl, rfl, rfl, rfl, ?_, rfl, ⟨w00, w10, w01, w11⟩, wsum, hbounds.1, hbounds.2, ?_⟩
  · rw [hval, Option.some.injEq]
    push_cast
    ring
  · intro c hc
    rw [hc _ (List.getElem_mem k00), hc _ (List.getElem_mem k10), hc _ (List.getElem_mem k01),
      hc _ (List.getElem_mem k11), ← mul_add, ← mul_add, ← mul_add, wsum, mul_one]

theorem raster3x3_invariants : data_model_invariants raster3x3 := by
  simp [data_model_invariants, raster3x3]

theorem get_indices_raster3x3 : raster3x3.get_indices 1 7 = some (0, 0) := by
  have hx : static_cast_int (((1 : ℚ) - 0) / 3) = some 0 := by
    have ht : trunc (((1 : ℚ) - 0) / 3) = 0 := by
      rw [trunc_of_nonneg _ (by norm_num), Int.floor_eq_iff]
      constructor <;> norm_num
    rw [static_cast_int_of_range _ (by norm_num) (by norm_num), ht]
  have hy : static_cast_int (((8 : ℚ) - 7) / 4) = some 0 := by
    have ht : trunc (((8 : ℚ) - 7) / 4) = 0 := by
      rw [trunc_of_nonneg _ (by norm_num), Int.floor_eq_iff]
      constructor <;> norm_num
    rw [static_cast_int_of_range _ (by norm_num) (by norm_num), ht]
  have hn : size_t_to_int (size_t_sub 3 1) = 2 := by
    unfold size_t_to_int size_t_sub
    norm_num
  have h3 : (3 : ℚ) ≠ 0 := by norm_num
  have h4 : (4 : ℚ) ≠ 0 := by norm_num
  simp only [RasterData.get_indices, raster3x3, fdiv, if_neg h3, if_neg h4, Option.bind_eq_bind,
    Option.some_bind, hx, hy, hn]
  rfl

/-- Witness for C23, amended: the point `(1, 7)` of the upper-left cell of the
3 x 3 raster, whose corner values are `1`, `4`, `2` and `5`. -/
theorem interpolation_within_cell_values_witness :
    (data_model_invariants raster3x3 ∧ raster3x3.num_points_x ≤ 2147483648 ∧
      raster3x3.num_points_y ≤ 2147483648 ∧ raster3x3.get_indices 1 7 = some (0, 0) ∧
      (0 : Int) ≤ (raster3x3.num_points_y : Int) - 2 ∧
      (0 : Int) ≤ (raster3x3.num_points_x : Int) - 2 ∧
      raster3x3.x_min + ((0 : Int) : ℚ) * raster3x3.delta_x ≤ 1 ∧
      (1 : ℚ) ≤ raster3x3.x_min + (((0 : Int) : ℚ) + 1) * raster3x3.delta_x ∧
      raster3x3.y_max - (((0 : Int) : ℚ) + 1) * raster3x3.delta_y ≤ 7 ∧
      (7 : ℚ) ≤ raster3x3.y_max - ((0 : Int) : ℚ) * raster3x3.delta_y) ∧
    ∃ h, raster3x3.get_interpolated_value_at_point 1 7 = some h ∧ 1 ≤ h ∧ h ≤ 5 := by
  have hnx : raster3x3.num_points_x ≤ 2147483648 := by
    show 3 ≤ 2147483648
    norm_num
  have hny : raster3x3.num_points_y ≤ 2147483648 := by
    show 3 ≤ 2147483648
    norm_num
  have hi : (0 : Int) ≤ (raster3x3.num_points_y : Int) - 2 := by
    show (0 : Int) ≤ ((3 : Nat) : Int) - 2
    norm_num
  have hj : (0 : Int) ≤ (raster3x3.num_points_x : Int) - 2 := by
    show (0 : Int) ≤ ((3 : Nat) : Int) - 2
    norm_num
  have hx0 : raster3x3.x_min + ((0 : Int) : ℚ) * raster3x3.delta_x ≤ 1 := by
    norm_num [raster3x3]
  have hx1 : (1 : ℚ) ≤ raster3x3.x_min + (((0 : Int) : ℚ) + 1) * raster3x3.delta_x := by
    norm_num [raster3x3]
  have hy1 : raster3x3.y_max - (((0 : Int) : ℚ) + 1) * raster3x3.delta_y ≤ 7 := by
    norm_num [raster3x3]
  have hy0 : (7 : ℚ) ≤ raster3x3.y_max - ((0 : Int) : ℚ) * raster3x3.delta_y := by
    norm_num [raster3x3]
  refine ⟨⟨raster3x3_invariants, hnx, hny, get_indices_raster3x3, hi, hj, hx0, hx1, hy1, hy0⟩, ?_⟩
  obtain ⟨d00, d10, d01, d11, w00, w10, w01, w11, h, -, e00, e10, e01, e11, -, -, -, -, hv, -, -,
      -, hmin, hmax, -⟩ :=
    interpolation_within_cell_values raster3x3 1 7 0 0 raster3x3_invariants hnx hny
      get_indices_raster3x3 hi hj hx0 hx1 hy1 hy0
  have f00 : d00 = 1 := by simpa [raster3x3] using e00.symm
  have f10 : d10 = 4 := by simpa [raster3x3] using e10.symm
  have f01 : d01 = 2 := by simpa [raster3x3] using e01.symm
  have f11 : d11 = 5 := by simpa [raster3x3] using e11.symm
  subst f00 f10 f01 f11
  refine ⟨h, hv, ?_, ?_⟩
  · have e : min (min (1 : ℚ) 4) (min 2 5) = 1 := by norm_num
    rw [e] at hmin
    exact hmin
  · have e : max (max (1 : ℚ) 4) (max 2 5) = 5 := by norm_num
    rw [e] at hmax
    exact hmax

/-! ## interpolate_boundary_points: the length of a sub-segment -/

/-- C24, as stated, fails.  The edge `long_edge` of `raster_long` is retained and
spans `m = 2^31` cells.  That number is no `int`: the cast that computes the
number of sub-segments is undefined, so there is no computed `n` with
`m / n < 2`. -/
theorem long_edge_no_subedge_count :
    (0 < raster_long.delta_x ∧ 0 < raster_long.delta_y) ∧
    raster_long.contains sqrt_floor ((long_edge.1.1 + long_edge.2.1) / 2)
      ((long_edge.1.2 + long_edge.2.2) / 2) = true ∧
    max |(long_edge.2.1 - long_edge.1.1) / raster_long.delta_x|
      |(long_edge.2.2 - long_edge.1.2) / raster_long.delta_y| = 2147483648 ∧
    static_cast_int (2147483648 : ℚ) = none ∧
    num_subedges raster_long (long_edge.2.1 - long_edge.1.1)
      (long_edge.2.2 - long_edge.1.2) = none ∧
    ¬ ∃ n : Nat, num_subedges raster_long (long_edge.2.1 - long_edge.1.1)
        (long_edge.2.2 - long_edge.1.2) = some n ∧
      max |(long_edge.2.1 - long_edge.1.1) / raster_long.delta_x|
        |(long_edge.2.2 - long_edge.1.2) / raster_long.delta_y| / (n : ℚ) < 2 := by
  have hc : raster_long.contains sqrt_floor ((long_edge.1.1 + long_edge.2.1) / 2)
      ((long_edge.1.2 + long_edge.2.2) / 2) = true := by
    simp only [RasterData.contains, contains_eps_raster_long, get_x_max_raster_long,
      get_y_min_raster_long]
    norm_num [raster_long, long_edge]
  have hn : num_subedges raster_long (long_edge.2.1 - long_edge.1.1)
      (long_edge.2.2 - long_edge.1.2) = none := by
    norm_num [num_subedges, raster_long, long_edge, fdiv, static_cast_int, trunc, INT_MIN,
      INT_MAX]
  refine ⟨⟨?_, ?_⟩, hc, ?_, ?_, hn, ?_⟩
  · norm_num [raster_long]
  · norm_num [raster_long]
  · norm_num [raster_long, long_edge]
  · norm_num [static_cast_int, trunc, INT_MIN, INT_MAX]
  · rintro ⟨n, h, -⟩
    rw [hn] at h
    exact Option.noConfusion h

/-- The number of sub-segments as a rational number. -/
theorem num_subedges_cast (r : RasterData) (ex ey : ℚ)
    (hdx : r.delta_x ≠ 0) (hdy : r.delta_y ≠ 0)
    (hm : max |ex / r.delta_x| |ey / r.delta_y| < 2147483648) :
    ∃ n : Nat, num_subedges r ex ey = some n ∧ 1 ≤ n ∧
      (n : Int) = max 1 ⌊max |ex / r.delta_x| |ey / r.delta_y|⌋ := by
  refine ⟨_, num_subedges_of_range r ex ey hdx hdy hm, ?_, ?_⟩
  · omega
  · omega

/-- The ratio `m / n` for `n = max(1, floor(m))`. -/
theorem cells_per_subedge (m : ℚ) (n : Nat) (hm : 0 ≤ m) (hn : (n : Int) = max 1 ⌊m⌋) :
    m / (n : ℚ) < 2 ∧ (1 ≤ m → 1 ≤ m / (n : ℚ)) ∧ (m < 2 → n = 1) := by
  have hfl : (⌊m⌋ : ℚ) ≤ m := Int.floor_le m
  have hlt : m < (⌊m⌋ : ℚ) + 1 := Int.lt_floor_add_one m
  have ht0 : 0 ≤ ⌊m⌋ := Int.floor_nonneg.mpr hm
  have hn1 : (1 : Int) ≤ (n : Int) := by omega
  have hnq : (n : ℚ) = ((max 1 ⌊m⌋ : Int) : ℚ) := by
    rw [← hn]
    norm_cast
  have hpos : (0 : ℚ) < (n : ℚ) := by
    have : (1 : ℚ) ≤ (n : ℚ) := by exact_mod_cast hn1
    linarith
  refine ⟨?_, ?_, ?_⟩
  · rw [div_lt_iff₀ hpos]
    rcases le_or_lt 1 ⌊m⌋ with h1 | h1
    · have e : (n : Int) = ⌊m⌋ := by omega
      have eq : (n : ℚ) = (⌊m⌋ : ℚ) := by exact_mod_cast e
      have h1q : (1 : ℚ) ≤ (⌊m⌋ : ℚ) := by exact_mod_cast h1
      rw [eq]
      linarith
    · have e : (n : Int) = 1 := by omega
      have eq : (n : ℚ) = 1 := by exact_mod_cast e
      have h0 : ⌊m⌋ = 0 := by omega
      rw [h0] at hlt
      rw [eq]
      norm_num at hlt
      linarith
  · intro h1
    have h1f : 1 ≤ ⌊m⌋ := Int.le_floor.mpr (by exact_mod_cast h1)
    have e : (n : Int) = ⌊m⌋ := by omega
    have eq : (n : ℚ) = (⌊m⌋ : ℚ) := by exact_mod_cast e
    rw [le_div_iff₀ hpos, one_mul, eq]
    exact hfl
  · intro h2
    have hf : ⌊m⌋ < 2 := Int.floor_lt.mpr (by exact_mod_cast h2)
    have e : (n : Int) = 1 := by omega
    exact_mod_cast e

/-- C24, amended.  For a retained edge from `a` to `b` on a raster with positive
spacing whose larger cell count `m = max(|ex / delta_x|, |ey / delta_y|)` is below
`2^31`, the code computes a number `n >= 1` of sub-segments and appends the
samples `k = 0, ..., n`; two consecutive samples are `m / n` cells apart along
the dominant axis, with `m / n < 2`, with `m / n >= 1` when `m >= 1`, and with
`n = 1` when `m < 2`. -/
theorem subedge_between_one_and_two_cells (sqrt : ℚ → ℚ) (r : RasterData) (a b : Point2)
    (hdx : 0 < r.delta_x) (hdy : 0 < r.delta_y)
    (hret : r.contains sqrt ((a.1 + b.1) / 2) ((a.2 + b.2) / 2) = true)
    (hm : max |(b.1 - a.1) / r.delta_x| |(b.2 - a.2) / r.delta_y| < 2147483648) :
    ∃ n : Nat, num_subedges r (b.1 - a.1) (b.2 - a.2) = some n ∧ 1 ≤ n ∧
      (∀ acc, boundary_edge sqrt r acc (a, b) = some (acc ++
        [edge_samples r a ((b.1 - a.1) / (n : ℚ)) ((b.2 - a.2) / (n : ℚ)) n])) ∧
      (∀ k : Nat, k < n → ∃ p q : RasterPoint,
        (edge_samples r a ((b.1 - a.1) / (n : ℚ)) ((b.2 - a.2) / (n : ℚ)) n)[k]? = some p ∧
        (edge_samples r a ((b.1 - a.1) / (n : ℚ)) ((b.2 - a.2) / (n : ℚ)) n)[k + 1]? = some q ∧
        max |(q.1 - p.1) / r.delta_x| |(q.2.1 - p.2.1) / r.delta_y|
          = max |(b.1 - a.1) / r.delta_x| |(b.2 - a.2) / r.delta_y| / (n : ℚ)) ∧
      max |(b.1 - a.1) / r.delta_x| |(b.2 - a.2) / r.delta_y| / (n : ℚ) < 2 ∧
      (1 ≤ max |(b.1 - a.1) / r.delta_x| |(b.2 - a.2) / r.delta_y| →
        1 ≤ max |(b.1 - a.1) / r.delta_x| |(b.2 - a.2) / r.delta_y| / (n : ℚ)) ∧
      (max |(b.1 - a.1) / r.delta_x| |(b.2 - a.2) / r.delta_y| < 2 → n = 1) := by
  have h0 : 0 ≤ max |(b.1 - a.1) / r.delta_x| |(b.2 - a.2) / r.delta_y| :=
    le_trans (abs_nonneg _) (le_max_left _ _)
  obtain ⟨n, hn, hn1, hcast⟩ := num_subedges_cast r (b.1 - a.1) (b.2 - a.2) hdx.ne' hdy.ne' hm
  obtain ⟨c1, c2, c3⟩ := cells_per_subedge _ n h0 hcast
  have hpos : (0 : ℚ) < (n : ℚ) := by exact_mod_cast hn1
  refine ⟨n, hn, hn1, ?_, ?_, c1, c2, c3⟩
  · intro acc
    simp only [boundary_edge, hret, hn, Bool.not_true, Bool.false_eq_true, if_false,
      Option.bind_eq_bind, Option.some_bind]
  · intro k hk
    refine ⟨_, _, getElem?_edge_samples r a _ _ n k hk.le,
      getElem?_edge_samples r a _ _ n (k + 1) hk, ?_⟩
    have ex : (a.1 + ((k + 1 : Nat) : ℚ) * ((b.1 - a.1) / (n : ℚ))
        - (a.1 + (k : ℚ) * ((b.1 - a.1) / (n : ℚ)))) / r.delta_x
        = (b.1 - a.1) / r.delta_x / (n : ℚ) := by
      push_cast
      field_simp
      ring
    have ey : (a.2 + ((k + 1 : Nat) : ℚ) * ((b.2 - a.2) / (n : ℚ))
        - (a.2 + (k : ℚ) * ((b.2 - a.2) / (n : ℚ)))) / r.delta_y
        = (b.2 - a.2) / r.delta_y / (n : ℚ) := by
      push_cast
      field_simp
      ring
    show max |(a.1 + ((k + 1 : Nat) : ℚ) * ((b.1 - a.1) / (n : ℚ))
        - (a.1 + (k : ℚ) * ((b.1 - a.1) / (n : ℚ)))) / r.delta_x|
      |(a.2 + ((k + 1 : Nat) : ℚ) * ((b.2 - a.2) / (n : ℚ))
        - (a.2 + (k : ℚ) * ((b.2 - a.2) / (n : ℚ)))) / r.delta_y| = _
    have ax : |(b.1 - a.1) / r.delta_x / (n : ℚ)| = |(b.1 - a.1) / r.delta_x| / (n : ℚ) := by
      rw [abs_div, abs_of_pos hpos]
    have ay : |(b.2 - a.2) / r.delta_y / (n : ℚ)| = |(b.2 - a.2) / r.delta_y| / (n : ℚ) := by
      rw [abs_div, abs_of_pos hpos]
    rw [ex, ey, ax, ay, max_div_div_right hpos.le]

/-- Witness for C24, amended: the edge from `(0, 2)` to `(6, 6)` of the 3 x 3
raster spans two cells and is cut into two sub-segments. -/
theorem subedge_between_one_and_two_cells_witness :
    (0 < raster3x3.delta_x ∧ 0 < raster3x3.delta_y ∧
      raster3x3.contains sqrt_floor (((0 : ℚ) + 6) / 2) (((2 : ℚ) + 6) / 2) = true ∧
      max |((6 : ℚ) - 0) / raster3x3.delta_x| |((6 : ℚ) - 2) / raster3x3.delta_y|
        < 2147483648) ∧
    ∃ n : Nat, num_subedges raster3x3 (6 - 0) (6 - 2) = some n ∧ 1 ≤ n ∧
      max |((6 : ℚ) - 0) / raster3x3.delta_x| |((6 : ℚ) - 2) / raster3x3.delta_y| / (n : ℚ)
        < 2 := by
  have hdx : 0 < raster3x3.delta_x := by norm_num [raster3x3]
  have hdy : 0 < raster3x3.delta_y := by norm_num [raster3x3]
  have hret : raster3x3.contains sqrt_floor (((0 : ℚ) + 6) / 2) (((2 : ℚ) + 6) / 2) = true := by
    have e1 : ((0 : ℚ) + 6) / 2 = (3 + 3) / 2 := by norm_num
    have e2 : ((2 : ℚ) + 6) / 2 = (4 + 4) / 2 := by norm_num
    rw [e1, e2]
    exact contains_raster3x3_centre
  have hm : max |((6 : ℚ) - 0) / raster3x3.delta_x| |((6 : ℚ) - 2) / raster3x3.delta_y|
      < 2147483648 := by
    norm_num [raster3x3]
  obtain ⟨n, hn, hn1, -, -, hlt, -, -⟩ :=
    subedge_between_one_and_two_cells sqrt_floor raster3x3 (0, 2) (6, 6) hdx hdy hret hm
  exact ⟨⟨hdx, hdy, hret, hm⟩, n, hn, hn1, hlt⟩

end rasputin
